import Mathlib

/-!
# The vectorize-for rewrite of the CINN optimiser

A shallow embedding of `paddle/cinn/optim/vectorize_for_trans.cc`.  The rewriter class
`VectorizeForTransMutator` becomes a record of its member variables that is threaded through
the `Visit` functions; `PADDLE_ENFORCE_*`, `CINN_NOT_IMPLEMENTED` and the dereference of a null
`As<T>()` result become the error values of `Err`.

The IR node types, the default child traversal of `ir::IRMutator`, `IrReplaceVarBroadcast`,
`IRCopy` and `UnrollLoop` are declared in headers that are not part of the excerpt; they are
modelled here and marked as such.
-/

namespace cinn

/-- The ways in which the pass aborts. -/
inductive Err where
  /-- A failed `PADDLE_ENFORCE_*` carrying `errors::InvalidArgument`. -/
  | InvalidArgument
  /-- The statement `CINN_NOT_IMPLEMENTED`. -/
  | NotImplemented
  /-- A member access through the null result of `As<T>()` or through a null `Var`. -/
  | NullPointer
  /-- The exception of `flat_hash_map::at` on a missing key. -/
  | OutOfRange
  deriving DecidableEq, Repr

/-! ## Types -/

/-- Modelled from the spec: the kind tag of `common::Type` (a scalar type has a kind and a
bit width); the declaration lives in `paddle/cinn/common/type.h`. -/
inductive type_t where
  | Unk | Int | UInt | Float | String | Void | Customized
  deriving DecidableEq, Repr

/-- Modelled from the spec: the refinement of 16-bit floats into half and bfloat. -/
inductive specific_type_t where
  | None | FP16 | BF16
  deriving DecidableEq, Repr

/-- Modelled from the spec: `common::Type`, a scalar kind with bit width, lane count, pointer
and const marks and, for customized types, the backend type name. -/
structure Type_ where
  type_ : type_t
  bits : Int
  lanes : Int
  specific_type_ : specific_type_t
  cpp_handle : Bool
  cpp_const : Bool
  customized_type : String
  deriving DecidableEq, Repr

namespace Type_

/-- The constructor `Type(type_t, bits, lanes)`. -/
def make (t : type_t) (b w : Int) : Type_ :=
  { type_ := t, bits := b, lanes := w, specific_type_ := specific_type_t.None,
    cpp_handle := false, cpp_const := false, customized_type := "" }

/-- Modelled from the spec: `Type::is_int(bits)`. -/
def is_int (t : Type_) (b : Int) : Bool :=
  t.type_ = type_t.Int && (decide (b < 0) || decide (b = t.bits))

/-- Modelled from the spec: `Type::is_uint(bits)`. -/
def is_uint (t : Type_) (b : Int) : Bool :=
  t.type_ = type_t.UInt && (decide (b < 0) || decide (b = t.bits))

/-- Modelled from the spec: `Type::is_float(bits, specific_type)`; the specific type `None`
accepts every float of the width. -/
def is_float (t : Type_) (b : Int) (st : specific_type_t) : Bool :=
  t.type_ = type_t.Float && (decide (b < 0) || decide (b = t.bits)) &&
    (decide (st = specific_type_t.None) || decide (st = t.specific_type_))

/-- Modelled from the spec: `Type::is_float16()`. -/
def is_float16 (t : Type_) : Bool := t.is_float 16 specific_type_t.FP16

/-- Modelled from the spec: `Type::is_bfloat16()`. -/
def is_bfloat16 (t : Type_) : Bool := t.is_float 16 specific_type_t.BF16

/-- Modelled from the spec: `Type::ElementOf()`, the scalar type of one lane. -/
def ElementOf (t : Type_) : Type_ := { t with lanes := 1 }

/-- Modelled from the spec: `Type::PointerOf()`, the pointer-to variant of a type. -/
def PointerOf (t : Type_) : Type_ := { t with cpp_handle := true }

/-- The accessor `Type::is_cpp_handle()`. -/
def is_cpp_handle (t : Type_) : Bool := t.cpp_handle

/-- The setter `Type::set_customized_type`. -/
def set_customized_type (t : Type_) (n : String) : Type_ := { t with customized_type := n }

/-- The setter `Type::set_cpp_handle`. -/
def set_cpp_handle (t : Type_) : Type_ := { t with cpp_handle := true }

/-- The setter `Type::set_cpp_const`. -/
def set_cpp_const (t : Type_) (b : Bool) : Type_ := { t with cpp_const := b }

end Type_

/-! ## IR nodes -/

/-- Modelled from the spec: a variable node `ir::_Var_` seen through its handle `ir::Var`:
a name and a type. -/
structure Var where
  name : String
  type : Type_
  deriving DecidableEq, Repr

/-- Modelled from the spec: the loop kind flags `ir::ForType` that the pass reads or sets. -/
structure ForType where
  vectorized : Bool
  unrolled : Bool
  deriving DecidableEq, Repr

/-- Modelled from the spec: `ir::VectorizeInfo`, the vectorization metadata of a loop. -/
structure VectorizeInfo where
  level : Int
  factor : Int
  deriving DecidableEq, Repr

/-- Modelled from the spec: the expression tree `ir::Expr`, a tagged union over constants,
variables, sums, casts, lets, loads, stores, tensors, loops, conditionals, blocks and the
address-of intrinsic. The optional else branch and the optional let body are `Option`s. -/
inductive Expr where
  | IntImm (value : Int)
  | _Var_ (v : Var)
  | Add (a b : Expr)
  | Cast (type : Type_) (v : Expr)
  | Let (symbol : Expr) (body : Option Expr)
  | Load (tensor : Expr) (indices : List Expr)
  | Store (tensor : Expr) (value : Expr) (indices : List Expr)
  | _Tensor_ (name : String) (type : Type_) (shape domain : List Expr) (operation : String)
  | For (loop_var : Var) (min extent : Expr) (for_type : ForType) (body : Expr)
      (vectorize_info : VectorizeInfo)
  | IfThenElse (condition true_case : Expr) (false_case : Option Expr)
  | Block (stmts : List Expr)
  | GetAddr (data : Expr)

namespace Expr

/-- The test `x.As<ir::_Tensor_>() != nullptr`. -/
def as_tensor : Expr → Bool
  | _Tensor_ _ _ _ _ _ => true
  | _ => false

end Expr

/-- The method `LoadStoreAddrMnger::is_addr_tensor`. -/
def is_addr_tensor (tensor : Expr) : Bool := tensor.as_tensor

/-! ## Helpers of the IR library -/

mutual
/-- The function `CollectIndexSymbols`: its mutator overrides the visit of a variable node,
where it records the name, and inherits the visit of every other node. The null check on the
variable node cannot fire, since dispatch is on the kind of the node itself. The inherited
part, the default child traversal of `ir::IRMutator`, is declared outside the excerpt and is
modelled from the spec: a load walks its indices, a store its value, tensor and indices, a
tensor its shape, a loop its bounds and body, every other node its children. -/
def CollectIndexSymbols : Expr → List String
  | .IntImm _ => []
  | ._Var_ v => [v.name]
  | .Add a b => CollectIndexSymbols a ++ CollectIndexSymbols b
  | .Cast _ v => CollectIndexSymbols v
  | .Let symbol body => CollectIndexSymbols symbol ++ CollectIndexSymbolsOpt body
  | .Load _ indices => CollectIndexSymbolsList indices
  | .Store tensor value indices =>
      CollectIndexSymbols value ++ CollectIndexSymbols tensor ++ CollectIndexSymbolsList indices
  | ._Tensor_ _ _ shape _ _ => CollectIndexSymbolsList shape
  | .For _ min extent _ body _ =>
      CollectIndexSymbols min ++ CollectIndexSymbols extent ++ CollectIndexSymbols body
  | .IfThenElse condition true_case false_case =>
      CollectIndexSymbols condition ++ CollectIndexSymbols true_case ++
        CollectIndexSymbolsOpt false_case
  | .Block stmts => CollectIndexSymbolsList stmts
  | .GetAddr data => CollectIndexSymbols data
/-- The walk of `CollectIndexSymbols` over a list of children. -/
def CollectIndexSymbolsList : List Expr → List String
  | [] => []
  | e :: es => CollectIndexSymbols e ++ CollectIndexSymbolsList es
/-- The walk of `CollectIndexSymbols` over an optional child. -/
def CollectIndexSymbolsOpt : Option Expr → List String
  | none => []
  | some e => CollectIndexSymbols e
end

mutual
/-- Modelled from the spec: `ir_utils::IrReplaceVarBroadcast(&e, from, to)` substitutes `to_`
for every variable node named like `from`, reaching the children that the default traversal of
`ir::IRMutator` reaches. -/
def IrReplaceVarBroadcast : Expr → Var → Expr → Expr
  | .IntImm value, _, _ => .IntImm value
  | ._Var_ v, var, to_ => if v.name = var.name then to_ else ._Var_ v
  | .Add a b, var, to_ => .Add (IrReplaceVarBroadcast a var to_) (IrReplaceVarBroadcast b var to_)
  | .Cast type v, var, to_ => .Cast type (IrReplaceVarBroadcast v var to_)
  | .Let symbol body, var, to_ =>
      .Let (IrReplaceVarBroadcast symbol var to_) (IrReplaceVarBroadcastOpt body var to_)
  | .Load tensor indices, var, to_ => .Load tensor (IrReplaceVarBroadcastList indices var to_)
  | .Store tensor value indices, var, to_ =>
      .Store (IrReplaceVarBroadcast tensor var to_) (IrReplaceVarBroadcast value var to_)
        (IrReplaceVarBroadcastList indices var to_)
  | ._Tensor_ name type shape domain operation, var, to_ =>
      ._Tensor_ name type (IrReplaceVarBroadcastList shape var to_) domain operation
  | .For loop_var min extent for_type body vectorize_info, var, to_ =>
      .For loop_var (IrReplaceVarBroadcast min var to_) (IrReplaceVarBroadcast extent var to_)
        for_type (IrReplaceVarBroadcast body var to_) vectorize_info
  | .IfThenElse condition true_case false_case, var, to_ =>
      .IfThenElse (IrReplaceVarBroadcast condition var to_)
        (IrReplaceVarBroadcast true_case var to_) (IrReplaceVarBroadcastOpt false_case var to_)
  | .Block stmts, var, to_ => .Block (IrReplaceVarBroadcastList stmts var to_)
  | .GetAddr data, var, to_ => .GetAddr (IrReplaceVarBroadcast data var to_)
/-- The substitution over a list of children. -/
def IrReplaceVarBroadcastList : List Expr → Var → Expr → List Expr
  | [], _, _ => []
  | e :: es, var, to_ => IrReplaceVarBroadcast e var to_ :: IrReplaceVarBroadcastList es var to_
/-- The substitution over an optional child. -/
def IrReplaceVarBroadcastOpt : Option Expr → Var → Expr → Option Expr
  | none, _, _ => none
  | some e, var, to_ => some (IrReplaceVarBroadcast e var to_)
end

/-- Modelled from the spec: `optim::UnrollLoop`, which turns a loop marked unrolled with
constant bounds into a block of straight-line statements, one copy of the body per iteration
with the induction variable replaced by the value of that iteration. Any other node is
returned as it is. -/
def UnrollLoop : Expr → Expr
  | .For loop_var (.IntImm min) (.IntImm extent) for_type body vectorize_info =>
      if for_type.unrolled then
        .Block ((List.range extent.toNat).map
          (fun (i : Nat) => IrReplaceVarBroadcast body loop_var (.IntImm (min + (i : Int)))))
      else .For loop_var (.IntImm min) (.IntImm extent) for_type body vectorize_info
  | e => e

/-! ## The rewriter -/

/-- The member variables of `VectorizeForTransMutator`. The hash map from tensor names to
synthesized variables is an association list with unique keys. -/
structure VectorizeForTransMutator where
  update_cast_stmts_ : List Expr
  update_store_stmts_ : List Expr
  tensor2vectorized_vars_ : List (String × Var)
  vectorize_size_ : Int
  loop_var_ : Option Var
  in_vectorize_ : Bool
  var_index_ : Nat

namespace VectorizeForTransMutator

/-- The default member initialisers of the class. -/
def init : VectorizeForTransMutator :=
  { update_cast_stmts_ := [], update_store_stmts_ := [], tensor2vectorized_vars_ := [],
    vectorize_size_ := 0, loop_var_ := none, in_vectorize_ := false, var_index_ := 0 }

/-- Modelled from the spec: the CUDA vector-type name prefix
`customized_type::kcuda_builtin_vector_t`, declared in `paddle/cinn/common/type.h`. -/
def kcuda_builtin_vector_t : String := "CudaVectorType::"

/-- The method `flat_hash_map::count`. -/
def map_count (m : List (String × Var)) (k : String) : Nat :=
  if (m.lookup k).isSome then 1 else 0

/-- The method `flat_hash_map::emplace`: an existing key keeps its value. -/
def map_emplace (m : List (String × Var)) (k : String) (v : Var) : List (String × Var) :=
  if (m.lookup k).isSome then m else m ++ [(k, v)]

/-- The method `GetVectorTypeName`. -/
def GetVectorTypeName (self : VectorizeForTransMutator) (type : Type_) : Except Err String :=
  if type.is_int 8 then
    .ok (kcuda_builtin_vector_t ++ "char" ++ toString self.vectorize_size_)
  else if type.is_int 16 then
    .ok (kcuda_builtin_vector_t ++ "short" ++ toString self.vectorize_size_)
  else if type.is_int 32 then
    .ok (kcuda_builtin_vector_t ++ "int" ++ toString self.vectorize_size_)
  else if type.is_uint 32 then
    .ok (kcuda_builtin_vector_t ++ "uint" ++ toString self.vectorize_size_)
  else if type.is_float 32 specific_type_t.None then
    .ok (kcuda_builtin_vector_t ++ "float" ++ toString self.vectorize_size_)
  else if type.is_float16 then
    .ok (kcuda_builtin_vector_t ++ "float16" ++ toString self.vectorize_size_)
  else if type.is_bfloat16 then
    .ok (kcuda_builtin_vector_t ++ "bfloat16" ++ toString self.vectorize_size_)
  else
    .error Err.NotImplemented

/-- The method `IsScalarTensor`. -/
def IsScalarTensor (self : VectorizeForTransMutator) : List Expr → Except Err Bool
  | [] => .ok true
  | var :: rest =>
      match self.loop_var_ with
      | none => .error Err.NullPointer
      | some loop_var =>
          if (CollectIndexSymbols var).contains loop_var.name then .ok false
          else IsScalarTensor self rest

/-- The method `AppendCast`. -/
def AppendCast (self : VectorizeForTransMutator) (tensor : Expr) (indices : List Expr)
    (is_store : Bool) : Except Err VectorizeForTransMutator :=
  match tensor with
  | Expr._Tensor_ node_name node_type _ _ node_operation => do
      let scalar_type := node_type.ElementOf
      let vector_type_ptr := Type_.make type_t.Customized scalar_type.bits self.vectorize_size_
      let vector_type := Type_.make type_t.Customized scalar_type.bits self.vectorize_size_
      let ptr_name ← self.GetVectorTypeName scalar_type
      let vector_type_ptr :=
        ((vector_type_ptr.set_customized_type ptr_name).set_cpp_handle).set_cpp_const false
      let vec_name ← self.GetVectorTypeName scalar_type
      let vector_type := (vector_type.set_customized_type vec_name).set_cpp_const false
      let vectorized_name := "vectorized_" ++ node_name ++ "_" ++ toString self.var_index_
      let vectorized_var : Var := { name := vectorized_name, type := vector_type }
      let self := { self with
        var_index_ := self.var_index_ + 1,
        tensor2vectorized_vars_ := map_emplace self.tensor2vectorized_vars_ node_name vectorized_var }
      match self.loop_var_ with
      | none => .error Err.NullPointer
      | some loop_var =>
          let converted_tensor :=
            IrReplaceVarBroadcast (Expr.Load tensor indices) loop_var (Expr.IntImm 0)
          let get_addr := Expr.GetAddr converted_tensor
          let cast := Expr.Cast vector_type_ptr get_addr
          if !is_store then
            let load := Expr.Load cast [Expr.IntImm 0]
            let let_ := Expr.Let (Expr._Var_ vectorized_var) (some load)
            .ok { self with update_cast_stmts_ := self.update_cast_stmts_ ++ [let_] }
          else
            let vectorized_ptr : Var :=
              { name := vectorized_name ++ "_ptr", type := vector_type_ptr }
            let let1 := Expr.Let (Expr._Var_ vectorized_ptr) (some cast)
            let let2 := Expr.Let (Expr._Var_ vectorized_var) (some (Expr.IntImm 0))
            let t := Expr._Tensor_ vectorized_ptr.name node_type.PointerOf
              [Expr.IntImm self.vectorize_size_] [Expr.IntImm self.vectorize_size_]
              node_operation
            let store := Expr.Store t (Expr._Var_ vectorized_var) [Expr.IntImm 0]
            .ok { self with
              update_cast_stmts_ := self.update_cast_stmts_ ++ [let1, let2],
              update_store_stmts_ := self.update_store_stmts_ ++ [store] }
  | _ => .error Err.NullPointer

/-- The method `TensorVectorized`; it returns the new tensor reference and index list of the
access together with the rewriter. -/
def TensorVectorized (self : VectorizeForTransMutator) (node_tensor : Expr)
    (indices : List Expr) (is_store : Bool) :
    Except Err ((Expr × List Expr) × VectorizeForTransMutator) :=
  match node_tensor with
  | Expr._Tensor_ tensor_name tensor_type _ _ tensor_operation => do
      let self ←
        if map_count self.tensor2vectorized_vars_ tensor_name = 0 then
          self.AppendCast node_tensor indices is_store
        else .ok self
      match self.tensor2vectorized_vars_.lookup tensor_name with
      | none => .error Err.OutOfRange
      | some vectorized_var =>
          let t := if vectorized_var.type.is_cpp_handle then tensor_type.PointerOf
            else tensor_type
          match self.loop_var_ with
          | none => .error Err.NullPointer
          | some loop_var =>
              .ok ((Expr._Tensor_ vectorized_var.name t [Expr.IntImm self.vectorize_size_]
                  [Expr.IntImm self.vectorize_size_] tensor_operation,
                [Expr._Var_ loop_var]), self)
  | _ => .error Err.NullPointer

/-- The override `Visit(const ir::Load*, Expr*)`. -/
def VisitLoad (self : VectorizeForTransMutator) (tensor : Expr) (indices : List Expr) :
    Except Err (Expr × VectorizeForTransMutator) :=
  if self.in_vectorize_ then
    if is_addr_tensor tensor then do
      let scalar ← self.IsScalarTensor indices
      if !scalar then
        let ((tensor, indices), self) ← self.TensorVectorized tensor indices false
        .ok (Expr.Load tensor indices, self)
      else .ok (Expr.Load tensor indices, self)
    else .ok (Expr.Load tensor indices, self)
  else .ok (Expr.Load tensor indices, self)

/-- The part of `Visit(const ir::Store*, Expr*)` before the walk into the stored value: the
tensor check and the rewrite of the target. -/
def VisitStoreTarget (self : VectorizeForTransMutator) (tensor : Expr) (indices : List Expr) :
    Except Err ((Expr × List Expr) × VectorizeForTransMutator) :=
  if tensor.as_tensor then
    if self.in_vectorize_ then do
      let scalar ← self.IsScalarTensor indices
      if !scalar then self.TensorVectorized tensor indices true
      else .ok ((tensor, indices), self)
    else .ok ((tensor, indices), self)
  else .error Err.InvalidArgument

/-- The first statement of `Visit(const ir::For*, Expr*)`: a vectorized loop records its
factor and loop variable and switches vectorize mode on. -/
def ForEnter (self : VectorizeForTransMutator) (loop_var : Var) (for_type : ForType)
    (vectorize_info : VectorizeInfo) : VectorizeForTransMutator :=
  if for_type.vectorized then
    { self with vectorize_size_ := vectorize_info.factor, loop_var_ := some loop_var,
                in_vectorize_ := true }
  else self

/-- The part of `Visit(const ir::For*, Expr*)` after the walk into the children of the loop;
the arguments are the fields of the loop after that walk. -/
def ForExit (self : VectorizeForTransMutator) (loop_var : Var) (min extent : Expr)
    (for_type : ForType) (body : Expr) (vectorize_info : VectorizeInfo) :
    Except Err (Expr × VectorizeForTransMutator) := do
  let (expr, self) ←
    if self.in_vectorize_ then
      let factor := vectorize_info.factor
      if factor > 1 then
        let copied_loop :=
          Expr.For loop_var min extent { for_type with unrolled := true } body vectorize_info
        match UnrollLoop copied_loop with
        | Expr.Block unroll_body =>
            match body with
            | Expr.Block body_stmts =>
                let (body_stmts, self) :=
                  if !self.update_cast_stmts_.isEmpty then
                    (self.update_cast_stmts_, { self with update_cast_stmts_ := [] })
                  else (body_stmts, self)
                let body_stmts := body_stmts ++ unroll_body
                let (body_stmts, self) :=
                  if !self.update_store_stmts_.isEmpty then
                    (body_stmts ++ self.update_store_stmts_,
                      { self with update_store_stmts_ := [] })
                  else (body_stmts, self)
                (.ok (Expr.Block body_stmts, self) :
                  Except Err (Expr × VectorizeForTransMutator))
            | _ => .error Err.NullPointer
        | _ => .error Err.NullPointer
      else .error Err.InvalidArgument
    else .ok (Expr.For loop_var min extent for_type body vectorize_info, self)
  .ok (expr, { self with tensor2vectorized_vars_ := [], in_vectorize_ := false })

mutual
/-- The dispatching `IRMutator::Visit(const Expr*, Expr*)` of the rewriter: the overrides for
loads, stores, conditionals and loops, and for every other node the default child traversal
of `ir::IRMutator`, which is declared outside the excerpt and modelled from the spec (a node
walks its children in order; a tensor node walks its shape). -/
def Visit : Expr → VectorizeForTransMutator → Except Err (Expr × VectorizeForTransMutator)
  | .IntImm value, self => .ok (.IntImm value, self)
  | ._Var_ v, self => .ok (._Var_ v, self)
  | .Add a b, self => do
      let (a, self) ← Visit a self
      let (b, self) ← Visit b self
      .ok (.Add a b, self)
  | .Cast type v, self => do
      let (v, self) ← Visit v self
      .ok (.Cast type v, self)
  | .Let symbol body, self => do
      let (symbol, self) ← Visit symbol self
      let (body, self) ← VisitOpt body self
      .ok (.Let symbol body, self)
  | .Load tensor indices, self => self.VisitLoad tensor indices
  | .Store tensor value indices, self => do
      let ((tensor, indices), self) ← self.VisitStoreTarget tensor indices
      let (value, self) ← Visit value self
      .ok (.Store tensor value indices, self)
  | ._Tensor_ name type shape domain operation, self => do
      let (shape, self) ← VisitList shape self
      .ok (._Tensor_ name type shape domain operation, self)
  | .For loop_var min extent for_type body vectorize_info, self => do
      let self := self.ForEnter loop_var for_type vectorize_info
      let (min, self) ← Visit min self
      let (extent, self) ← Visit extent self
      let (body, self) ← Visit body self
      self.ForExit loop_var min extent for_type body vectorize_info
  | .IfThenElse condition true_case false_case, self => do
      let self := { self with in_vectorize_ := false }
      let (condition, self) ← Visit condition self
      let (true_case, self) ← Visit true_case self
      let (false_case, self) ← VisitOpt false_case self
      .ok (.IfThenElse condition true_case false_case, self)
  | .Block stmts, self => do
      let (stmts, self) ← VisitList stmts self
      .ok (.Block stmts, self)
  | .GetAddr data, self => do
      let (data, self) ← Visit data self
      .ok (.GetAddr data, self)
/-- The rewriter over a list of children, first to last. -/
def VisitList : List Expr → VectorizeForTransMutator →
    Except Err (List Expr × VectorizeForTransMutator)
  | [], self => .ok ([], self)
  | e :: es, self => do
      let (e, self) ← Visit e self
      let (es, self) ← VisitList es self
      .ok (e :: es, self)
/-- The rewriter over an optional child; an undefined child is skipped. -/
def VisitOpt : Option Expr → VectorizeForTransMutator →
    Except Err (Option Expr × VectorizeForTransMutator)
  | none, self => .ok (none, self)
  | some e, self => do
      let (e, self) ← Visit e self
      .ok (some e, self)
end

end VectorizeForTransMutator

/-- The entry point `VectorizeForTrans(Expr*)`: a fresh rewriter walks the tree; the result
is the tree that the handle holds afterwards. -/
def VectorizeForTrans (expr : Expr) : Except Err Expr :=
  (VectorizeForTransMutator.Visit expr VectorizeForTransMutator.init).map Prod.fst

/-! ## Predicates on trees and rewriter states used in the statements -/

mutual
/-- Whether a loop marked vectorized occurs anywhere in the tree. -/
def HasVectorizedFor : Expr → Bool
  | .IntImm _ => false
  | ._Var_ _ => false
  | .Add a b => HasVectorizedFor a || HasVectorizedFor b
  | .Cast _ v => HasVectorizedFor v
  | .Let symbol body => HasVectorizedFor symbol || HasVectorizedForOpt body
  | .Load tensor indices => HasVectorizedFor tensor || HasVectorizedForList indices
  | .Store tensor value indices =>
      HasVectorizedFor tensor || HasVectorizedFor value || HasVectorizedForList indices
  | ._Tensor_ _ _ shape domain _ => HasVectorizedForList shape || HasVectorizedForList domain
  | .For _ min extent for_type body _ =>
      for_type.vectorized || HasVectorizedFor min || HasVectorizedFor extent ||
        HasVectorizedFor body
  | .IfThenElse condition true_case false_case =>
      HasVectorizedFor condition || HasVectorizedFor true_case ||
        HasVectorizedForOpt false_case
  | .Block stmts => HasVectorizedForList stmts
  | .GetAddr data => HasVectorizedFor data
/-- Whether a loop marked vectorized occurs in one of the trees of a list. -/
def HasVectorizedForList : List Expr → Bool
  | [] => false
  | e :: es => HasVectorizedFor e || HasVectorizedForList es
/-- Whether a loop marked vectorized occurs in an optional tree. -/
def HasVectorizedForOpt : Option Expr → Bool
  | none => false
  | some e => HasVectorizedFor e
end

mutual
/-- Whether a conditional or a loop of any kind occurs anywhere in the tree. -/
def HasBranchOrLoop : Expr → Bool
  | .IntImm _ => false
  | ._Var_ _ => false
  | .Add a b => HasBranchOrLoop a || HasBranchOrLoop b
  | .Cast _ v => HasBranchOrLoop v
  | .Let symbol body => HasBranchOrLoop symbol || HasBranchOrLoopOpt body
  | .Load tensor indices => HasBranchOrLoop tensor || HasBranchOrLoopList indices
  | .Store tensor value indices =>
      HasBranchOrLoop tensor || HasBranchOrLoop value || HasBranchOrLoopList indices
  | ._Tensor_ _ _ shape domain _ => HasBranchOrLoopList shape || HasBranchOrLoopList domain
  | .For _ _ _ _ _ _ => true
  | .IfThenElse _ _ _ => true
  | .Block stmts => HasBranchOrLoopList stmts
  | .GetAddr data => HasBranchOrLoop data
/-- Whether a conditional or a loop occurs in one of the trees of a list. -/
def HasBranchOrLoopList : List Expr → Bool
  | [] => false
  | e :: es => HasBranchOrLoop e || HasBranchOrLoopList es
/-- Whether a conditional or a loop occurs in an optional tree. -/
def HasBranchOrLoopOpt : Option Expr → Bool
  | none => false
  | some e => HasBranchOrLoop e
end

mutual
/-- Whether every store node of the tree has a tensor node as its target. -/
def StoresTargetTensors : Expr → Bool
  | .IntImm _ => true
  | ._Var_ _ => true
  | .Add a b => StoresTargetTensors a && StoresTargetTensors b
  | .Cast _ v => StoresTargetTensors v
  | .Let symbol body => StoresTargetTensors symbol && StoresTargetTensorsOpt body
  | .Load tensor indices => StoresTargetTensors tensor && StoresTargetTensorsList indices
  | .Store tensor value indices =>
      tensor.as_tensor && StoresTargetTensors tensor && StoresTargetTensors value &&
        StoresTargetTensorsList indices
  | ._Tensor_ _ _ shape domain _ =>
      StoresTargetTensorsList shape && StoresTargetTensorsList domain
  | .For _ min extent _ body _ =>
      StoresTargetTensors min && StoresTargetTensors extent && StoresTargetTensors body
  | .IfThenElse condition true_case false_case =>
      StoresTargetTensors condition && StoresTargetTensors true_case &&
        StoresTargetTensorsOpt false_case
  | .Block stmts => StoresTargetTensorsList stmts
  | .GetAddr data => StoresTargetTensors data
/-- The same for the trees of a list. -/
def StoresTargetTensorsList : List Expr → Bool
  | [] => true
  | e :: es => StoresTargetTensors e && StoresTargetTensorsList es
/-- The same for an optional tree. -/
def StoresTargetTensorsOpt : Option Expr → Bool
  | none => true
  | some e => StoresTargetTensors e
end

/-- Whether the name of the loop variable is among the symbols collected from at least one of
the index expressions of an access. -/
def DependsOn (loop_var_name : String) (indices : List Expr) : Bool :=
  indices.any (fun index => (CollectIndexSymbols index).contains loop_var_name)

mutual
/-- The index lists of the tensor accesses of a tree, in the order in which the rewriter
meets them: the loads of a tensor node and the stores, at the positions that `Visit` walks
(an access inside the address of another access is not one of them). -/
def TensorAccesses : Expr → List (List Expr)
  | .IntImm _ => []
  | ._Var_ _ => []
  | .Add a b => TensorAccesses a ++ TensorAccesses b
  | .Cast _ v => TensorAccesses v
  | .Let symbol body => TensorAccesses symbol ++ TensorAccessesOpt body
  | .Load tensor indices => if tensor.as_tensor then [indices] else []
  | .Store tensor value indices =>
      (if tensor.as_tensor then [indices] else []) ++ TensorAccesses value
  | ._Tensor_ _ _ shape _ _ => TensorAccessesList shape
  | .For _ min extent _ body _ =>
      TensorAccesses min ++ TensorAccesses extent ++ TensorAccesses body
  | .IfThenElse condition true_case false_case =>
      TensorAccesses condition ++ TensorAccesses true_case ++ TensorAccessesOpt false_case
  | .Block stmts => TensorAccessesList stmts
  | .GetAddr data => TensorAccesses data
/-- The tensor accesses of the trees of a list. -/
def TensorAccessesList : List Expr → List (List Expr)
  | [] => []
  | e :: es => TensorAccesses e ++ TensorAccessesList es
/-- The tensor accesses of an optional tree. -/
def TensorAccessesOpt : Option Expr → List (List Expr)
  | none => []
  | some e => TensorAccesses e
end

mutual
/-- The trees on which every vectorized loop keeps vectorize mode until its end: neither the
bounds nor the body of a vectorized loop contain a conditional or a loop, and no vectorized
loop hides in the tensor reference or the index list of an access or in the domain of a
tensor, where the rewriter does not walk. -/
def VectorizedLoopsStraight : Expr → Bool
  | .IntImm _ => true
  | ._Var_ _ => true
  | .Add a b => VectorizedLoopsStraight a && VectorizedLoopsStraight b
  | .Cast _ v => VectorizedLoopsStraight v
  | .Let symbol body => VectorizedLoopsStraight symbol && VectorizedLoopsStraightOpt body
  | .Load tensor indices => !HasVectorizedFor tensor && !HasVectorizedForList indices
  | .Store tensor value indices =>
      !HasVectorizedFor tensor && !HasVectorizedForList indices &&
        VectorizedLoopsStraight value
  | ._Tensor_ _ _ shape domain _ =>
      VectorizedLoopsStraightList shape && !HasVectorizedForList domain
  | .For _ min extent for_type body _ =>
      if for_type.vectorized then
        !HasBranchOrLoop min && !HasBranchOrLoop extent && !HasBranchOrLoop body
      else
        VectorizedLoopsStraight min && VectorizedLoopsStraight extent &&
          VectorizedLoopsStraight body
  | .IfThenElse condition true_case false_case =>
      VectorizedLoopsStraight condition && VectorizedLoopsStraight true_case &&
        VectorizedLoopsStraightOpt false_case
  | .Block stmts => VectorizedLoopsStraightList stmts
  | .GetAddr data => VectorizedLoopsStraight data
/-- The same for the trees of a list. -/
def VectorizedLoopsStraightList : List Expr → Bool
  | [] => true
  | e :: es => VectorizedLoopsStraight e && VectorizedLoopsStraightList es
/-- The same for an optional tree. -/
def VectorizedLoopsStraightOpt : Option Expr → Bool
  | none => true
  | some e => VectorizedLoopsStraight e
end

namespace VectorizeForTransMutator

/-- The vector type that `AppendCast` builds from the scalar type of a tensor and the backend
type name. -/
def VectorType (self : VectorizeForTransMutator) (scalar_type : Type_) (type_name : String) :
    Type_ :=
  ((Type_.make type_t.Customized scalar_type.bits self.vectorize_size_).set_customized_type
    type_name).set_cpp_const false

/-- The pointer-to-vector type that `AppendCast` builds. -/
def VectorTypePtr (self : VectorizeForTransMutator) (scalar_type : Type_)
    (type_name : String) : Type_ :=
  (((Type_.make type_t.Customized scalar_type.bits self.vectorize_size_).set_customized_type
    type_name).set_cpp_handle).set_cpp_const false

/-- The local vector variable that `AppendCast` creates for a tensor. -/
def VectorizedVar (self : VectorizeForTransMutator) (tensor_name : String) (tensor_type : Type_)
    (type_name : String) : Var :=
  { name := "vectorized_" ++ tensor_name ++ "_" ++ toString self.var_index_,
    type := self.VectorType tensor_type.ElementOf type_name }

/-- The pointer variable that the write path of `AppendCast` creates for a tensor. -/
def VectorizedPtr (self : VectorizeForTransMutator) (tensor_name : String) (tensor_type : Type_)
    (type_name : String) : Var :=
  { name := "vectorized_" ++ tensor_name ++ "_" ++ toString self.var_index_ ++ "_ptr",
    type := self.VectorTypePtr tensor_type.ElementOf type_name }

/-- The cast of the address of the access, with the loop variable set to zero, to the
pointer-to-vector type. -/
def CastExpr (self : VectorizeForTransMutator) (tensor : Expr) (tensor_type : Type_)
    (indices : List Expr) (loop_var : Var) (type_name : String) : Expr :=
  Expr.Cast (self.VectorTypePtr tensor_type.ElementOf type_name)
    (Expr.GetAddr (IrReplaceVarBroadcast (Expr.Load tensor indices) loop_var (Expr.IntImm 0)))

/-- The statements that `AppendCast` appends to `update_cast_stmts_`. -/
def CastSetup (self : VectorizeForTransMutator) (tensor : Expr) (tensor_name : String)
    (tensor_type : Type_) (indices : List Expr) (is_store : Bool) (loop_var : Var)
    (type_name : String) : List Expr :=
  if is_store then
    [Expr.Let (Expr._Var_ (self.VectorizedPtr tensor_name tensor_type type_name))
        (some (self.CastExpr tensor tensor_type indices loop_var type_name)),
      Expr.Let (Expr._Var_ (self.VectorizedVar tensor_name tensor_type type_name))
        (some (Expr.IntImm 0))]
  else
    [Expr.Let (Expr._Var_ (self.VectorizedVar tensor_name tensor_type type_name))
        (some (Expr.Load (self.CastExpr tensor tensor_type indices loop_var type_name)
          [Expr.IntImm 0]))]

/-- The statements that `AppendCast` appends to `update_store_stmts_`. -/
def StoreBack (self : VectorizeForTransMutator) (tensor_name : String) (tensor_type : Type_)
    (tensor_operation : String) (is_store : Bool) (type_name : String) : List Expr :=
  if is_store then
    [Expr.Store
      (Expr._Tensor_ (self.VectorizedPtr tensor_name tensor_type type_name).name
        tensor_type.PointerOf [Expr.IntImm self.vectorize_size_]
        [Expr.IntImm self.vectorize_size_] tensor_operation)
      (Expr._Var_ (self.VectorizedVar tensor_name tensor_type type_name)) [Expr.IntImm 0]]
  else []

/-- The tensor reference that `TensorVectorized` puts in place of the original one. -/
def VectorizedTensor (self : VectorizeForTransMutator) (vectorized_var : Var)
    (tensor_type : Type_) (tensor_operation : String) : Expr :=
  Expr._Tensor_ vectorized_var.name
    (if vectorized_var.type.is_cpp_handle then tensor_type.PointerOf else tensor_type)
    [Expr.IntImm self.vectorize_size_] [Expr.IntImm self.vectorize_size_] tensor_operation

/-- The pending cast-setup list is non-empty whenever the mapping is non-empty. -/
def CastsCoverVars (self : VectorizeForTransMutator) : Prop :=
  self.tensor2vectorized_vars_ ≠ [] → self.update_cast_stmts_ ≠ []

/-- No pending statement contains a vectorized loop. -/
def PendingClean (self : VectorizeForTransMutator) : Prop :=
  HasVectorizedForList self.update_cast_stmts_ = false ∧
    HasVectorizedForList self.update_store_stmts_ = false

/-- How the rewriter changes over a stretch of the walk that neither enters a conditional nor
finishes a loop: mode, loop variable and factor stay, the pending lists and the mapping only
grow at their ends, and the name counter advances by the number of new mapping entries. -/
structure Grows (s s' : VectorizeForTransMutator) : Prop where
  in_vectorize : s'.in_vectorize_ = s.in_vectorize_
  loop_var : s'.loop_var_ = s.loop_var_
  vectorize_size : s'.vectorize_size_ = s.vectorize_size_
  casts : ∃ added, s'.update_cast_stmts_ = s.update_cast_stmts_ ++ added
  stores : ∃ added, s'.update_store_stmts_ = s.update_store_stmts_ ++ added
  vars : ∃ added, s'.tensor2vectorized_vars_ = s.tensor2vectorized_vars_ ++ added ∧
    s'.var_index_ = s.var_index_ + added.length
  nodup : (s.tensor2vectorized_vars_.map Prod.fst).Nodup →
    (s'.tensor2vectorized_vars_.map Prod.fst).Nodup
  covers : s.CastsCoverVars → s'.CastsCoverVars

/-- How the rewriter changes over a stretch of the walk made outside vectorize mode: the
pending lists, the name counter, the factor and the loop variable stay, the mode stays off,
and the mapping is kept or, after a loop, emptied. -/
structure Untouched (s s' : VectorizeForTransMutator) : Prop where
  in_vectorize : s'.in_vectorize_ = false
  loop_var : s'.loop_var_ = s.loop_var_
  vectorize_size : s'.vectorize_size_ = s.vectorize_size_
  casts : s'.update_cast_stmts_ = s.update_cast_stmts_
  stores : s'.update_store_stmts_ = s.update_store_stmts_
  var_index : s'.var_index_ = s.var_index_
  vars : s'.tensor2vectorized_vars_ = s.tensor2vectorized_vars_ ∨
    s'.tensor2vectorized_vars_ = []

/-- The traversal started on a tree in a rewriter state arrives at a node in a rewriter
state: `Reaches e s n sn` holds when `Visit e s` calls `Visit n sn`, every call that comes
before it in `Visit e s` having returned without error. -/
inductive Reaches : Expr → VectorizeForTransMutator → Expr → VectorizeForTransMutator → Prop
  | here (e s) : Reaches e s e s
  | add_a {a b s n sn} : Reaches a s n sn → Reaches (.Add a b) s n sn
  | add_b {a b s a' s1 n sn} : Visit a s = .ok (a', s1) → Reaches b s1 n sn →
      Reaches (.Add a b) s n sn
  | cast {type v s n sn} : Reaches v s n sn → Reaches (.Cast type v) s n sn
  | let_symbol {symbol body s n sn} : Reaches symbol s n sn →
      Reaches (.Let symbol body) s n sn
  | let_body {symbol body s symbol' s1 n sn} : Visit symbol s = .ok (symbol', s1) →
      Reaches body s1 n sn → Reaches (.Let symbol (some body)) s n sn
  | store_value {tensor value indices s target s1 n sn} :
      s.VisitStoreTarget tensor indices = .ok (target, s1) → Reaches value s1 n sn →
      Reaches (.Store tensor value indices) s n sn
  | tensor_shape (before : List Expr) (x : Expr) (after : List Expr)
      {name type domain operation s before' s1 n sn} :
      VisitList before s = .ok (before', s1) → Reaches x s1 n sn →
      Reaches (._Tensor_ name type (before ++ x :: after) domain operation) s n sn
  | for_min {loop_var min extent for_type body vectorize_info s n sn} :
      Reaches min (s.ForEnter loop_var for_type vectorize_info) n sn →
      Reaches (.For loop_var min extent for_type body vectorize_info) s n sn
  | for_extent {loop_var min extent for_type body vectorize_info s min' s1 n sn} :
      Visit min (s.ForEnter loop_var for_type vectorize_info) = .ok (min', s1) →
      Reaches extent s1 n sn →
      Reaches (.For loop_var min extent for_type body vectorize_info) s n sn
  | for_body {loop_var min extent for_type body vectorize_info s min' s1 extent' s2 n sn} :
      Visit min (s.ForEnter loop_var for_type vectorize_info) = .ok (min', s1) →
      Visit extent s1 = .ok (extent', s2) → Reaches body s2 n sn →
      Reaches (.For loop_var min extent for_type body vectorize_info) s n sn
  | if_condition {condition true_case false_case s n sn} :
      Reaches condition { s with in_vectorize_ := false } n sn →
      Reaches (.IfThenElse condition true_case false_case) s n sn
  | if_true {condition true_case false_case s condition' s1 n sn} :
      Visit condition { s with in_vectorize_ := false } = .ok (condition', s1) →
      Reaches true_case s1 n sn →
      Reaches (.IfThenElse condition true_case false_case) s n sn
  | if_false {condition true_case false_case s condition' s1 true_case' s2 n sn} :
      Visit condition { s with in_vectorize_ := false } = .ok (condition', s1) →
      Visit true_case s1 = .ok (true_case', s2) → Reaches false_case s2 n sn →
      Reaches (.IfThenElse condition true_case (some false_case)) s n sn
  | block (before : List Expr) (x : Expr) (after : List Expr) {s before' s1 n sn} :
      VisitList before s = .ok (before', s1) → Reaches x s1 n sn →
      Reaches (.Block (before ++ x :: after)) s n sn
  | get_addr {data s n sn} : Reaches data s n sn → Reaches (.GetAddr data) s n sn

end VectorizeForTransMutator

/-- The scalar types `int8`, `int16`, `int32`, `uint32`, `float32`, `float16` and
`bfloat16`. -/
def IsVectorScalarType (type : Type_) : Bool :=
  type.is_int 8 || type.is_int 16 || type.is_int 32 || type.is_uint 32 ||
    type.is_float 32 specific_type_t.None || type.is_float16 || type.is_bfloat16

/-- The names of the tensors that the store statements of a list write to. -/
def StoreTargetNames : List Expr → List String
  | [] => []
  | Expr.Store (Expr._Tensor_ name _ _ _ _) _ _ :: rest => name :: StoreTargetNames rest
  | _ :: rest => StoreTargetNames rest

/-! ## Concrete trees -/

namespace Examples

/-- The scalar type `float32`. -/
def Float32 : Type_ := Type_.make type_t.Float 32 1

/-- The scalar type `float64`. -/
def Float64 : Type_ := Type_.make type_t.Float 64 1

/-- The scalar type `int32`. -/
def Int32 : Type_ := Type_.make type_t.Int 32 1

/-- The loop variable `i`. -/
def i : Var := { name := "i", type := Int32 }

/-- The loop variable `j`. -/
def j : Var := { name := "j", type := Int32 }

/-- A one-dimensional tensor of four `float32` elements. -/
def Tensor4 (name : String) : Expr :=
  Expr._Tensor_ name Float32 [Expr.IntImm 4] [Expr.IntImm 4] (name ++ "_op")

/-- A one-dimensional tensor of four `float64` elements. -/
def DoubleTensor4 (name : String) : Expr :=
  Expr._Tensor_ name Float64 [Expr.IntImm 4] [Expr.IntImm 4] (name ++ "_op")

/-- The loop over `i` in `[0,4)` marked vectorized with the given factor. -/
def VectorizedLoop (factor : Int) (body : Expr) : Expr :=
  Expr.For i (Expr.IntImm 0) (Expr.IntImm 4) { vectorized := true, unrolled := false } body
    { level := 0, factor := factor }

/-- The serial loop over `i` in `[0,4)`. -/
def SerialLoop (body : Expr) : Expr :=
  Expr.For i (Expr.IntImm 0) (Expr.IntImm 4) { vectorized := false, unrolled := false } body
    { level := -1, factor := -1 }

/-- The statement `C[i] = A[i] + B[i]`. -/
def AddStmt : Expr :=
  Expr.Store (Tensor4 "C")
    (Expr.Add (Expr.Load (Tensor4 "A") [Expr._Var_ i]) (Expr.Load (Tensor4 "B") [Expr._Var_ i]))
    [Expr._Var_ i]

/-- The statement `C[i] = 1`. -/
def SetStmt : Expr := Expr.Store (Tensor4 "C") (Expr.IntImm 1) [Expr._Var_ i]

/-- The vectorized loop with body `C[i] = A[i] + B[i]`. -/
def AddLoop : Expr := VectorizedLoop 4 (Expr.Block [AddStmt])

/-- The vectorized loop with body `if (1) { C[i] = 1 }`. -/
def GuardedLoop : Expr :=
  VectorizedLoop 4 (Expr.Block [Expr.IfThenElse (Expr.IntImm 1) (Expr.Block [SetStmt]) none])

/-- The statements `D[i] = C[i]; C[i] = 1`. -/
def ReadThenWriteBody : Expr :=
  Expr.Block [Expr.Store (Tensor4 "D") (Expr.Load (Tensor4 "C") [Expr._Var_ i])
      [Expr._Var_ i], SetStmt]

/-- A store whose target is the variable `x`, not a tensor node. -/
def BadStore : Expr :=
  Expr.Store (Expr._Var_ { name := "x", type := Float32 }) (Expr.IntImm 1) [Expr._Var_ i]

/-- The serial loop with body `C[i] = 1; x[i] = 1`, the second store not targeting a tensor. -/
def BadStoreLoop : Expr := SerialLoop (Expr.Block [SetStmt, BadStore])

/-- The vectorized loop with body `D[i] = C[i]; C[i] = 1`. -/
def ReadThenWriteLoop : Expr := VectorizedLoop 4 ReadThenWriteBody

/-- The serial loop with body `if (1) { C[i] = A[i] + B[i] }`. -/
def PlainLoop : Expr :=
  SerialLoop (Expr.Block [Expr.IfThenElse (Expr.IntImm 1) (Expr.Block [AddStmt]) none])

/-- The rewriter inside the vectorized loop over `i` with factor 4, nothing pending. -/
def InLoop : VectorizeForTransMutator :=
  { VectorizeForTransMutator.init with
    vectorize_size_ := 4, loop_var_ := some i, in_vectorize_ := true }

end Examples

namespace Examples

/-- The loop variable `j` bound by a serial loop over `[0,2)` with the given stored factor. -/
def InnerSerialLoop (factor : Int) (body : Expr) : Expr :=
  Expr.For j (Expr.IntImm 0) (Expr.IntImm 2) { vectorized := false, unrolled := false } body
    { level := -1, factor := factor }

/-- The vectorized loop over `i` whose body is the serial loop over `j` around `C[i] = 1`;
the serial loop carries the default vectorize info. -/
def NestedSerialLoop : Expr :=
  VectorizedLoop 4 (Expr.Block [InnerSerialLoop (-1) (Expr.Block [SetStmt])])

/-- The same nest, the serial loop carrying a stale factor 4 in its vectorize info. -/
def NestedSerialLoopStaleFactor : Expr :=
  VectorizedLoop 4 (Expr.Block [InnerSerialLoop 4 (Expr.Block [SetStmt])])

/-- The vectorized loop with body `C[i] = A[i] + B[i]; if (1) { }`. -/
def AddThenBranchLoop : Expr :=
  VectorizedLoop 4
    (Expr.Block [AddStmt, Expr.IfThenElse (Expr.IntImm 1) (Expr.Block []) none])

/-- The vectorized loop with body `D[i] = 1`. -/
def SetDLoop : Expr :=
  VectorizedLoop 4
    (Expr.Block [Expr.Store (Tensor4 "D") (Expr.IntImm 1) [Expr._Var_ i]])

/-- Two vectorized loops in sequence, the first one with a conditional after its access. -/
def TwoLoops : Expr := Expr.Block [AddThenBranchLoop, SetDLoop]

/-- The statements of the block in second place of a two-statement block. -/
def SecondBlockStmts : Expr → List Expr
  | Expr.Block [_, Expr.Block stmts] => stmts
  | _ => []

/-- The vector type of four `float32` lanes. -/
def VectorFloat4 : Type_ :=
  { type_ := type_t.Customized, bits := 32, lanes := 4,
    specific_type_ := specific_type_t.None, cpp_handle := false, cpp_const := false,
    customized_type := VectorizeForTransMutator.kcuda_builtin_vector_t ++ "float4" }

/-- The pointer to the vector type of four `float32` lanes. -/
def VectorFloat4Ptr : Type_ := { VectorFloat4 with cpp_handle := true }

/-- The tensor reference that stands for the vector local `name` of tensor `tensor`. -/
def VecLocal (name tensor : String) : Expr :=
  Expr._Tensor_ name Float32 [Expr.IntImm 4] [Expr.IntImm 4] (tensor ++ "_op")

/-- The address of element 0 of a tensor, cast to the pointer-to-vector type. -/
def AddressOf (tensor : String) : Expr :=
  Expr.Cast VectorFloat4Ptr (Expr.GetAddr (Expr.Load (Tensor4 tensor) [Expr.IntImm 0]))

/-- The read cast-setup statement: bind the vector local to a vector load. -/
def ReadCast (name tensor : String) : Expr :=
  Expr.Let (Expr._Var_ { name := name, type := VectorFloat4 })
    (some (Expr.Load (AddressOf tensor) [Expr.IntImm 0]))

/-- The first write cast-setup statement: bind the pointer local. -/
def PointerBind (name tensor : String) : Expr :=
  Expr.Let (Expr._Var_ { name := name, type := VectorFloat4Ptr }) (some (AddressOf tensor))

/-- The second write cast-setup statement: set the vector local to zero. -/
def ZeroInit (name : String) : Expr :=
  Expr.Let (Expr._Var_ { name := name, type := VectorFloat4 }) (some (Expr.IntImm 0))

/-- The unrolled statement of lane `k`: the block around
`vectorized_C_0[k] = vectorized_A_1[k] + vectorized_B_2[k]`. -/
def LaneAdd (k : Int) : Expr :=
  Expr.Block [Expr.Store (VecLocal "vectorized_C_0" "C")
    (Expr.Add (Expr.Load (VecLocal "vectorized_A_1" "A") [Expr.IntImm k])
      (Expr.Load (VecLocal "vectorized_B_2" "B") [Expr.IntImm k]))
    [Expr.IntImm k]]

/-- The store-back statement: write the vector local through the pointer local. -/
def StoreBackStmt (ptr name tensor : String) : Expr :=
  Expr.Store
    (Expr._Tensor_ ptr Float32.PointerOf [Expr.IntImm 4] [Expr.IntImm 4] (tensor ++ "_op"))
    (Expr._Var_ { name := name, type := VectorFloat4 }) [Expr.IntImm 0]

/-- The nine statements expected for the loop with body `C[i] = A[i] + B[i]`. -/
def AddLoopStmts : List Expr :=
  [PointerBind "vectorized_C_0_ptr" "C", ZeroInit "vectorized_C_0",
    ReadCast "vectorized_A_1" "A", ReadCast "vectorized_B_2" "B",
    LaneAdd 0, LaneAdd 1, LaneAdd 2, LaneAdd 3,
    StoreBackStmt "vectorized_C_0_ptr" "vectorized_C_0" "C"]

end Examples

namespace VectorizeForTransMutator

/-- The pending store-back list is empty whenever the pending cast-setup list is empty. -/
def StoresNeedCasts (self : VectorizeForTransMutator) : Prop :=
  self.update_cast_stmts_ = [] → self.update_store_stmts_ = []

end VectorizeForTransMutator

mutual
/-- Whether every store node at a position that `Visit` walks has a tensor node as its
target. -/
def VisitedStoresTargetTensors : Expr → Bool
  | .IntImm _ => true
  | ._Var_ _ => true
  | .Add a b => VisitedStoresTargetTensors a && VisitedStoresTargetTensors b
  | .Cast _ v => VisitedStoresTargetTensors v
  | .Let symbol body => VisitedStoresTargetTensors symbol && VisitedStoresTargetTensorsOpt body
  | .Load _ _ => true
  | .Store tensor value _ => tensor.as_tensor && VisitedStoresTargetTensors value
  | ._Tensor_ _ _ shape _ _ => VisitedStoresTargetTensorsList shape
  | .For _ min extent _ body _ =>
      VisitedStoresTargetTensors min && VisitedStoresTargetTensors extent &&
        VisitedStoresTargetTensors body
  | .IfThenElse condition true_case false_case =>
      VisitedStoresTargetTensors condition && VisitedStoresTargetTensors true_case &&
        VisitedStoresTargetTensorsOpt false_case
  | .Block stmts => VisitedStoresTargetTensorsList stmts
  | .GetAddr data => VisitedStoresTargetTensors data
/-- The same for the trees of a list. -/
def VisitedStoresTargetTensorsList : List Expr → Bool
  | [] => true
  | e :: es => VisitedStoresTargetTensors e && VisitedStoresTargetTensorsList es
/-- The same for an optional tree. -/
def VisitedStoresTargetTensorsOpt : Option Expr → Bool
  | none => true
  | some e => VisitedStoresTargetTensors e
end

namespace VectorizeForTransMutator

/-- Every store that a later walk would meet in a pending statement targets a tensor. -/
def PendingStoresOk (self : VectorizeForTransMutator) : Prop :=
  VisitedStoresTargetTensorsList self.update_cast_stmts_ = true ∧
    VisitedStoresTargetTensorsList self.update_store_stmts_ = true

end VectorizeForTransMutator

namespace Examples

end Examples

/-! ## Execution of statements -/

/-- Modelled from the spec: a run-time value. A scalar, the lanes of a vector local, or a
pointer into a tensor of the memory at an element offset, seen as `lanes` elements wide. -/
inductive Value where
  | scalar (x : Int)
  | vector (lanes : List Int)
  | pointer (tensor : String) (offset : Nat) (lanes : Nat)
  deriving DecidableEq, Repr

/-- Modelled from the spec: the state of an execution, the elements of every tensor in
memory and the values of the local variables. -/
structure Machine where
  memory : List (String × List Int)
  locals : List (String × Value)
  deriving DecidableEq, Repr

/-- Replace the value under a key of an association list, or add the key at the end. -/
def Assign {α : Type} : List (String × α) → String → α → List (String × α)
  | [], key, value => [(key, value)]
  | (k, v) :: rest, key, value =>
      if k = key then (key, value) :: rest else (k, v) :: Assign rest key value

namespace Machine

/-- Bind a local variable. -/
def Bind (m : Machine) (name : String) (value : Value) : Machine :=
  { m with locals := Assign m.locals name value }

/-- Modelled from the spec: a load through a pointer to vectors of `lanes` elements reads
`lanes` contiguous elements of the tensor, starting `index` vectors after the offset. -/
def ReadPointer (m : Machine) (tensor : String) (offset lanes index : Nat) : Option Value :=
  match m.memory.lookup tensor with
  | some data =>
      let elements := (data.drop (offset + index * lanes)).take lanes
      if 1 < lanes ∧ elements.length = lanes then some (Value.vector elements) else none
  | none => none

/-- Modelled from the spec: a load from a tensor name. A name bound to a vector local reads
one lane, a name bound to a pointer reads through it, any other name reads one element of
the tensor in memory. -/
def ReadTensor (m : Machine) (name : String) (index : Nat) : Option Value :=
  match m.locals.lookup name with
  | some (Value.vector lanes) => (lanes.get? index).map Value.scalar
  | some (Value.pointer tensor offset lanes) => m.ReadPointer tensor offset lanes index
  | _ =>
      match m.memory.lookup name with
      | some data => (data.get? index).map Value.scalar
      | none => none

/-- Overwrite the elements of a list from a position on. -/
def Overwrite (data : List Int) (start : Nat) (elements : List Int) : List Int :=
  data.take start ++ elements ++ data.drop (start + elements.length)

/-- Modelled from the spec: a store to a tensor name. A name bound to a vector local
updates one lane, a name bound to a pointer to vectors writes the lanes of a vector value to
contiguous elements of the tensor, any other name writes one element of the tensor in
memory. -/
def WriteTensor (m : Machine) (name : String) (index : Nat) (value : Value) : Option Machine :=
  match m.locals.lookup name, value with
  | some (Value.vector lanes), Value.scalar x =>
      if index < lanes.length then
        some (m.Bind name (Value.vector (lanes.set index x)))
      else none
  | some (Value.pointer tensor offset lanes), Value.vector elements =>
      match m.memory.lookup tensor with
      | some data =>
          if elements.length = lanes ∧ offset + index * lanes + lanes ≤ data.length then
            let written := Overwrite data (offset + index * lanes) elements
            some { m with memory := Assign m.memory tensor written }
          else none
      | none => none
  | none, Value.scalar x =>
      match m.memory.lookup name with
      | some data =>
          if index < data.length then
            some { m with memory := Assign m.memory name (data.set index x) }
          else none
      | none => none
  | _, _ => none

end Machine

/-- Modelled from the spec: the value that a `Let` binds. A scalar bound to a variable of a
vector type fills every lane. -/
def Broadcast (type : Type_) (value : Value) : Value :=
  match value with
  | Value.scalar x =>
      if type.type_ = type_t.Customized ∧ type.cpp_handle = false ∧ 1 < type.lanes then
        Value.vector (List.replicate type.lanes.toNat x)
      else Value.scalar x
  | v => v

/-- A single non-negative index. -/
def SingleIndex : List Value → Option Nat
  | [Value.scalar k] => if 0 ≤ k then some k.toNat else none
  | _ => none

mutual
/-- Modelled from the spec: the value of an expression. Integer constants, variables and
sums have their usual value; the address of a tensor element is a pointer to it; a cast of a
pointer to a pointer-to-vector type makes the pointer as wide as the vector; a load reads
from a tensor name or through a pointer expression. -/
def Eval : Expr → Machine → Option Value
  | .IntImm value, _ => some (Value.scalar value)
  | ._Var_ v, m => m.locals.lookup v.name
  | .Add a b, m =>
      match Eval a m, Eval b m with
      | some (Value.scalar x), some (Value.scalar y) => some (Value.scalar (x + y))
      | _, _ => none
  | .Cast type v, m =>
      match Eval v m with
      | some (Value.pointer tensor offset _) =>
          if type.cpp_handle then some (Value.pointer tensor offset type.lanes.toNat) else none
      | r => r
  | .Load tensor indices, m =>
      match EvalList indices m with
      | some values =>
          match SingleIndex values with
          | some index =>
              match tensor.as_tensor, tensor with
              | true, ._Tensor_ name _ _ _ _ => m.ReadTensor name index
              | _, _ =>
                  match Eval tensor m with
                  | some (Value.pointer t offset lanes) => m.ReadPointer t offset lanes index
                  | _ => none
          | none => none
      | none => none
  | .GetAddr data, m => Address data m
  | _, _ => none
/-- The values of a list of expressions. -/
def EvalList : List Expr → Machine → Option (List Value)
  | [], _ => some []
  | e :: es, m =>
      match Eval e m, EvalList es m with
      | some v, some vs => some (v :: vs)
      | _, _ => none
/-- Modelled from the spec: the address of a tensor element named by a load. -/
def Address : Expr → Machine → Option Value
  | .Load (._Tensor_ name _ _ _ _) indices, m =>
      match EvalList indices m with
      | some values =>
          match SingleIndex values with
          | some index => some (Value.pointer name index 1)
          | none => none
      | none => none
  | _, _ => none
end

/-- Run a step for the iterations `lo, lo + 1, ...` of a loop. -/
def Iterate (step : Int → Machine → Option Machine) (lo : Int) :
    Nat → Machine → Option Machine
  | 0, m => some m
  | n + 1, m =>
      match Iterate step lo n m with
      | some m1 => step (lo + (n : Int)) m1
      | none => none

mutual
/-- Modelled from the spec: the execution of a statement. A `Let` binds a local, a store
writes an element, a lane or a vector, a block runs its statements in order, a loop with
bounds `min` and `extent` runs its body for `min, ..., min + extent - 1` with the loop
variable bound, a conditional runs one of its branches. -/
def Exec : Expr → Machine → Option Machine
  | .Let (._Var_ v) (some body), m =>
      match Eval body m with
      | some value => some (m.Bind v.name (Broadcast v.type value))
      | none => none
  | .Store (._Tensor_ name _ _ _ _) value indices, m =>
      match Eval value m, EvalList indices m with
      | some x, some values =>
          match SingleIndex values with
          | some index => m.WriteTensor name index x
          | none => none
      | _, _ => none
  | .For loop_var min extent _ body _, m =>
      match Eval min m, Eval extent m with
      | some (Value.scalar lo), some (Value.scalar n) =>
          Iterate (fun k m1 => Exec body (m1.Bind loop_var.name (Value.scalar k))) lo
            n.toNat m
      | _, _ => none
  | .IfThenElse condition true_case false_case, m =>
      match Eval condition m with
      | some (Value.scalar c) => if c ≠ 0 then Exec true_case m else ExecOpt false_case m
      | _ => none
  | .Block stmts, m => ExecList stmts m
  | _, _ => none
/-- The statements of a list, in order. -/
def ExecList : List Expr → Machine → Option Machine
  | [], m => some m
  | e :: es, m =>
      match Exec e m with
      | some m1 => ExecList es m1
      | none => none
/-- An optional statement. -/
def ExecOpt : Option Expr → Machine → Option Machine
  | none, m => some m
  | some e, m => Exec e m
end

namespace Examples

/-- The memory with the tensors `A`, `B` and `C` of four elements each. -/
def Memory (a0 a1 a2 a3 b0 b1 b2 b3 c0 c1 c2 c3 : Int) : Machine :=
  { memory := [("A", [a0, a1, a2, a3]), ("B", [b0, b1, b2, b3]), ("C", [c0, c1, c2, c3])],
    locals := [] }

end Examples

namespace VectorizeForTransMutator

/-- Every variable of the mapping has a name of the form `vectorized_<tensor>_<counter>`,
where `<tensor>` is the tensor name it is mapped from. -/
def SynthesizedNames (self : VectorizeForTransMutator) : Prop :=
  ∀ p ∈ self.tensor2vectorized_vars_,
    ∃ c : Nat, p.2.name = "vectorized_" ++ p.1 ++ "_" ++ toString c

end VectorizeForTransMutator

end cinn

/-! # The TensorRT converter of `nearest_interp_v2` -/

namespace tensorrt

/-- Modelled from the spec: the layouts of `phi::DataLayout` that a layout string can name. -/
inductive DataLayout where
  | kAnyLayout
  | kNHWC
  | kNCHW
  | kNCDHW
  | kNDHWC
  deriving DecidableEq, Repr

/-- Modelled from the spec: a tensor of the network under construction, named by the call
that yields it: `engine_->GetITensor(name)`, and the helpers `Concat`, `Shape` and
`GetEleTensorOfShape` of `OpConverter`. -/
inductive ITensor where
  | GetITensor (name : String)
  | Concat (inputs : List ITensor)
  | Shape (input : ITensor)
  | GetEleTensorOfShape (shape_tensor : ITensor) (index : Nat)

/-- Modelled from the spec: `nvinfer1::ResizeCoordinateTransformation`. -/
inductive ResizeCoordinateTransformation where
  | kALIGN_CORNERS
  | kASYMMETRIC
  | kHALF_PIXEL
  deriving DecidableEq, Repr

/-- Modelled from the spec: the resize layer, as the record of the setter calls made on it.
A field is `none` as long as its setter has not been called; `input1` is the tensor given
to `setInput(1, ...)`, from which the layer takes its output dimensions. -/
structure ResizeLayer (F : Type) where
  input : ITensor
  align_corners : Option Bool
  coordinate_transformation : Option ResizeCoordinateTransformation
  scales : Option (List F)
  input1 : Option ITensor
  layer_name : String
  output_names : List String

/-- Modelled from the spec: the part of `framework::OpDesc` that the converter reads. The
attribute `data_layout` is held after `common::StringToDataLayout`; `F` stands for `float`. -/
structure OpDesc (F : Type) where
  inputs : List (String × List String)
  outputs : List (String × List String)
  data_layout : DataLayout
  interp_method : String
  align_corners : Bool
  scale : List F
  out_h : Int
  out_w : Int

namespace OpDesc

/-- Modelled from the spec: `OpDesc::Input(name)`, the variable names of an input slot. -/
def Input {F : Type} (op_desc : OpDesc F) (name : String) : List String :=
  (op_desc.inputs.lookup name).getD []

/-- Modelled from the spec: `OpDesc::Output(name)`, the variable names of an output slot. -/
def Output {F : Type} (op_desc : OpDesc F) (name : String) : List String :=
  (op_desc.outputs.lookup name).getD []

end OpDesc

namespace ResizeLayer

/-- Modelled from the spec: `TRT_ENGINE_ADD_LAYER(engine_, Resize, *input)`, a new resize
layer on `input` on which no setter has been called. -/
def TRT_ENGINE_ADD_LAYER {F : Type} (input : ITensor) : ResizeLayer F :=
  { input := input, align_corners := none, coordinate_transformation := none,
    scales := none, input1 := none, layer_name := "", output_names := [] }

/-- Modelled from the spec: `layer->setAlignCorners(value)`. -/
def setAlignCorners {F : Type} (layer : ResizeLayer F) (value : Bool) : ResizeLayer F :=
  { layer with align_corners := some value }

/-- Modelled from the spec: `layer->setCoordinateTransformation(value)`. -/
def setCoordinateTransformation {F : Type} (layer : ResizeLayer F)
    (value : ResizeCoordinateTransformation) : ResizeLayer F :=
  { layer with coordinate_transformation := some value }

/-- Modelled from the spec: `layer->setScales(scales, n)`. -/
def setScales {F : Type} (layer : ResizeLayer F) (scales : List F) : ResizeLayer F :=
  { layer with scales := some scales }

/-- Modelled from the spec: `layer->setInput(1, tensor)`. -/
def setInput1 {F : Type} (layer : ResizeLayer F) (tensor : ITensor) : ResizeLayer F :=
  { layer with input1 := some tensor }

/-- Modelled from the spec: `ReplenishLayerAndOutput(layer, name, output_names, test_mode)`,
which names the layer and its outputs. -/
def ReplenishLayerAndOutput {F : Type} (layer : ResizeLayer F) (layer_name : String)
    (output_names : List String) : ResizeLayer F :=
  { layer with layer_name := layer_name, output_names := output_names }

end ResizeLayer

/-- Modelled from the spec: the macro `IS_TRT_VERSION_GE(version)`, a comparison with the
version number of the TensorRT library that the converter is compiled against. -/
def IS_TRT_VERSION_GE (TRT_VERSION version : Nat) : Bool :=
  decide (version ≤ TRT_VERSION)

/-- Lines 44 to 52 of `NearestInterpolateV2OpConverter::operator()`: the resize layer is
added and its corner alignment is set, through the setter that the TensorRT version has. -/
def AddResizeLayer {F : Type} (TRT_VERSION : Nat) (input : ITensor) (align_corners : Bool) :
    ResizeLayer F :=
  let layer : ResizeLayer F := ResizeLayer.TRT_ENGINE_ADD_LAYER input
  if IS_TRT_VERSION_GE TRT_VERSION 8600 then
    if align_corners then
      layer.setCoordinateTransformation ResizeCoordinateTransformation.kALIGN_CORNERS
    else layer
  else layer.setAlignCorners align_corners

/-- The method `NearestInterpolateV2OpConverter::operator()`. `TRT_VERSION` is the version of
TensorRT at compile time and `in_dim` holds the dimensions `input->getDimensions().d`. The
result is the layer after `ReplenishLayerAndOutput`. -/
def NearestInterpolateV2OpConverter {F : Type} [One F] [Div F] [IntCast F]
    (TRT_VERSION : Nat) (op_desc : OpDesc F) (in_dim : Nat → Int) :
    Except cinn.Err (ResizeLayer F) :=
  let input_name := (op_desc.Input "X").headD ""
  let output_name := (op_desc.Output "Out").headD ""
  let input := ITensor.GetITensor input_name
  let inputs := op_desc.inputs
  let data_layout := op_desc.data_layout
  let align_corners := op_desc.align_corners
  let scale := op_desc.scale
  let out_h := op_desc.out_h
  let out_w := op_desc.out_w
  let layer : ResizeLayer F := AddResizeLayer TRT_VERSION input align_corners
  let scale_h : F := 1
  let scale_w : F := 1
  let scales : List F := []
  let (scale_h, scale_w) :=
    if out_h > 0 ∧ out_w > 0 then
      let with_dynamic : Nat := 1
      let h_axis := (if data_layout = DataLayout.kNCHW then 1 else 0) + with_dynamic
      let w_axis := (if data_layout = DataLayout.kNCHW then 1 else 0) + 1 + with_dynamic
      (((out_h : Int) : F) / ((in_dim h_axis : Int) : F),
        ((out_w : Int) : F) / ((in_dim w_axis : Int) : F))
    else
      match scale with
      | s0 :: s1 :: _ => (s0, s1)
      | _ => (scale_h, scale_w)
  let outsize_tensor : Option ITensor :=
    if IS_TRT_VERSION_GE TRT_VERSION 8200 then
      if (inputs.lookup "SizeTensor").isSome then
        match op_desc.Input "SizeTensor" with
        | n0 :: n1 :: _ =>
            let outsize_h := ITensor.GetITensor n0
            let outsize_w := ITensor.GetITensor n1
            some (ITensor.Concat [outsize_h, outsize_w])
        | _ => none
      else none
    else none
  let scales := scales ++ [1]
  do
    let scales ←
      if data_layout = DataLayout.kNCHW then
        pure (scales ++ [1] ++ [scale_h] ++ [scale_w])
      else if data_layout = DataLayout.kNHWC then
        pure (scales ++ [scale_h] ++ [scale_w] ++ [1])
      else
        Except.error cinn.Err.InvalidArgument
    let layer :=
      match outsize_tensor with
      | some outsize_tensor =>
          let input_shape := ITensor.Shape input
          let outsize_itensors := [ITensor.GetEleTensorOfShape input_shape 0]
          let outsize_itensors :=
            if data_layout = DataLayout.kNCHW then
              outsize_itensors ++ [ITensor.GetEleTensorOfShape input_shape 1] ++
                [outsize_tensor]
            else if data_layout = DataLayout.kNHWC then
              outsize_itensors ++ [outsize_tensor] ++
                [ITensor.GetEleTensorOfShape input_shape 3]
            else outsize_itensors
          layer.setInput1 (ITensor.Concat outsize_itensors)
      | none => layer.setScales scales
    pure (layer.ReplenishLayerAndOutput "nearest_interp_v2" [output_name])

namespace Examples

/-- An op on the input `x` with layout NCHW, a two-entry `SizeTensor` input, no `out_h` and
`out_w`, and the scale attribute `[2, 3]`. -/
def SizeTensorOp : OpDesc ℚ :=
  { inputs := [("X", ["x"]), ("SizeTensor", ["size_h", "size_w"])],
    outputs := [("Out", ["y"])],
    data_layout := DataLayout.kNCHW,
    interp_method := "nearest",
    align_corners := false,
    scale := [2, 3],
    out_h := 0,
    out_w := 0 }

/-- An op on the input `x` with layout NHWC, no `SizeTensor` input, and `out_h = 8`,
`out_w = 6`. -/
def OutSizeOp : OpDesc ℚ :=
  { inputs := [("X", ["x"])],
    outputs := [("Out", ["y"])],
    data_layout := DataLayout.kNHWC,
    interp_method := "nearest",
    align_corners := true,
    scale := [2, 3],
    out_h := 8,
    out_w := 6 }

/-- The dimensions `[1, 4, 3, 16]`. -/
def Dims1x4x3x16 : Nat → Int
  | 0 => 1
  | 1 => 4
  | 2 => 3
  | 3 => 16
  | _ => 0

end Examples

end tensorrt

/-! # Theorems -/

namespace cinn
open Expr VectorizeForTransMutator

/-! ## Sequencing of fallible steps -/

theorem bind_eq_ok {α β : Type} (x : Except Err α) (f : α → Except Err β) (r : β) :
    (x >>= f) = .ok r ↔ ∃ a, x = .ok a ∧ f a = .ok r := by
  cases x with
  | error e => simp [bind, Except.bind]
  | ok a => simp [bind, Except.bind]

theorem ok_bind {α β : Type} (a : α) (f : α → Except Err β) :
    ((Except.ok a : Except Err α) >>= f) = f a := rfl

theorem error_bind {α β : Type} (e : Err) (f : α → Except Err β) :
    ((Except.error e : Except Err α) >>= f) = .error e := rfl

/-! ## The scalar-access test -/

theorem IsScalarTensor_eq (s : VectorizeForTransMutator) (loop_var : Var)
    (h : s.loop_var_ = some loop_var) (indices : List Expr) :
    s.IsScalarTensor indices = .ok (!DependsOn loop_var.name indices) := by
  induction indices with
  | nil => simp [IsScalarTensor, DependsOn]
  | cons index rest ih =>
      simp only [DependsOn, List.any_cons] at ih ⊢
      by_cases hc : loop_var.name ∈ CollectIndexSymbols index
      · simp [IsScalarTensor, h, hc]
      · simp [IsScalarTensor, h, hc, ih]

theorem IsScalarTensor_nil (s : VectorizeForTransMutator) :
    s.IsScalarTensor [] = .ok true := by
  simp [IsScalarTensor]

theorem DependsOn_iff (name : String) (indices : List Expr) :
    DependsOn name indices = true ↔ ∃ index ∈ indices, name ∈ CollectIndexSymbols index := by
  simp [DependsOn, List.any_eq_true]

/-! ## The mapping from tensor names to synthesized variables -/

theorem map_count_eq_zero (m : List (String × Var)) (k : String) :
    map_count m k = 0 ↔ m.lookup k = none := by
  unfold map_count
  cases h : m.lookup k <;> simp

theorem map_emplace_of_none (m : List (String × Var)) (k : String) (v : Var)
    (h : m.lookup k = none) : map_emplace m k v = m ++ [(k, v)] := by
  simp [map_emplace, h]

theorem lookup_emplace_of_none (m : List (String × Var)) (k : String) (v : Var)
    (h : m.lookup k = none) : (map_emplace m k v).lookup k = some v := by
  rw [map_emplace_of_none m k v h, List.lookup_append, h]
  simp [List.lookup_cons]

theorem not_mem_keys_of_lookup_none (m : List (String × Var)) (k : String)
    (h : m.lookup k = none) : k ∉ m.map Prod.fst := by
  rw [List.lookup_eq_none_iff] at h
  intro hk
  obtain ⟨p, hp, rfl⟩ := List.mem_map.1 hk
  simpa using h p hp

/-! ## Cast synthesis -/

theorem AppendCast_eq (s : VectorizeForTransMutator) (name : String) (ty : Type_)
    (sh dom : List Expr) (op : String) (idx : List Expr) (is_store : Bool) (lv : Var)
    (tn : String) (hlv : s.loop_var_ = some lv)
    (htn : s.GetVectorTypeName ty.ElementOf = .ok tn) :
    s.AppendCast (_Tensor_ name ty sh dom op) idx is_store = .ok { s with
      var_index_ := s.var_index_ + 1,
      tensor2vectorized_vars_ :=
        map_emplace s.tensor2vectorized_vars_ name (s.VectorizedVar name ty tn),
      update_cast_stmts_ := s.update_cast_stmts_ ++
        s.CastSetup (_Tensor_ name ty sh dom op) name ty idx is_store lv tn,
      update_store_stmts_ := s.update_store_stmts_ ++ s.StoreBack name ty op is_store tn } := by
  cases is_store <;>
    simp [AppendCast, htn, hlv, ok_bind, CastSetup, StoreBack, VectorizedVar, VectorizedPtr,
      CastExpr, VectorType, VectorTypePtr]

theorem AppendCast_error (s : VectorizeForTransMutator) (name : String) (ty : Type_)
    (sh dom : List Expr) (op : String) (idx : List Expr) (is_store : Bool) (err : Err)
    (htn : s.GetVectorTypeName ty.ElementOf = .error err) :
    s.AppendCast (_Tensor_ name ty sh dom op) idx is_store = .error err := by
  simp [AppendCast, htn, error_bind]

theorem AppendCast_inv (s s' : VectorizeForTransMutator) (name : String) (ty : Type_)
    (sh dom : List Expr) (op : String) (idx : List Expr) (is_store : Bool)
    (h : s.AppendCast (_Tensor_ name ty sh dom op) idx is_store = .ok s') :
    ∃ lv tn, s.loop_var_ = some lv ∧ s.GetVectorTypeName ty.ElementOf = .ok tn := by
  cases htn : s.GetVectorTypeName ty.ElementOf with
  | error err => rw [AppendCast_error s name ty sh dom op idx is_store err htn] at h; simp at h
  | ok tn =>
      cases hlv : s.loop_var_ with
      | none => simp [AppendCast, htn, hlv, ok_bind] at h
      | some lv => exact ⟨lv, tn, rfl, rfl⟩

/-! ## Rewriting one access -/

/-- The rewriter after a call of `AppendCast` that succeeded. -/
theorem TensorVectorized_hit (s : VectorizeForTransMutator) (name : String) (ty : Type_)
    (sh dom : List Expr) (op : String) (idx : List Expr) (is_store : Bool) (v lv : Var)
    (hv : s.tensor2vectorized_vars_.lookup name = some v) (hlv : s.loop_var_ = some lv) :
    s.TensorVectorized (_Tensor_ name ty sh dom op) idx is_store =
      .ok ((s.VectorizedTensor v ty op, [_Var_ lv]), s) := by
  have hc : map_count s.tensor2vectorized_vars_ name ≠ 0 := by
    rw [Ne, map_count_eq_zero, hv]; simp
  simp [TensorVectorized, hc, ok_bind, hv, hlv, VectorizedTensor]

theorem TensorVectorized_miss (s : VectorizeForTransMutator) (name : String) (ty : Type_)
    (sh dom : List Expr) (op : String) (idx : List Expr) (is_store : Bool) (lv : Var)
    (tn : String) (hv : s.tensor2vectorized_vars_.lookup name = none)
    (hlv : s.loop_var_ = some lv) (htn : s.GetVectorTypeName ty.ElementOf = .ok tn) :
    s.TensorVectorized (_Tensor_ name ty sh dom op) idx is_store =
      .ok ((s.VectorizedTensor (s.VectorizedVar name ty tn) ty op, [_Var_ lv]),
        { s with
          var_index_ := s.var_index_ + 1,
          tensor2vectorized_vars_ := s.tensor2vectorized_vars_ ++ [(name, s.VectorizedVar name ty tn)],
          update_cast_stmts_ := s.update_cast_stmts_ ++
            s.CastSetup (_Tensor_ name ty sh dom op) name ty idx is_store lv tn,
          update_store_stmts_ := s.update_store_stmts_ ++ s.StoreBack name ty op is_store tn }) := by
  have hc : map_count s.tensor2vectorized_vars_ name = 0 := (map_count_eq_zero _ _).2 hv
  have hl := lookup_emplace_of_none s.tensor2vectorized_vars_ name (s.VectorizedVar name ty tn) hv
  have he := map_emplace_of_none s.tensor2vectorized_vars_ name (s.VectorizedVar name ty tn) hv
  simp only [TensorVectorized, hc, if_true, AppendCast_eq s name ty sh dom op idx is_store lv tn hlv htn,
    ok_bind, hl, hlv]
  simp [VectorizedTensor, he]

theorem TensorVectorized_miss_error (s : VectorizeForTransMutator) (name : String) (ty : Type_)
    (sh dom : List Expr) (op : String) (idx : List Expr) (is_store : Bool) (err : Err)
    (hv : s.tensor2vectorized_vars_.lookup name = none)
    (htn : s.GetVectorTypeName ty.ElementOf = .error err) :
    s.TensorVectorized (_Tensor_ name ty sh dom op) idx is_store = .error err := by
  have hc : map_count s.tensor2vectorized_vars_ name = 0 := (map_count_eq_zero _ _).2 hv
  simp [TensorVectorized, hc, AppendCast_error s name ty sh dom op idx is_store err htn,
    error_bind]

theorem TensorVectorized_inv (s s' : VectorizeForTransMutator) (name : String) (ty : Type_)
    (sh dom : List Expr) (op : String) (idx : List Expr) (is_store : Bool)
    (r : Expr × List Expr)
    (h : s.TensorVectorized (_Tensor_ name ty sh dom op) idx is_store = .ok (r, s')) :
    ∃ lv, s.loop_var_ = some lv ∧
      ((∃ v, s.tensor2vectorized_vars_.lookup name = some v ∧
          r = (s.VectorizedTensor v ty op, [_Var_ lv]) ∧ s' = s) ∨
       (∃ tn, s.tensor2vectorized_vars_.lookup name = none ∧
          s.GetVectorTypeName ty.ElementOf = .ok tn ∧
          r = (s.VectorizedTensor (s.VectorizedVar name ty tn) ty op, [_Var_ lv]) ∧
          s' = { s with
            var_index_ := s.var_index_ + 1,
            tensor2vectorized_vars_ :=
              s.tensor2vectorized_vars_ ++ [(name, s.VectorizedVar name ty tn)],
            update_cast_stmts_ := s.update_cast_stmts_ ++
              s.CastSetup (_Tensor_ name ty sh dom op) name ty idx is_store lv tn,
            update_store_stmts_ :=
              s.update_store_stmts_ ++ s.StoreBack name ty op is_store tn })) := by
  have hlv : ∃ lv, s.loop_var_ = some lv := by
    cases hlv : s.loop_var_ with
    | some lv => exact ⟨lv, rfl⟩
    | none =>
        exfalso
        cases hv : s.tensor2vectorized_vars_.lookup name with
        | some v =>
            have hc : map_count s.tensor2vectorized_vars_ name ≠ 0 := by
              rw [Ne, map_count_eq_zero, hv]; simp
            simp [TensorVectorized, hc, ok_bind, hv, hlv] at h
        | none =>
            have hc : map_count s.tensor2vectorized_vars_ name = 0 :=
              (map_count_eq_zero _ _).2 hv
            cases htn : s.GetVectorTypeName ty.ElementOf with
            | error err =>
                simp [TensorVectorized, hc, AppendCast, htn, error_bind] at h
            | ok tn =>
                simp [TensorVectorized, hc, AppendCast, htn, hlv, ok_bind, error_bind] at h
  obtain ⟨lv, hlv⟩ := hlv
  refine ⟨lv, hlv, ?_⟩
  cases hv : s.tensor2vectorized_vars_.lookup name with
  | some v =>
      rw [TensorVectorized_hit s name ty sh dom op idx is_store v lv hv hlv] at h
      simp only [Except.ok.injEq, Prod.mk.injEq] at h
      exact Or.inl ⟨v, rfl, h.1.symm, h.2.symm⟩
  | none =>
      cases htn : s.GetVectorTypeName ty.ElementOf with
      | error err =>
          rw [TensorVectorized_miss_error s name ty sh dom op idx is_store err hv htn] at h
          simp at h
      | ok tn =>
          rw [TensorVectorized_miss s name ty sh dom op idx is_store lv tn hv hlv htn] at h
          simp only [Except.ok.injEq, Prod.mk.injEq] at h
          exact Or.inr ⟨tn, rfl, rfl, h.1.symm, h.2.symm⟩

theorem TensorVectorized_not_tensor (s : VectorizeForTransMutator) (t : Expr)
    (idx : List Expr) (is_store : Bool) (h : t.as_tensor = false) :
    s.TensorVectorized t idx is_store = .error Err.NullPointer := by
  cases t <;> simp [TensorVectorized, as_tensor] at h ⊢

/-! ## Growth of the rewriter state -/

theorem Grows_refl (s : VectorizeForTransMutator) : Grows s s :=
  { in_vectorize := rfl, loop_var := rfl, vectorize_size := rfl,
    casts := ⟨[], by simp⟩, stores := ⟨[], by simp⟩, vars := ⟨[], by simp⟩,
    nodup := id, covers := id }

theorem Grows_trans {s1 s2 s3 : VectorizeForTransMutator} (h12 : Grows s1 s2)
    (h23 : Grows s2 s3) : Grows s1 s3 := by
  obtain ⟨c1, hc1⟩ := h12.casts
  obtain ⟨c2, hc2⟩ := h23.casts
  obtain ⟨t1, ht1⟩ := h12.stores
  obtain ⟨t2, ht2⟩ := h23.stores
  obtain ⟨v1, hv1, hi1⟩ := h12.vars
  obtain ⟨v2, hv2, hi2⟩ := h23.vars
  exact
    { in_vectorize := h23.in_vectorize.trans h12.in_vectorize
      loop_var := h23.loop_var.trans h12.loop_var
      vectorize_size := h23.vectorize_size.trans h12.vectorize_size
      casts := ⟨c1 ++ c2, by rw [hc2, hc1, List.append_assoc]⟩
      stores := ⟨t1 ++ t2, by rw [ht2, ht1, List.append_assoc]⟩
      vars := ⟨v1 ++ v2, by rw [hv2, hv1, List.append_assoc], by
        rw [hi2, hi1, List.length_append, Nat.add_assoc]⟩
      nodup := fun h => h23.nodup (h12.nodup h)
      covers := fun h => h23.covers (h12.covers h) }

theorem CastSetup_ne_nil (s : VectorizeForTransMutator) (t : Expr) (name : String)
    (ty : Type_) (idx : List Expr) (is_store : Bool) (lv : Var) (tn : String) :
    s.CastSetup t name ty idx is_store lv tn ≠ [] := by
  cases is_store <;> simp [CastSetup]

theorem TensorVectorized_grows (s s' : VectorizeForTransMutator) (t : Expr)
    (idx : List Expr) (is_store : Bool) (r : Expr × List Expr)
    (h : s.TensorVectorized t idx is_store = .ok (r, s')) : Grows s s' := by
  cases t with
  | _Tensor_ name ty sh dom op =>
      obtain ⟨lv, _, h1 | h2⟩ := TensorVectorized_inv s s' name ty sh dom op idx is_store r h
      · obtain ⟨v, _, _, rfl⟩ := h1
        exact Grows_refl _
      · obtain ⟨tn, hnone, _, _, rfl⟩ := h2
        exact
          { in_vectorize := rfl, loop_var := rfl, vectorize_size := rfl
            casts := ⟨_, rfl⟩
            stores := ⟨_, rfl⟩
            vars := ⟨[(name, s.VectorizedVar name ty tn)], rfl, rfl⟩
            nodup := fun hnd => by
              simp only [List.map_append, List.map_cons, List.map_nil]
              refine List.Nodup.append hnd (List.nodup_singleton _) ?_
              intro a ha hb
              rw [List.mem_singleton] at hb
              subst hb
              exact not_mem_keys_of_lookup_none _ _ hnone ha
            covers := fun _ _ => by
              simp only [ne_eq, List.append_eq_nil, not_and]
              exact fun _ => CastSetup_ne_nil _ _ _ _ _ _ _ _ }
  | _ => simp [TensorVectorized] at h

theorem TensorVectorized_vars_ne_nil (s s' : VectorizeForTransMutator) (t : Expr)
    (idx : List Expr) (is_store : Bool) (r : Expr × List Expr)
    (h : s.TensorVectorized t idx is_store = .ok (r, s')) :
    s'.tensor2vectorized_vars_ ≠ [] := by
  cases t with
  | _Tensor_ name ty sh dom op =>
      obtain ⟨lv, _, h1 | h2⟩ := TensorVectorized_inv s s' name ty sh dom op idx is_store r h
      · obtain ⟨v, hv, _, rfl⟩ := h1
        intro hnil
        rw [hnil] at hv
        simp at hv
      · obtain ⟨tn, _, _, _, rfl⟩ := h2
        simp
  | _ => simp [TensorVectorized] at h

/-! ## Loads and store targets -/

theorem VisitLoad_inv (s s' : VectorizeForTransMutator) (t : Expr) (idx : List Expr)
    (e' : Expr) (h : s.VisitLoad t idx = .ok (e', s')) :
    (e' = Load t idx ∧ s' = s) ∨
      (s.in_vectorize_ = true ∧ t.as_tensor = true ∧
        ∃ r, s.TensorVectorized t idx false = .ok (r, s') ∧ e' = Load r.1 r.2) := by
  unfold VisitLoad at h
  split at h
  · rename_i hin
    split at h
    · rename_i hten
      rw [bind_eq_ok] at h
      obtain ⟨scalar, _, h2⟩ := h
      split at h2
      · rw [bind_eq_ok] at h2
        obtain ⟨⟨⟨t', idx'⟩, s1⟩, h3, h4⟩ := h2
        simp only [Except.ok.injEq, Prod.mk.injEq] at h4
        obtain ⟨rfl, rfl⟩ := h4
        exact Or.inr ⟨hin, hten, (t', idx'), h3, rfl⟩
      · simp only [Except.ok.injEq, Prod.mk.injEq] at h2
        exact Or.inl ⟨h2.1.symm, h2.2.symm⟩
    · simp only [Except.ok.injEq, Prod.mk.injEq] at h
      exact Or.inl ⟨h.1.symm, h.2.symm⟩
  · simp only [Except.ok.injEq, Prod.mk.injEq] at h
    exact Or.inl ⟨h.1.symm, h.2.symm⟩

theorem VisitStoreTarget_inv (s s' : VectorizeForTransMutator) (t : Expr) (idx : List Expr)
    (r : Expr × List Expr) (h : s.VisitStoreTarget t idx = .ok (r, s')) :
    t.as_tensor = true ∧
      ((r = (t, idx) ∧ s' = s) ∨
        (s.in_vectorize_ = true ∧ s.TensorVectorized t idx true = .ok (r, s'))) := by
  unfold VisitStoreTarget at h
  split at h
  · rename_i hten
    refine ⟨hten, ?_⟩
    split at h
    · rename_i hin
      rw [bind_eq_ok] at h
      obtain ⟨scalar, _, h2⟩ := h
      split at h2
      · exact Or.inr ⟨hin, h2⟩
      · simp only [Except.ok.injEq, Prod.mk.injEq] at h2
        exact Or.inl ⟨h2.1.symm, h2.2.symm⟩
    · simp only [Except.ok.injEq, Prod.mk.injEq] at h
      exact Or.inl ⟨h.1.symm, h.2.symm⟩
  · simp at h

theorem VisitLoad_grows (s s' : VectorizeForTransMutator) (t : Expr) (idx : List Expr)
    (e' : Expr) (h : s.VisitLoad t idx = .ok (e', s')) : Grows s s' := by
  rcases VisitLoad_inv s s' t idx e' h with ⟨_, rfl⟩ | ⟨_, _, r, h1, _⟩
  · exact Grows_refl _
  · exact TensorVectorized_grows s s' t idx false r h1

theorem VisitStoreTarget_grows (s s' : VectorizeForTransMutator) (t : Expr)
    (idx : List Expr) (r : Expr × List Expr) (h : s.VisitStoreTarget t idx = .ok (r, s')) :
    Grows s s' := by
  rcases (VisitStoreTarget_inv s s' t idx r h).2 with ⟨_, rfl⟩ | ⟨_, h1⟩
  · exact Grows_refl _
  · exact TensorVectorized_grows s s' t idx true r h1

/-! ## Straight-line trees keep vectorize mode -/

mutual
theorem Visit_grows : ∀ (e : Expr) (s : VectorizeForTransMutator) (e' : Expr)
    (s' : VectorizeForTransMutator), HasBranchOrLoop e = false →
    Visit e s = .ok (e', s') → Grows s s'
  | .IntImm _, s, e', s', _, h => by
      simp only [Visit, Except.ok.injEq, Prod.mk.injEq] at h
      rw [← h.2]; exact Grows_refl s
  | ._Var_ _, s, e', s', _, h => by
      simp only [Visit, Except.ok.injEq, Prod.mk.injEq] at h
      rw [← h.2]; exact Grows_refl s
  | .Add a b, s, e', s', hb, h => by
      simp only [HasBranchOrLoop, Bool.or_eq_false_iff] at hb
      simp only [Visit, bind_eq_ok] at h
      obtain ⟨⟨a', s1⟩, h1, ⟨b', s2⟩, h2, h3⟩ := h
      simp only [Except.ok.injEq, Prod.mk.injEq] at h3
      rw [← h3.2]
      exact Grows_trans (Visit_grows a s a' s1 hb.1 h1)
        (Visit_grows b s1 b' s2 hb.2 h2)
  | .Cast _ v, s, e', s', hb, h => by
      simp only [HasBranchOrLoop] at hb
      simp only [Visit, bind_eq_ok] at h
      obtain ⟨⟨v', s1⟩, h1, h3⟩ := h
      simp only [Except.ok.injEq, Prod.mk.injEq] at h3
      rw [← h3.2]
      exact Visit_grows v s v' s1 hb h1
  | .Let symbol body, s, e', s', hb, h => by
      simp only [HasBranchOrLoop, Bool.or_eq_false_iff] at hb
      simp only [Visit, bind_eq_ok] at h
      obtain ⟨⟨a', s1⟩, h1, ⟨b', s2⟩, h2, h3⟩ := h
      simp only [Except.ok.injEq, Prod.mk.injEq] at h3
      rw [← h3.2]
      exact Grows_trans (Visit_grows symbol s a' s1 hb.1 h1)
        (VisitOpt_grows body s1 b' s2 hb.2 h2)
  | .Load tensor indices, s, e', s', _, h => by
      simp only [Visit] at h
      exact VisitLoad_grows s s' tensor indices e' h
  | .Store tensor value indices, s, e', s', hb, h => by
      simp only [HasBranchOrLoop, Bool.or_eq_false_iff] at hb
      simp only [Visit, bind_eq_ok] at h
      obtain ⟨⟨⟨t', idx'⟩, s1⟩, h1, ⟨v', s2⟩, h2, h3⟩ := h
      simp only [Except.ok.injEq, Prod.mk.injEq] at h3
      rw [← h3.2]
      exact Grows_trans (VisitStoreTarget_grows s s1 tensor indices (t', idx') h1)
        (Visit_grows value s1 v' s2 hb.1.2 h2)
  | ._Tensor_ _ _ shape domain _, s, e', s', hb, h => by
      simp only [HasBranchOrLoop, Bool.or_eq_false_iff] at hb
      simp only [Visit, bind_eq_ok] at h
      obtain ⟨⟨a', s1⟩, h1, h3⟩ := h
      simp only [Except.ok.injEq, Prod.mk.injEq] at h3
      rw [← h3.2]
      exact VisitList_grows shape s a' s1 hb.1 h1
  | .For _ _ _ _ _ _, _, _, _, hb, _ => by simp [HasBranchOrLoop] at hb
  | .IfThenElse _ _ _, _, _, _, hb, _ => by simp [HasBranchOrLoop] at hb
  | .Block stmts, s, e', s', hb, h => by
      simp only [HasBranchOrLoop] at hb
      simp only [Visit, bind_eq_ok] at h
      obtain ⟨⟨v', s1⟩, h1, h3⟩ := h
      simp only [Except.ok.injEq, Prod.mk.injEq] at h3
      rw [← h3.2]
      exact VisitList_grows stmts s v' s1 hb h1
  | .GetAddr data, s, e', s', hb, h => by
      simp only [HasBranchOrLoop] at hb
      simp only [Visit, bind_eq_ok] at h
      obtain ⟨⟨v', s1⟩, h1, h3⟩ := h
      simp only [Except.ok.injEq, Prod.mk.injEq] at h3
      rw [← h3.2]
      exact Visit_grows data s v' s1 hb h1
theorem VisitList_grows : ∀ (es : List Expr) (s : VectorizeForTransMutator)
    (es' : List Expr) (s' : VectorizeForTransMutator), HasBranchOrLoopList es = false →
    VisitList es s = .ok (es', s') → Grows s s'
  | [], s, es', s', _, h => by
      simp only [VisitList, Except.ok.injEq, Prod.mk.injEq] at h
      rw [← h.2]; exact Grows_refl s
  | e :: es, s, es', s', hb, h => by
      simp only [HasBranchOrLoopList, Bool.or_eq_false_iff] at hb
      simp only [VisitList, bind_eq_ok] at h
      obtain ⟨⟨a', s1⟩, h1, ⟨b', s2⟩, h2, h3⟩ := h
      simp only [Except.ok.injEq, Prod.mk.injEq] at h3
      rw [← h3.2]
      exact Grows_trans (Visit_grows e s a' s1 hb.1 h1)
        (VisitList_grows es s1 b' s2 hb.2 h2)
theorem VisitOpt_grows : ∀ (o : Option Expr) (s : VectorizeForTransMutator)
    (o' : Option Expr) (s' : VectorizeForTransMutator), HasBranchOrLoopOpt o = false →
    VisitOpt o s = .ok (o', s') → Grows s s'
  | none, s, o', s', _, h => by
      simp only [VisitOpt, Except.ok.injEq, Prod.mk.injEq] at h
      rw [← h.2]; exact Grows_refl s
  | some e, s, o', s', hb, h => by
      simp only [HasBranchOrLoopOpt] at hb
      simp only [VisitOpt, bind_eq_ok] at h
      obtain ⟨⟨v', s1⟩, h1, h3⟩ := h
      simp only [Except.ok.injEq, Prod.mk.injEq] at h3
      rw [← h3.2]
      exact Visit_grows e s v' s1 hb h1
end

/-! ## Trees without vectorized loops are left alone -/

theorem Untouched_refl (s : VectorizeForTransMutator) (h : s.in_vectorize_ = false) :
    Untouched s s :=
  { in_vectorize := h, loop_var := rfl, vectorize_size := rfl, casts := rfl, stores := rfl,
    var_index := rfl, vars := Or.inl rfl }

theorem Untouched_trans {s1 s2 s3 : VectorizeForTransMutator} (h12 : Untouched s1 s2)
    (h23 : Untouched s2 s3) : Untouched s1 s3 :=
  { in_vectorize := h23.in_vectorize
    loop_var := h23.loop_var.trans h12.loop_var
    vectorize_size := h23.vectorize_size.trans h12.vectorize_size
    casts := h23.casts.trans h12.casts
    stores := h23.stores.trans h12.stores
    var_index := h23.var_index.trans h12.var_index
    vars := by
      rcases h23.vars with h | h
      · rcases h12.vars with h' | h'
        · exact Or.inl (h.trans h')
        · exact Or.inr (h.trans h')
      · exact Or.inr h }

mutual
theorem Visit_noop : ∀ (e : Expr) (s : VectorizeForTransMutator),
    HasVectorizedFor e = false → StoresTargetTensors e = true → s.in_vectorize_ = false →
    ∃ s', Visit e s = .ok (e, s') ∧ Untouched s s'
  | .IntImm _, s, _, _, hs => ⟨s, by simp [Visit], Untouched_refl s hs⟩
  | ._Var_ _, s, _, _, hs => ⟨s, by simp [Visit], Untouched_refl s hs⟩
  | .Add a b, s, hv, ht, hs => by
      simp only [HasVectorizedFor, Bool.or_eq_false_iff] at hv
      simp only [StoresTargetTensors, Bool.and_eq_true] at ht
      obtain ⟨s1, h1, hs1⟩ := Visit_noop a s hv.1 ht.1 hs
      obtain ⟨s2, h2, hs2⟩ := Visit_noop b s1 hv.2 ht.2 hs1.in_vectorize
      exact ⟨s2, by simp [Visit, h1, h2, ok_bind], Untouched_trans hs1 hs2⟩
  | .Cast _ v, s, hv, ht, hs => by
      simp only [HasVectorizedFor] at hv
      simp only [StoresTargetTensors] at ht
      obtain ⟨s1, h1, hs1⟩ := Visit_noop v s hv ht hs
      exact ⟨s1, by simp [Visit, h1, ok_bind], hs1⟩
  | .Let symbol body, s, hv, ht, hs => by
      simp only [HasVectorizedFor, Bool.or_eq_false_iff] at hv
      simp only [StoresTargetTensors, Bool.and_eq_true] at ht
      obtain ⟨s1, h1, hs1⟩ := Visit_noop symbol s hv.1 ht.1 hs
      obtain ⟨s2, h2, hs2⟩ := VisitOpt_noop body s1 hv.2 ht.2 hs1.in_vectorize
      exact ⟨s2, by simp [Visit, h1, h2, ok_bind], Untouched_trans hs1 hs2⟩
  | .Load tensor indices, s, _, _, hs => ⟨s, by simp [Visit, VisitLoad, hs], Untouched_refl s hs⟩
  | .Store tensor value indices, s, hv, ht, hs => by
      simp only [HasVectorizedFor, Bool.or_eq_false_iff] at hv
      simp only [StoresTargetTensors, Bool.and_eq_true] at ht
      obtain ⟨s1, h1, hs1⟩ := Visit_noop value s hv.1.2 ht.1.2 hs
      exact ⟨s1, by simp [Visit, VisitStoreTarget, ht.1.1.1, hs, h1, ok_bind], hs1⟩
  | ._Tensor_ _ _ shape domain _, s, hv, ht, hs => by
      simp only [HasVectorizedFor, Bool.or_eq_false_iff] at hv
      simp only [StoresTargetTensors, Bool.and_eq_true] at ht
      obtain ⟨s1, h1, hs1⟩ := VisitList_noop shape s hv.1 ht.1 hs
      exact ⟨s1, by simp [Visit, h1, ok_bind], hs1⟩
  | .For loop_var min extent for_type body vectorize_info, s, hv, ht, hs => by
      simp only [HasVectorizedFor, Bool.or_eq_false_iff] at hv
      simp only [StoresTargetTensors, Bool.and_eq_true] at ht
      obtain ⟨s1, h1, hs1⟩ := Visit_noop min s hv.1.1.2 ht.1.1 hs
      obtain ⟨s2, h2, hs2⟩ := Visit_noop extent s1 hv.1.2 ht.1.2 hs1.in_vectorize
      obtain ⟨s3, h3, hs3⟩ := Visit_noop body s2 hv.2 ht.2 hs2.in_vectorize
      have h13 := Untouched_trans (Untouched_trans hs1 hs2) hs3
      exact ⟨{ s3 with tensor2vectorized_vars_ := [], in_vectorize_ := false },
        by simp [Visit, ForEnter, ForExit, hv.1.1.1, h1, h2, h3, hs3.in_vectorize, ok_bind],
        { in_vectorize := rfl, loop_var := h13.loop_var, vectorize_size := h13.vectorize_size,
          casts := h13.casts, stores := h13.stores, var_index := h13.var_index,
          vars := Or.inr rfl }⟩
  | .IfThenElse condition true_case false_case, s, hv, ht, hs => by
      simp only [HasVectorizedFor, Bool.or_eq_false_iff] at hv
      simp only [StoresTargetTensors, Bool.and_eq_true] at ht
      have hs0 : ({ s with in_vectorize_ := false } : VectorizeForTransMutator) = s := by
        cases s; simp only [mk.injEq, true_and] at hs ⊢; simp [hs]
      obtain ⟨s1, h1, hs1⟩ := Visit_noop condition s hv.1.1 ht.1.1 hs
      obtain ⟨s2, h2, hs2⟩ := Visit_noop true_case s1 hv.1.2 ht.1.2 hs1.in_vectorize
      obtain ⟨s3, h3, hs3⟩ := VisitOpt_noop false_case s2 hv.2 ht.2 hs2.in_vectorize
      exact ⟨s3, by simp [Visit, hs0, h1, h2, h3, ok_bind],
        Untouched_trans (Untouched_trans hs1 hs2) hs3⟩
  | .Block stmts, s, hv, ht, hs => by
      simp only [HasVectorizedFor] at hv
      simp only [StoresTargetTensors] at ht
      obtain ⟨s1, h1, hs1⟩ := VisitList_noop stmts s hv ht hs
      exact ⟨s1, by simp [Visit, h1, ok_bind], hs1⟩
  | .GetAddr data, s, hv, ht, hs => by
      simp only [HasVectorizedFor] at hv
      simp only [StoresTargetTensors] at ht
      obtain ⟨s1, h1, hs1⟩ := Visit_noop data s hv ht hs
      exact ⟨s1, by simp [Visit, h1, ok_bind], hs1⟩
theorem VisitList_noop : ∀ (es : List Expr) (s : VectorizeForTransMutator),
    HasVectorizedForList es = false → StoresTargetTensorsList es = true →
    s.in_vectorize_ = false →
    ∃ s', VisitList es s = .ok (es, s') ∧ Untouched s s'
  | [], s, _, _, hs => ⟨s, by simp [VisitList], Untouched_refl s hs⟩
  | e :: es, s, hv, ht, hs => by
      simp only [HasVectorizedForList, Bool.or_eq_false_iff] at hv
      simp only [StoresTargetTensorsList, Bool.and_eq_true] at ht
      obtain ⟨s1, h1, hs1⟩ := Visit_noop e s hv.1 ht.1 hs
      obtain ⟨s2, h2, hs2⟩ := VisitList_noop es s1 hv.2 ht.2 hs1.in_vectorize
      exact ⟨s2, by simp [VisitList, h1, h2, ok_bind], Untouched_trans hs1 hs2⟩
theorem VisitOpt_noop : ∀ (o : Option Expr) (s : VectorizeForTransMutator),
    HasVectorizedForOpt o = false → StoresTargetTensorsOpt o = true →
    s.in_vectorize_ = false →
    ∃ s', VisitOpt o s = .ok (o, s') ∧ Untouched s s'
  | none, s, _, _, hs => ⟨s, by simp [VisitOpt], Untouched_refl s hs⟩
  | some e, s, hv, ht, hs => by
      simp only [HasVectorizedForOpt] at hv
      simp only [StoresTargetTensorsOpt] at ht
      obtain ⟨s1, h1, hs1⟩ := Visit_noop e s hv ht hs
      exact ⟨s1, by simp [VisitOpt, h1, ok_bind], hs1⟩
end

/-! ## Leaving a loop -/

theorem ForExit_scalar (s : VectorizeForTransMutator) (lv : Var) (mn ext : Expr)
    (ft : ForType) (body : Expr) (vi : VectorizeInfo) (h : s.in_vectorize_ = false) :
    s.ForExit lv mn ext ft body vi =
      .ok (For lv mn ext ft body vi,
        { s with tensor2vectorized_vars_ := [], in_vectorize_ := false }) := by
  simp [ForExit, h, ok_bind]

theorem ForExit_bad_factor (s : VectorizeForTransMutator) (lv : Var) (mn ext : Expr)
    (ft : ForType) (body : Expr) (vi : VectorizeInfo) (h : s.in_vectorize_ = true)
    (hf : vi.factor ≤ 1) :
    s.ForExit lv mn ext ft body vi = .error Err.InvalidArgument := by
  have : ¬ vi.factor > 1 := by omega
  simp [ForExit, h, this, error_bind]

theorem ForExit_vectorize (s : VectorizeForTransMutator) (lv : Var) (mn ext : Expr)
    (ft : ForType) (stmts unroll_body : List Expr) (vi : VectorizeInfo)
    (h : s.in_vectorize_ = true) (hf : 1 < vi.factor)
    (hu : UnrollLoop (For lv mn ext { ft with unrolled := true } (Block stmts) vi) =
      Block unroll_body) :
    s.ForExit lv mn ext ft (Block stmts) vi =
      .ok (Block ((if s.update_cast_stmts_.isEmpty then stmts else s.update_cast_stmts_) ++
            unroll_body ++ s.update_store_stmts_),
        { s with update_cast_stmts_ := [], update_store_stmts_ := [],
                 tensor2vectorized_vars_ := [], in_vectorize_ := false }) := by
  have hf' : vi.factor > 1 := hf
  simp only [ForExit, h, if_true, hf', hu]
  cases hc : s.update_cast_stmts_ with
  | nil =>
      cases hs : s.update_store_stmts_ with
      | nil =>
          cases s
          simp only at hc hs
          simp [hc, hs, ok_bind]
      | cons x xs =>
          cases s
          simp only at hc hs
          simp [hc, hs, ok_bind]
  | cons c cs =>
      cases hs : s.update_store_stmts_ with
      | nil =>
          cases s
          simp only at hc hs
          simp [hc, hs, ok_bind]
      | cons x xs =>
          cases s
          simp only at hc hs
          simp [hc, hs, ok_bind]

theorem ForExit_inv (s s' : VectorizeForTransMutator) (lv : Var) (mn ext : Expr)
    (ft : ForType) (body e' : Expr) (vi : VectorizeInfo) (h : s.in_vectorize_ = true)
    (hok : s.ForExit lv mn ext ft body vi = .ok (e', s')) :
    1 < vi.factor ∧ ∃ stmts unroll_body, body = Block stmts ∧
      UnrollLoop (For lv mn ext { ft with unrolled := true } body vi) = Block unroll_body ∧
      e' = Block ((if s.update_cast_stmts_.isEmpty then stmts else s.update_cast_stmts_) ++
            unroll_body ++ s.update_store_stmts_) ∧
      s' = { s with update_cast_stmts_ := [], update_store_stmts_ := [],
                    tensor2vectorized_vars_ := [], in_vectorize_ := false } := by
  by_cases hf : vi.factor ≤ 1
  · rw [ForExit_bad_factor s lv mn ext ft body vi h hf] at hok
    simp at hok
  · have hf1 : 1 < vi.factor := by omega
    refine ⟨hf1, ?_⟩
    cases hu : UnrollLoop (For lv mn ext { ft with unrolled := true } body vi) with
    | Block unroll_body =>
        cases body with
        | Block stmts =>
            rw [ForExit_vectorize s lv mn ext ft stmts unroll_body vi h hf1 hu] at hok
            simp only [Except.ok.injEq, Prod.mk.injEq] at hok
            exact ⟨stmts, unroll_body, rfl, rfl, hok.1.symm, hok.2.symm⟩
        | _ =>
            have hf' : vi.factor > 1 := hf1
            simp [ForExit, h, hf', hu, error_bind] at hok
    | _ =>
        have hf' : vi.factor > 1 := hf1
        simp [ForExit, h, hf', hu, error_bind] at hok

/-! ## Vectorized loops in the output -/

theorem HasVectorizedForList_append (xs ys : List Expr) :
    HasVectorizedForList (xs ++ ys) = (HasVectorizedForList xs || HasVectorizedForList ys) := by
  induction xs with
  | nil => simp [HasVectorizedForList]
  | cons x xs ih => simp [HasVectorizedForList, ih, Bool.or_assoc]

mutual
theorem HasVectorizedFor_of_straight : ∀ (e : Expr), HasBranchOrLoop e = false →
    HasVectorizedFor e = false
  | .IntImm _, _ => by simp [HasVectorizedFor]
  | ._Var_ _, _ => by simp [HasVectorizedFor]
  | .Add a b, h => by
      simp only [HasBranchOrLoop, Bool.or_eq_false_iff] at h
      simp [HasVectorizedFor, HasVectorizedFor_of_straight a h.1,
        HasVectorizedFor_of_straight b h.2]
  | .Cast _ v, h => by
      simp only [HasBranchOrLoop] at h
      simp [HasVectorizedFor, HasVectorizedFor_of_straight v h]
  | .Let symbol body, h => by
      simp only [HasBranchOrLoop, Bool.or_eq_false_iff] at h
      simp [HasVectorizedFor, HasVectorizedFor_of_straight symbol h.1,
        HasVectorizedForOpt_of_straight body h.2]
  | .Load tensor indices, h => by
      simp only [HasBranchOrLoop, Bool.or_eq_false_iff] at h
      simp [HasVectorizedFor, HasVectorizedFor_of_straight tensor h.1,
        HasVectorizedForList_of_straight indices h.2]
  | .Store tensor value indices, h => by
      simp only [HasBranchOrLoop, Bool.or_eq_false_iff] at h
      simp [HasVectorizedFor, HasVectorizedFor_of_straight tensor h.1.1,
        HasVectorizedFor_of_straight value h.1.2,
        HasVectorizedForList_of_straight indices h.2]
  | ._Tensor_ _ _ shape domain _, h => by
      simp only [HasBranchOrLoop, Bool.or_eq_false_iff] at h
      simp [HasVectorizedFor, HasVectorizedForList_of_straight shape h.1,
        HasVectorizedForList_of_straight domain h.2]
  | .For _ _ _ _ _ _, h => by simp [HasBranchOrLoop] at h
  | .IfThenElse _ _ _, h => by simp [HasBranchOrLoop] at h
  | .Block stmts, h => by
      simp only [HasBranchOrLoop] at h
      simp [HasVectorizedFor, HasVectorizedForList_of_straight stmts h]
  | .GetAddr data, h => by
      simp only [HasBranchOrLoop] at h
      simp [HasVectorizedFor, HasVectorizedFor_of_straight data h]
theorem HasVectorizedForList_of_straight : ∀ (es : List Expr),
    HasBranchOrLoopList es = false → HasVectorizedForList es = false
  | [], _ => by simp [HasVectorizedForList]
  | e :: es, h => by
      simp only [HasBranchOrLoopList, Bool.or_eq_false_iff] at h
      simp [HasVectorizedForList, HasVectorizedFor_of_straight e h.1,
        HasVectorizedForList_of_straight es h.2]
theorem HasVectorizedForOpt_of_straight : ∀ (o : Option Expr),
    HasBranchOrLoopOpt o = false → HasVectorizedForOpt o = false
  | none, _ => by simp [HasVectorizedForOpt]
  | some e, h => by
      simp only [HasBranchOrLoopOpt] at h
      simp [HasVectorizedForOpt, HasVectorizedFor_of_straight e h]
end

mutual
theorem IrReplaceVarBroadcast_clean : ∀ (e : Expr) (var : Var) (to_ : Expr),
    HasVectorizedFor e = false → HasVectorizedFor to_ = false →
    HasVectorizedFor (IrReplaceVarBroadcast e var to_) = false
  | .IntImm _, _, _, _, _ => by simp [IrReplaceVarBroadcast, HasVectorizedFor]
  | ._Var_ v, var, to_, _, ht => by
      simp only [IrReplaceVarBroadcast]
      split
      · exact ht
      · simp [HasVectorizedFor]
  | .Add a b, var, to_, h, ht => by
      simp only [HasVectorizedFor, Bool.or_eq_false_iff] at h
      simp [IrReplaceVarBroadcast, HasVectorizedFor,
        IrReplaceVarBroadcast_clean a var to_ h.1 ht,
        IrReplaceVarBroadcast_clean b var to_ h.2 ht]
  | .Cast _ v, var, to_, h, ht => by
      simp only [HasVectorizedFor] at h
      simp [IrReplaceVarBroadcast, HasVectorizedFor,
        IrReplaceVarBroadcast_clean v var to_ h ht]
  | .Let symbol body, var, to_, h, ht => by
      simp only [HasVectorizedFor, Bool.or_eq_false_iff] at h
      simp [IrReplaceVarBroadcast, HasVectorizedFor,
        IrReplaceVarBroadcast_clean symbol var to_ h.1 ht,
        IrReplaceVarBroadcastOpt_clean body var to_ h.2 ht]
  | .Load tensor indices, var, to_, h, ht => by
      simp only [HasVectorizedFor, Bool.or_eq_false_iff] at h
      simp [IrReplaceVarBroadcast, HasVectorizedFor, h.1,
        IrReplaceVarBroadcastList_clean indices var to_ h.2 ht]
  | .Store tensor value indices, var, to_, h, ht => by
      simp only [HasVectorizedFor, Bool.or_eq_false_iff] at h
      simp [IrReplaceVarBroadcast, HasVectorizedFor,
        IrReplaceVarBroadcast_clean tensor var to_ h.1.1 ht,
        IrReplaceVarBroadcast_clean value var to_ h.1.2 ht,
        IrReplaceVarBroadcastList_clean indices var to_ h.2 ht]
  | ._Tensor_ _ _ shape domain _, var, to_, h, ht => by
      simp only [HasVectorizedFor, Bool.or_eq_false_iff] at h
      simp [IrReplaceVarBroadcast, HasVectorizedFor, h.2,
        IrReplaceVarBroadcastList_clean shape var to_ h.1 ht]
  | .For _ min extent _ body _, var, to_, h, ht => by
      simp only [HasVectorizedFor, Bool.or_eq_false_iff] at h
      simp [IrReplaceVarBroadcast, HasVectorizedFor, h.1.1.1,
        IrReplaceVarBroadcast_clean min var to_ h.1.1.2 ht,
        IrReplaceVarBroadcast_clean extent var to_ h.1.2 ht,
        IrReplaceVarBroadcast_clean body var to_ h.2 ht]
  | .IfThenElse condition true_case false_case, var, to_, h, ht => by
      simp only [HasVectorizedFor, Bool.or_eq_false_iff] at h
      simp [IrReplaceVarBroadcast, HasVectorizedFor,
        IrReplaceVarBroadcast_clean condition var to_ h.1.1 ht,
        IrReplaceVarBroadcast_clean true_case var to_ h.1.2 ht,
        IrReplaceVarBroadcastOpt_clean false_case var to_ h.2 ht]
  | .Block stmts, var, to_, h, ht => by
      simp only [HasVectorizedFor] at h
      simp [IrReplaceVarBroadcast, HasVectorizedFor,
        IrReplaceVarBroadcastList_clean stmts var to_ h ht]
  | .GetAddr data, var, to_, h, ht => by
      simp only [HasVectorizedFor] at h
      simp [IrReplaceVarBroadcast, HasVectorizedFor,
        IrReplaceVarBroadcast_clean data var to_ h ht]
theorem IrReplaceVarBroadcastList_clean : ∀ (es : List Expr) (var : Var) (to_ : Expr),
    HasVectorizedForList es = false → HasVectorizedFor to_ = false →
    HasVectorizedForList (IrReplaceVarBroadcastList es var to_) = false
  | [], _, _, _, _ => by simp [IrReplaceVarBroadcastList, HasVectorizedForList]
  | e :: es, var, to_, h, ht => by
      simp only [HasVectorizedForList, Bool.or_eq_false_iff] at h
      simp [IrReplaceVarBroadcastList, HasVectorizedForList,
        IrReplaceVarBroadcast_clean e var to_ h.1 ht,
        IrReplaceVarBroadcastList_clean es var to_ h.2 ht]
theorem IrReplaceVarBroadcastOpt_clean : ∀ (o : Option Expr) (var : Var) (to_ : Expr),
    HasVectorizedForOpt o = false → HasVectorizedFor to_ = false →
    HasVectorizedForOpt (IrReplaceVarBroadcastOpt o var to_) = false
  | none, _, _, _, _ => by simp [IrReplaceVarBroadcastOpt, HasVectorizedForOpt]
  | some e, var, to_, h, ht => by
      simp only [HasVectorizedForOpt] at h
      simp [IrReplaceVarBroadcastOpt, HasVectorizedForOpt,
        IrReplaceVarBroadcast_clean e var to_ h ht]
end

theorem HasVectorizedForList_map_clean (f : Nat → Expr) (h : ∀ i, HasVectorizedFor (f i) = false)
    (l : List Nat) : HasVectorizedForList (l.map f) = false := by
  induction l with
  | nil => simp [HasVectorizedForList]
  | cons x xs ih => simp [HasVectorizedForList, h x, ih]

theorem UnrollLoop_inv (lv : Var) (mn ext : Expr) (ft : ForType) (body : Expr)
    (vi : VectorizeInfo) (unroll_body : List Expr)
    (h : UnrollLoop (For lv mn ext ft body vi) = Block unroll_body) :
    ∃ m n, mn = IntImm m ∧ ext = IntImm n ∧ ft.unrolled = true ∧
      unroll_body = (List.range n.toNat).map
        (fun (i : Nat) => IrReplaceVarBroadcast body lv (IntImm (m + (i : Int)))) := by
  cases mn with
  | IntImm m =>
      cases ext with
      | IntImm n =>
          by_cases hu : ft.unrolled = true
          · simp only [UnrollLoop, hu, if_true, Block.injEq] at h
            exact ⟨m, n, rfl, rfl, hu, h.symm⟩
          · simp [UnrollLoop, hu] at h
      | _ => simp [UnrollLoop] at h
  | _ => simp [UnrollLoop] at h

theorem UnrollLoop_clean (lv : Var) (mn ext : Expr) (ft : ForType) (body : Expr)
    (vi : VectorizeInfo) (unroll_body : List Expr)
    (h : UnrollLoop (For lv mn ext ft body vi) = Block unroll_body)
    (hb : HasVectorizedFor body = false) : HasVectorizedForList unroll_body = false := by
  obtain ⟨m, n, _, _, _, rfl⟩ := UnrollLoop_inv lv mn ext ft body vi unroll_body h
  exact HasVectorizedForList_map_clean _
    (fun i => IrReplaceVarBroadcast_clean body lv _ hb (by simp [HasVectorizedFor])) _

theorem CastSetup_clean (s : VectorizeForTransMutator) (t : Expr) (name : String)
    (ty : Type_) (idx : List Expr) (is_store : Bool) (lv : Var) (tn : String)
    (ht : HasVectorizedFor t = false) (hi : HasVectorizedForList idx = false) :
    HasVectorizedForList (s.CastSetup t name ty idx is_store lv tn) = false := by
  have h := IrReplaceVarBroadcastList_clean idx lv (IntImm 0) hi (by simp [HasVectorizedFor])
  cases is_store <;>
    simp [CastSetup, CastExpr, HasVectorizedForList, HasVectorizedFor, HasVectorizedForOpt,
      IrReplaceVarBroadcast, h, ht]

theorem StoreBack_clean (s : VectorizeForTransMutator) (name : String) (ty : Type_)
    (op : String) (is_store : Bool) (tn : String) :
    HasVectorizedForList (s.StoreBack name ty op is_store tn) = false := by
  cases is_store <;> simp [StoreBack, HasVectorizedForList, HasVectorizedFor]

theorem TensorVectorized_clean (s s' : VectorizeForTransMutator) (t : Expr)
    (idx : List Expr) (is_store : Bool) (r : Expr × List Expr) (hs : s.PendingClean)
    (ht : HasVectorizedFor t = false) (hi : HasVectorizedForList idx = false)
    (h : s.TensorVectorized t idx is_store = .ok (r, s')) :
    s'.PendingClean ∧ HasVectorizedFor r.1 = false ∧ HasVectorizedForList r.2 = false := by
  cases t with
  | _Tensor_ name ty sh dom op =>
      obtain ⟨lv, _, h1 | h2⟩ := TensorVectorized_inv s s' name ty sh dom op idx is_store r h
      · obtain ⟨v, _, rfl, rfl⟩ := h1
        exact ⟨hs, by simp [VectorizedTensor, HasVectorizedFor, HasVectorizedForList],
          by simp [HasVectorizedFor, HasVectorizedForList]⟩
      · obtain ⟨tn, _, _, rfl, rfl⟩ := h2
        refine ⟨⟨?_, ?_⟩, by simp [VectorizedTensor, HasVectorizedFor, HasVectorizedForList],
          by simp [HasVectorizedFor, HasVectorizedForList]⟩
        · simp only [HasVectorizedForList_append, hs.1, Bool.false_or]
          exact CastSetup_clean s _ name ty idx is_store lv tn ht hi
        · simp only [HasVectorizedForList_append, hs.2, Bool.false_or]
          exact StoreBack_clean s name ty op is_store tn
  | _ => simp [TensorVectorized] at h

mutual
theorem Visit_clean_straight : ∀ (e : Expr) (s : VectorizeForTransMutator) (e' : Expr)
    (s' : VectorizeForTransMutator), HasBranchOrLoop e = false → s.PendingClean →
    Visit e s = .ok (e', s') → s'.PendingClean ∧ HasVectorizedFor e' = false
  | .IntImm _, s, e', s', _, hs, h => by
      simp only [Visit, Except.ok.injEq, Prod.mk.injEq] at h
      rw [← h.1, ← h.2]; exact ⟨hs, by simp [HasVectorizedFor]⟩
  | ._Var_ _, s, e', s', _, hs, h => by
      simp only [Visit, Except.ok.injEq, Prod.mk.injEq] at h
      rw [← h.1, ← h.2]; exact ⟨hs, by simp [HasVectorizedFor]⟩
  | .Add a b, s, e', s', hb, hs, h => by
      simp only [HasBranchOrLoop, Bool.or_eq_false_iff] at hb
      simp only [Visit, bind_eq_ok] at h
      obtain ⟨⟨a', s1⟩, h1, ⟨b', s2⟩, h2, h3⟩ := h
      simp only [Except.ok.injEq, Prod.mk.injEq] at h3
      obtain ⟨hs1, ha⟩ := Visit_clean_straight a s a' s1 hb.1 hs h1
      obtain ⟨hs2, hb'⟩ := Visit_clean_straight b s1 b' s2 hb.2 hs1 h2
      rw [← h3.1, ← h3.2]; exact ⟨hs2, by simp [HasVectorizedFor, ha, hb']⟩
  | .Cast _ v, s, e', s', hb, hs, h => by
      simp only [HasBranchOrLoop] at hb
      simp only [Visit, bind_eq_ok] at h
      obtain ⟨⟨v', s1⟩, h1, h3⟩ := h
      simp only [Except.ok.injEq, Prod.mk.injEq] at h3
      obtain ⟨hs1, ha⟩ := Visit_clean_straight v s v' s1 hb hs h1
      rw [← h3.1, ← h3.2]; exact ⟨hs1, by simp [HasVectorizedFor, ha]⟩
  | .Let symbol body, s, e', s', hb, hs, h => by
      simp only [HasBranchOrLoop, Bool.or_eq_false_iff] at hb
      simp only [Visit, bind_eq_ok] at h
      obtain ⟨⟨a', s1⟩, h1, ⟨b', s2⟩, h2, h3⟩ := h
      simp only [Except.ok.injEq, Prod.mk.injEq] at h3
      obtain ⟨hs1, ha⟩ := Visit_clean_straight symbol s a' s1 hb.1 hs h1
      obtain ⟨hs2, hb'⟩ := VisitOpt_clean_straight body s1 b' s2 hb.2 hs1 h2
      rw [← h3.1, ← h3.2]; exact ⟨hs2, by simp [HasVectorizedFor, ha, hb']⟩
  | .Load tensor indices, s, e', s', hb, hs, h => by
      simp only [HasBranchOrLoop, Bool.or_eq_false_iff] at hb
      have ht := HasVectorizedFor_of_straight tensor hb.1
      have hi := HasVectorizedForList_of_straight indices hb.2
      simp only [Visit] at h
      rcases VisitLoad_inv s s' tensor indices e' h with ⟨rfl, rfl⟩ | ⟨_, _, r, h1, rfl⟩
      · exact ⟨hs, by simp [HasVectorizedFor, ht, hi]⟩
      · obtain ⟨hs1, hr1, hr2⟩ := TensorVectorized_clean s s' tensor indices false r hs ht hi h1
        exact ⟨hs1, by simp [HasVectorizedFor, hr1, hr2]⟩
  | .Store tensor value indices, s, e', s', hb, hs, h => by
      simp only [HasBranchOrLoop, Bool.or_eq_false_iff] at hb
      have ht := HasVectorizedFor_of_straight tensor hb.1.1
      have hi := HasVectorizedForList_of_straight indices hb.2
      simp only [Visit, bind_eq_ok] at h
      obtain ⟨⟨⟨t', idx'⟩, s1⟩, h1, ⟨v', s2⟩, h2, h3⟩ := h
      simp only [Except.ok.injEq, Prod.mk.injEq] at h3
      have hT : s1.PendingClean ∧ HasVectorizedFor t' = false ∧
          HasVectorizedForList idx' = false := by
        rcases (VisitStoreTarget_inv s s1 tensor indices (t', idx') h1).2 with
          ⟨hr, rfl⟩ | ⟨_, h4⟩
        · simp only [Prod.mk.injEq] at hr
          rw [hr.1, hr.2]; exact ⟨hs, ht, hi⟩
        · exact TensorVectorized_clean s s1 tensor indices true (t', idx') hs ht hi h4
      obtain ⟨hs2, hv⟩ := Visit_clean_straight value s1 v' s2 hb.1.2 hT.1 h2
      rw [← h3.1, ← h3.2]; exact ⟨hs2, by simp [HasVectorizedFor, hT.2.1, hT.2.2, hv]⟩
  | ._Tensor_ _ _ shape domain _, s, e', s', hb, hs, h => by
      simp only [HasBranchOrLoop, Bool.or_eq_false_iff] at hb
      simp only [Visit, bind_eq_ok] at h
      obtain ⟨⟨a', s1⟩, h1, h3⟩ := h
      simp only [Except.ok.injEq, Prod.mk.injEq] at h3
      obtain ⟨hs1, ha⟩ := VisitList_clean_straight shape s a' s1 hb.1 hs h1
      have hd := HasVectorizedForList_of_straight domain hb.2
      rw [← h3.1, ← h3.2]; exact ⟨hs1, by simp [HasVectorizedFor, ha, hd]⟩
  | .For _ _ _ _ _ _, _, _, _, hb, _, _ => by simp [HasBranchOrLoop] at hb
  | .IfThenElse _ _ _, _, _, _, hb, _, _ => by simp [HasBranchOrLoop] at hb
  | .Block stmts, s, e', s', hb, hs, h => by
      simp only [HasBranchOrLoop] at hb
      simp only [Visit, bind_eq_ok] at h
      obtain ⟨⟨v', s1⟩, h1, h3⟩ := h
      simp only [Except.ok.injEq, Prod.mk.injEq] at h3
      obtain ⟨hs1, ha⟩ := VisitList_clean_straight stmts s v' s1 hb hs h1
      rw [← h3.1, ← h3.2]; exact ⟨hs1, by simp [HasVectorizedFor, ha]⟩
  | .GetAddr data, s, e', s', hb, hs, h => by
      simp only [HasBranchOrLoop] at hb
      simp only [Visit, bind_eq_ok] at h
      obtain ⟨⟨v', s1⟩, h1, h3⟩ := h
      simp only [Except.ok.injEq, Prod.mk.injEq] at h3
      obtain ⟨hs1, ha⟩ := Visit_clean_straight data s v' s1 hb hs h1
      rw [← h3.1, ← h3.2]; exact ⟨hs1, by simp [HasVectorizedFor, ha]⟩
theorem VisitList_clean_straight : ∀ (es : List Expr) (s : VectorizeForTransMutator)
    (es' : List Expr) (s' : VectorizeForTransMutator), HasBranchOrLoopList es = false →
    s.PendingClean → VisitList es s = .ok (es', s') →
    s'.PendingClean ∧ HasVectorizedForList es' = false
  | [], s, es', s', _, hs, h => by
      simp only [VisitList, Except.ok.injEq, Prod.mk.injEq] at h
      rw [← h.1, ← h.2]; exact ⟨hs, by simp [HasVectorizedForList]⟩
  | e :: es, s, es', s', hb, hs, h => by
      simp only [HasBranchOrLoopList, Bool.or_eq_false_iff] at hb
      simp only [VisitList, bind_eq_ok] at h
      obtain ⟨⟨a', s1⟩, h1, ⟨b', s2⟩, h2, h3⟩ := h
      simp only [Except.ok.injEq, Prod.mk.injEq] at h3
      obtain ⟨hs1, ha⟩ := Visit_clean_straight e s a' s1 hb.1 hs h1
      obtain ⟨hs2, hb'⟩ := VisitList_clean_straight es s1 b' s2 hb.2 hs1 h2
      rw [← h3.1, ← h3.2]; exact ⟨hs2, by simp [HasVectorizedForList, ha, hb']⟩
theorem VisitOpt_clean_straight : ∀ (o : Option Expr) (s : VectorizeForTransMutator)
    (o' : Option Expr) (s' : VectorizeForTransMutator), HasBranchOrLoopOpt o = false →
    s.PendingClean → VisitOpt o s = .ok (o', s') →
    s'.PendingClean ∧ HasVectorizedForOpt o' = false
  | none, s, o', s', _, hs, h => by
      simp only [VisitOpt, Except.ok.injEq, Prod.mk.injEq] at h
      rw [← h.1, ← h.2]; exact ⟨hs, by simp [HasVectorizedForOpt]⟩
  | some e, s, o', s', hb, hs, h => by
      simp only [HasBranchOrLoopOpt] at hb
      simp only [VisitOpt, bind_eq_ok] at h
      obtain ⟨⟨v', s1⟩, h1, h3⟩ := h
      simp only [Except.ok.injEq, Prod.mk.injEq] at h3
      obtain ⟨hs1, ha⟩ := Visit_clean_straight e s v' s1 hb hs h1
      rw [← h3.1, ← h3.2]; exact ⟨hs1, by simp [HasVectorizedForOpt, ha]⟩
end

theorem PendingClean_after_exit (s : VectorizeForTransMutator) :
    ({ s with update_cast_stmts_ := [], update_store_stmts_ := [],
              tensor2vectorized_vars_ := [], in_vectorize_ := false } :
      VectorizeForTransMutator).PendingClean := by
  simp [PendingClean, HasVectorizedForList]

theorem ForEnter_of_not_vectorized (s : VectorizeForTransMutator) (lv : Var) (ft : ForType)
    (vi : VectorizeInfo) (h : ft.vectorized = false) : s.ForEnter lv ft vi = s := by
  simp [ForEnter, h]

theorem ForEnter_of_vectorized (s : VectorizeForTransMutator) (lv : Var) (ft : ForType)
    (vi : VectorizeInfo) (h : ft.vectorized = true) :
    s.ForEnter lv ft vi = { s with vectorize_size_ := vi.factor, loop_var_ := some lv,
                                   in_vectorize_ := true } := by
  simp [ForEnter, h]

/-- A vectorized loop whose bounds and body are straight-line code is replaced by a block
without vectorized loops, when its rewrite succeeds. -/
theorem Visit_vectorized_For_clean (s s' : VectorizeForTransMutator) (lv : Var)
    (mn ext : Expr) (ft : ForType) (body e' : Expr) (vi : VectorizeInfo)
    (hv : ft.vectorized = true) (hmn : HasBranchOrLoop mn = false)
    (hext : HasBranchOrLoop ext = false) (hbody : HasBranchOrLoop body = false)
    (hs : s.PendingClean) (h : Visit (For lv mn ext ft body vi) s = .ok (e', s')) :
    HasVectorizedFor e' = false ∧ s'.in_vectorize_ = false ∧ s'.PendingClean := by
  simp only [Visit, bind_eq_ok] at h
  obtain ⟨⟨mn', s1⟩, h1, ⟨ext', s2⟩, h2, ⟨body', s3⟩, h3, h4⟩ := h
  have hs0 : (s.ForEnter lv ft vi).PendingClean := by
    rw [ForEnter_of_vectorized s lv ft vi hv]; exact hs
  have hin0 : (s.ForEnter lv ft vi).in_vectorize_ = true := by
    rw [ForEnter_of_vectorized s lv ft vi hv]
  obtain ⟨hs1, _⟩ := Visit_clean_straight mn _ mn' s1 hmn hs0 h1
  obtain ⟨hs2, _⟩ := Visit_clean_straight ext s1 ext' s2 hext hs1 h2
  obtain ⟨hs3, hb3⟩ := Visit_clean_straight body s2 body' s3 hbody hs2 h3
  have hg := Grows_trans (Grows_trans (Visit_grows mn _ mn' s1 hmn h1)
    (Visit_grows ext s1 ext' s2 hext h2)) (Visit_grows body s2 body' s3 hbody h3)
  have hin3 : s3.in_vectorize_ = true := hg.in_vectorize.trans hin0
  obtain ⟨_, stmts, ub, rfl, hu, rfl, rfl⟩ := ForExit_inv s3 s' lv mn' ext' ft body' e' vi hin3 h4
  refine ⟨?_, rfl, PendingClean_after_exit s3⟩
  have hub := UnrollLoop_clean lv mn' ext' _ (Block stmts) vi ub hu hb3
  simp only [HasVectorizedFor] at hb3
  simp only [HasVectorizedFor, HasVectorizedForList_append, hub, hs3.2, Bool.or_false]
  split
  · exact hb3
  · exact hs3.1

mutual
theorem Visit_clean : ∀ (e : Expr) (s : VectorizeForTransMutator) (e' : Expr)
    (s' : VectorizeForTransMutator), VectorizedLoopsStraight e = true →
    s.in_vectorize_ = false → s.PendingClean → Visit e s = .ok (e', s') →
    HasVectorizedFor e' = false ∧ s'.in_vectorize_ = false ∧ s'.PendingClean
  | .IntImm _, s, e', s', _, hin, hs, h => by
      simp only [Visit, Except.ok.injEq, Prod.mk.injEq] at h
      rw [← h.1, ← h.2]; exact ⟨by simp [HasVectorizedFor], hin, hs⟩
  | ._Var_ _, s, e', s', _, hin, hs, h => by
      simp only [Visit, Except.ok.injEq, Prod.mk.injEq] at h
      rw [← h.1, ← h.2]; exact ⟨by simp [HasVectorizedFor], hin, hs⟩
  | .Add a b, s, e', s', hw, hin, hs, h => by
      simp only [VectorizedLoopsStraight, Bool.and_eq_true] at hw
      simp only [Visit, bind_eq_ok] at h
      obtain ⟨⟨a', s1⟩, h1, ⟨b', s2⟩, h2, h3⟩ := h
      simp only [Except.ok.injEq, Prod.mk.injEq] at h3
      obtain ⟨ha, hin1, hs1⟩ := Visit_clean a s a' s1 hw.1 hin hs h1
      obtain ⟨hb, hin2, hs2⟩ := Visit_clean b s1 b' s2 hw.2 hin1 hs1 h2
      rw [← h3.1, ← h3.2]; exact ⟨by simp [HasVectorizedFor, ha, hb], hin2, hs2⟩
  | .Cast _ v, s, e', s', hw, hin, hs, h => by
      simp only [VectorizedLoopsStraight] at hw
      simp only [Visit, bind_eq_ok] at h
      obtain ⟨⟨v', s1⟩, h1, h3⟩ := h
      simp only [Except.ok.injEq, Prod.mk.injEq] at h3
      obtain ⟨ha, hin1, hs1⟩ := Visit_clean v s v' s1 hw hin hs h1
      rw [← h3.1, ← h3.2]; exact ⟨by simp [HasVectorizedFor, ha], hin1, hs1⟩
  | .Let symbol body, s, e', s', hw, hin, hs, h => by
      simp only [VectorizedLoopsStraight, Bool.and_eq_true] at hw
      simp only [Visit, bind_eq_ok] at h
      obtain ⟨⟨a', s1⟩, h1, ⟨b', s2⟩, h2, h3⟩ := h
      simp only [Except.ok.injEq, Prod.mk.injEq] at h3
      obtain ⟨ha, hin1, hs1⟩ := Visit_clean symbol s a' s1 hw.1 hin hs h1
      obtain ⟨hb, hin2, hs2⟩ := VisitOpt_clean body s1 b' s2 hw.2 hin1 hs1 h2
      rw [← h3.1, ← h3.2]; exact ⟨by simp [HasVectorizedFor, ha, hb], hin2, hs2⟩
  | .Load tensor indices, s, e', s', hw, hin, hs, h => by
      simp only [VectorizedLoopsStraight, Bool.and_eq_true, Bool.not_eq_true'] at hw
      simp only [Visit, VisitLoad, hin, Bool.false_eq_true, if_false, Except.ok.injEq,
        Prod.mk.injEq] at h
      rw [← h.1, ← h.2]; exact ⟨by simp [HasVectorizedFor, hw.1, hw.2], hin, hs⟩
  | .Store tensor value indices, s, e', s', hw, hin, hs, h => by
      simp only [VectorizedLoopsStraight, Bool.and_eq_true, Bool.not_eq_true'] at hw
      simp only [Visit, bind_eq_ok] at h
      obtain ⟨⟨⟨t', idx'⟩, s1⟩, h1, ⟨v', s2⟩, h2, h3⟩ := h
      simp only [Except.ok.injEq, Prod.mk.injEq] at h3
      rcases (VisitStoreTarget_inv s s1 tensor indices (t', idx') h1).2 with
        ⟨hr, rfl⟩ | ⟨hin', _⟩
      · simp only [Prod.mk.injEq] at hr
        obtain ⟨hv, hin2, hs2⟩ := Visit_clean value s1 v' s2 hw.2 hin hs h2
        rw [← h3.1, ← h3.2, hr.1, hr.2]
        exact ⟨by simp [HasVectorizedFor, hw.1.1, hw.1.2, hv], hin2, hs2⟩
      · rw [hin] at hin'; simp at hin'
  | ._Tensor_ _ _ shape domain _, s, e', s', hw, hin, hs, h => by
      simp only [VectorizedLoopsStraight, Bool.and_eq_true, Bool.not_eq_true'] at hw
      simp only [Visit, bind_eq_ok] at h
      obtain ⟨⟨a', s1⟩, h1, h3⟩ := h
      simp only [Except.ok.injEq, Prod.mk.injEq] at h3
      obtain ⟨ha, hin1, hs1⟩ := VisitList_clean shape s a' s1 hw.1 hin hs h1
      rw [← h3.1, ← h3.2]; exact ⟨by simp [HasVectorizedFor, ha, hw.2], hin1, hs1⟩
  | .For lv mn ext ft body vi, s, e', s', hw, hin, hs, h => by
      simp only [VectorizedLoopsStraight] at hw
      by_cases hv : ft.vectorized = true
      · simp only [hv, if_true, Bool.and_eq_true, Bool.not_eq_true'] at hw
        exact Visit_vectorized_For_clean s s' lv mn ext ft body e' vi hv hw.1.1 hw.1.2 hw.2
          hs h
      · simp only [Bool.not_eq_true] at hv
        simp only [hv, Bool.false_eq_true, if_false, Bool.and_eq_true] at hw
        simp only [Visit, bind_eq_ok, ForEnter_of_not_vectorized s lv ft vi hv] at h
        obtain ⟨⟨mn', s1⟩, h1, ⟨ext', s2⟩, h2, ⟨body', s3⟩, h3, h4⟩ := h
        obtain ⟨ha, hin1, hs1⟩ := Visit_clean mn s mn' s1 hw.1.1 hin hs h1
        obtain ⟨hb, hin2, hs2⟩ := Visit_clean ext s1 ext' s2 hw.1.2 hin1 hs1 h2
        obtain ⟨hc, hin3, hs3⟩ := Visit_clean body s2 body' s3 hw.2 hin2 hs2 h3
        rw [ForExit_scalar s3 lv mn' ext' ft body' vi hin3] at h4
        simp only [Except.ok.injEq, Prod.mk.injEq] at h4
        rw [← h4.1, ← h4.2]
        exact ⟨by simp [HasVectorizedFor, hv, ha, hb, hc], rfl, hs3⟩
  | .IfThenElse condition true_case false_case, s, e', s', hw, hin, hs, h => by
      simp only [VectorizedLoopsStraight, Bool.and_eq_true] at hw
      simp only [Visit, bind_eq_ok] at h
      obtain ⟨⟨a', s1⟩, h1, ⟨b', s2⟩, h2, ⟨c', s3⟩, h3, h4⟩ := h
      simp only [Except.ok.injEq, Prod.mk.injEq] at h4
      obtain ⟨ha, hin1, hs1⟩ := Visit_clean condition { s with in_vectorize_ := false } a' s1
        hw.1.1 rfl hs h1
      obtain ⟨hb, hin2, hs2⟩ := Visit_clean true_case s1 b' s2 hw.1.2 hin1 hs1 h2
      obtain ⟨hc, hin3, hs3⟩ := VisitOpt_clean false_case s2 c' s3 hw.2 hin2 hs2 h3
      rw [← h4.1, ← h4.2]; exact ⟨by simp [HasVectorizedFor, ha, hb, hc], hin3, hs3⟩
  | .Block stmts, s, e', s', hw, hin, hs, h => by
      simp only [VectorizedLoopsStraight] at hw
      simp only [Visit, bind_eq_ok] at h
      obtain ⟨⟨v', s1⟩, h1, h3⟩ := h
      simp only [Except.ok.injEq, Prod.mk.injEq] at h3
      obtain ⟨ha, hin1, hs1⟩ := VisitList_clean stmts s v' s1 hw hin hs h1
      rw [← h3.1, ← h3.2]; exact ⟨by simp [HasVectorizedFor, ha], hin1, hs1⟩
  | .GetAddr data, s, e', s', hw, hin, hs, h => by
      simp only [VectorizedLoopsStraight] at hw
      simp only [Visit, bind_eq_ok] at h
      obtain ⟨⟨v', s1⟩, h1, h3⟩ := h
      simp only [Except.ok.injEq, Prod.mk.injEq] at h3
      obtain ⟨ha, hin1, hs1⟩ := Visit_clean data s v' s1 hw hin hs h1
      rw [← h3.1, ← h3.2]; exact ⟨by simp [HasVectorizedFor, ha], hin1, hs1⟩
theorem VisitList_clean : ∀ (es : List Expr) (s : VectorizeForTransMutator)
    (es' : List Expr) (s' : VectorizeForTransMutator), VectorizedLoopsStraightList es = true →
    s.in_vectorize_ = false → s.PendingClean → VisitList es s = .ok (es', s') →
    HasVectorizedForList es' = false ∧ s'.in_vectorize_ = false ∧ s'.PendingClean
  | [], s, es', s', _, hin, hs, h => by
      simp only [VisitList, Except.ok.injEq, Prod.mk.injEq] at h
      rw [← h.1, ← h.2]; exact ⟨by simp [HasVectorizedForList], hin, hs⟩
  | e :: es, s, es', s', hw, hin, hs, h => by
      simp only [VectorizedLoopsStraightList, Bool.and_eq_true] at hw
      simp only [VisitList, bind_eq_ok] at h
      obtain ⟨⟨a', s1⟩, h1, ⟨b', s2⟩, h2, h3⟩ := h
      simp only [Except.ok.injEq, Prod.mk.injEq] at h3
      obtain ⟨ha, hin1, hs1⟩ := Visit_clean e s a' s1 hw.1 hin hs h1
      obtain ⟨hb, hin2, hs2⟩ := VisitList_clean es s1 b' s2 hw.2 hin1 hs1 h2
      rw [← h3.1, ← h3.2]; exact ⟨by simp [HasVectorizedForList, ha, hb], hin2, hs2⟩
theorem VisitOpt_clean : ∀ (o : Option Expr) (s : VectorizeForTransMutator)
    (o' : Option Expr) (s' : VectorizeForTransMutator), VectorizedLoopsStraightOpt o = true →
    s.in_vectorize_ = false → s.PendingClean → VisitOpt o s = .ok (o', s') →
    HasVectorizedForOpt o' = false ∧ s'.in_vectorize_ = false ∧ s'.PendingClean
  | none, s, o', s', _, hin, hs, h => by
      simp only [VisitOpt, Except.ok.injEq, Prod.mk.injEq] at h
      rw [← h.1, ← h.2]; exact ⟨by simp [HasVectorizedForOpt], hin, hs⟩
  | some e, s, o', s', hw, hin, hs, h => by
      simp only [VectorizedLoopsStraightOpt] at hw
      simp only [VisitOpt, bind_eq_ok] at h
      obtain ⟨⟨v', s1⟩, h1, h3⟩ := h
      simp only [Except.ok.injEq, Prod.mk.injEq] at h3
      obtain ⟨ha, hin1, hs1⟩ := Visit_clean e s v' s1 hw hin hs h1
      rw [← h3.1, ← h3.2]; exact ⟨by simp [HasVectorizedForOpt, ha], hin1, hs1⟩
end

/-! ## Which accesses are rewritten -/

theorem VisitLoad_dependent (s : VectorizeForTransMutator) (lv : Var) (t : Expr)
    (idx : List Expr) (hin : s.in_vectorize_ = true) (hlv : s.loop_var_ = some lv)
    (ht : t.as_tensor = true) (hd : DependsOn lv.name idx = true) :
    s.VisitLoad t idx =
      (s.TensorVectorized t idx false >>= fun r => .ok (Load r.1.1 r.1.2, r.2)) := by
  simp only [VisitLoad, hin, if_true, is_addr_tensor, ht, IsScalarTensor_eq s lv hlv idx, hd,
    ok_bind, Bool.not_true, Bool.not_false]

theorem VisitLoad_independent (s : VectorizeForTransMutator) (lv : Var) (t : Expr)
    (idx : List Expr) (hlv : s.loop_var_ = some lv) (hd : DependsOn lv.name idx = false) :
    s.VisitLoad t idx = .ok (Load t idx, s) := by
  simp only [VisitLoad, IsScalarTensor_eq s lv hlv idx, hd, ok_bind]
  simp

theorem VisitLoad_not_tensor (s : VectorizeForTransMutator) (t : Expr) (idx : List Expr)
    (ht : t.as_tensor = false) : s.VisitLoad t idx = .ok (Load t idx, s) := by
  simp [VisitLoad, is_addr_tensor, ht]

theorem VisitStoreTarget_dependent (s : VectorizeForTransMutator) (lv : Var) (t : Expr)
    (idx : List Expr) (hin : s.in_vectorize_ = true) (hlv : s.loop_var_ = some lv)
    (ht : t.as_tensor = true) (hd : DependsOn lv.name idx = true) :
    s.VisitStoreTarget t idx = s.TensorVectorized t idx true := by
  simp [VisitStoreTarget, hin, ht, IsScalarTensor_eq s lv hlv idx, hd, ok_bind]

theorem VisitStoreTarget_independent (s : VectorizeForTransMutator) (lv : Var) (t : Expr)
    (idx : List Expr) (hlv : s.loop_var_ = some lv) (ht : t.as_tensor = true)
    (hd : DependsOn lv.name idx = false) :
    s.VisitStoreTarget t idx = .ok ((t, idx), s) := by
  simp [VisitStoreTarget, ht, IsScalarTensor_eq s lv hlv idx, hd, ok_bind]

theorem VisitStoreTarget_not_tensor (s : VectorizeForTransMutator) (t : Expr)
    (idx : List Expr) (ht : t.as_tensor = false) :
    s.VisitStoreTarget t idx = .error Err.InvalidArgument := by
  simp [VisitStoreTarget, ht]

theorem Grows_vars_ne_nil {s s' : VectorizeForTransMutator} (h : Grows s s')
    (hne : s.tensor2vectorized_vars_ ≠ []) : s'.tensor2vectorized_vars_ ≠ [] := by
  obtain ⟨added, ha, _⟩ := h.vars
  rw [ha]
  simp [hne]

/-- Two consecutive steps of a straight-line walk in vectorize mode: when one of them leaves
the mapping non-empty, it is non-empty at the end. -/
theorem vars_ne_nil_of_steps {s s1 s2 : VectorizeForTransMutator} (lv : Var)
    (hin : s.in_vectorize_ = true) (hlv : s.loop_var_ = some lv) (g1 : Grows s s1)
    (g2 : Grows s1 s2) (A B : Prop)
    (ih1 : A → s1.tensor2vectorized_vars_ ≠ [])
    (ih2 : s1.in_vectorize_ = true → s1.loop_var_ = some lv → B →
      s2.tensor2vectorized_vars_ ≠ [])
    (h : A ∨ B) : s2.tensor2vectorized_vars_ ≠ [] := by
  rcases h with h | h
  · exact Grows_vars_ne_nil g2 (ih1 h)
  · exact ih2 (g1.in_vectorize.trans hin) (g1.loop_var.trans hlv) h

theorem exists_mem_append_iff {α : Type} (p : α → Prop) (xs ys : List α) :
    (∃ x ∈ xs ++ ys, p x) ↔ (∃ x ∈ xs, p x) ∨ (∃ x ∈ ys, p x) := by
  constructor
  · rintro ⟨x, hx, hp⟩
    rcases List.mem_append.1 hx with h | h
    · exact Or.inl ⟨x, h, hp⟩
    · exact Or.inr ⟨x, h, hp⟩
  · rintro (⟨x, hx, hp⟩ | ⟨x, hx, hp⟩)
    · exact ⟨x, List.mem_append.2 (Or.inl hx), hp⟩
    · exact ⟨x, List.mem_append.2 (Or.inr hx), hp⟩

mutual
theorem Visit_vars_of_access : ∀ (e : Expr) (s : VectorizeForTransMutator) (e' : Expr)
    (s' : VectorizeForTransMutator) (lv : Var), HasBranchOrLoop e = false →
    s.in_vectorize_ = true → s.loop_var_ = some lv → Visit e s = .ok (e', s') →
    (∃ idx ∈ TensorAccesses e, DependsOn lv.name idx = true) →
    s'.tensor2vectorized_vars_ ≠ []
  | .IntImm _, _, _, _, _, _, _, _, _, hacc => by simp [TensorAccesses] at hacc
  | ._Var_ _, _, _, _, _, _, _, _, _, hacc => by simp [TensorAccesses] at hacc
  | .Add a b, s, e', s', lv, hb, hin, hlv, h, hacc => by
      simp only [HasBranchOrLoop, Bool.or_eq_false_iff] at hb
      simp only [Visit, bind_eq_ok] at h
      obtain ⟨⟨a', s1⟩, h1, ⟨b', s2⟩, h2, h3⟩ := h
      simp only [Except.ok.injEq, Prod.mk.injEq] at h3
      simp only [TensorAccesses, exists_mem_append_iff] at hacc
      rw [← h3.2]
      exact vars_ne_nil_of_steps lv hin hlv (Visit_grows a s a' s1 hb.1 h1)
        (Visit_grows b s1 b' s2 hb.2 h2) _ _
        (Visit_vars_of_access a s a' s1 lv hb.1 hin hlv h1)
        (fun hin1 hlv1 => Visit_vars_of_access b s1 b' s2 lv hb.2 hin1 hlv1 h2) hacc
  | .Cast _ v, s, e', s', lv, hb, hin, hlv, h, hacc => by
      simp only [HasBranchOrLoop] at hb
      simp only [Visit, bind_eq_ok] at h
      obtain ⟨⟨v', s1⟩, h1, h3⟩ := h
      simp only [Except.ok.injEq, Prod.mk.injEq] at h3
      simp only [TensorAccesses] at hacc
      rw [← h3.2]
      exact Visit_vars_of_access v s v' s1 lv hb hin hlv h1 hacc
  | .Let symbol body, s, e', s', lv, hb, hin, hlv, h, hacc => by
      simp only [HasBranchOrLoop, Bool.or_eq_false_iff] at hb
      simp only [Visit, bind_eq_ok] at h
      obtain ⟨⟨a', s1⟩, h1, ⟨b', s2⟩, h2, h3⟩ := h
      simp only [Except.ok.injEq, Prod.mk.injEq] at h3
      simp only [TensorAccesses, exists_mem_append_iff] at hacc
      rw [← h3.2]
      exact vars_ne_nil_of_steps lv hin hlv (Visit_grows symbol s a' s1 hb.1 h1)
        (VisitOpt_grows body s1 b' s2 hb.2 h2) _ _
        (Visit_vars_of_access symbol s a' s1 lv hb.1 hin hlv h1)
        (fun hin1 hlv1 => VisitOpt_vars_of_access body s1 b' s2 lv hb.2 hin1 hlv1 h2) hacc
  | .Load tensor indices, s, e', s', lv, _, hin, hlv, h, hacc => by
      simp only [TensorAccesses] at hacc
      by_cases ht : tensor.as_tensor = true
      · simp only [ht, if_true, List.mem_singleton, exists_eq_left] at hacc
        simp only [Visit, VisitLoad_dependent s lv tensor indices hin hlv ht hacc,
          bind_eq_ok] at h
        obtain ⟨⟨r, s1⟩, h1, h2⟩ := h
        simp only [Except.ok.injEq, Prod.mk.injEq] at h2
        rw [← h2.2]
        exact TensorVectorized_vars_ne_nil s s1 tensor indices false r h1
      · simp [ht] at hacc
  | .Store tensor value indices, s, e', s', lv, hb, hin, hlv, h, hacc => by
      simp only [HasBranchOrLoop, Bool.or_eq_false_iff] at hb
      simp only [Visit, bind_eq_ok] at h
      obtain ⟨⟨⟨t', idx'⟩, s1⟩, h1, ⟨v', s2⟩, h2, h3⟩ := h
      simp only [Except.ok.injEq, Prod.mk.injEq] at h3
      simp only [TensorAccesses, exists_mem_append_iff] at hacc
      rw [← h3.2]
      refine vars_ne_nil_of_steps lv hin hlv
        (VisitStoreTarget_grows s s1 tensor indices (t', idx') h1)
        (Visit_grows value s1 v' s2 hb.1.2 h2) _ _ ?_
        (fun hin1 hlv1 => Visit_vars_of_access value s1 v' s2 lv hb.1.2 hin1 hlv1 h2) hacc
      intro hacc1
      have ht := (VisitStoreTarget_inv s s1 tensor indices (t', idx') h1).1
      simp only [ht, if_true, List.mem_singleton, exists_eq_left] at hacc1
      rw [VisitStoreTarget_dependent s lv tensor indices hin hlv ht hacc1] at h1
      exact TensorVectorized_vars_ne_nil s s1 tensor indices true (t', idx') h1
  | ._Tensor_ _ _ shape domain _, s, e', s', lv, hb, hin, hlv, h, hacc => by
      simp only [HasBranchOrLoop, Bool.or_eq_false_iff] at hb
      simp only [Visit, bind_eq_ok] at h
      obtain ⟨⟨a', s1⟩, h1, h3⟩ := h
      simp only [Except.ok.injEq, Prod.mk.injEq] at h3
      simp only [TensorAccesses] at hacc
      rw [← h3.2]
      exact VisitList_vars_of_access shape s a' s1 lv hb.1 hin hlv h1 hacc
  | .For _ _ _ _ _ _, _, _, _, _, hb, _, _, _, _ => by simp [HasBranchOrLoop] at hb
  | .IfThenElse _ _ _, _, _, _, _, hb, _, _, _, _ => by simp [HasBranchOrLoop] at hb
  | .Block stmts, s, e', s', lv, hb, hin, hlv, h, hacc => by
      simp only [HasBranchOrLoop] at hb
      simp only [Visit, bind_eq_ok] at h
      obtain ⟨⟨v', s1⟩, h1, h3⟩ := h
      simp only [Except.ok.injEq, Prod.mk.injEq] at h3
      simp only [TensorAccesses] at hacc
      rw [← h3.2]
      exact VisitList_vars_of_access stmts s v' s1 lv hb hin hlv h1 hacc
  | .GetAddr data, s, e', s', lv, hb, hin, hlv, h, hacc => by
      simp only [HasBranchOrLoop] at hb
      simp only [Visit, bind_eq_ok] at h
      obtain ⟨⟨v', s1⟩, h1, h3⟩ := h
      simp only [Except.ok.injEq, Prod.mk.injEq] at h3
      simp only [TensorAccesses] at hacc
      rw [← h3.2]
      exact Visit_vars_of_access data s v' s1 lv hb hin hlv h1 hacc
theorem VisitList_vars_of_access : ∀ (es : List Expr) (s : VectorizeForTransMutator)
    (es' : List Expr) (s' : VectorizeForTransMutator) (lv : Var),
    HasBranchOrLoopList es = false → s.in_vectorize_ = true → s.loop_var_ = some lv →
    VisitList es s = .ok (es', s') →
    (∃ idx ∈ TensorAccessesList es, DependsOn lv.name idx = true) →
    s'.tensor2vectorized_vars_ ≠ []
  | [], _, _, _, _, _, _, _, _, hacc => by simp [TensorAccessesList] at hacc
  | e :: es, s, es', s', lv, hb, hin, hlv, h, hacc => by
      simp only [HasBranchOrLoopList, Bool.or_eq_false_iff] at hb
      simp only [VisitList, bind_eq_ok] at h
      obtain ⟨⟨a', s1⟩, h1, ⟨b', s2⟩, h2, h3⟩ := h
      simp only [Except.ok.injEq, Prod.mk.injEq] at h3
      simp only [TensorAccessesList, exists_mem_append_iff] at hacc
      rw [← h3.2]
      exact vars_ne_nil_of_steps lv hin hlv (Visit_grows e s a' s1 hb.1 h1)
        (VisitList_grows es s1 b' s2 hb.2 h2) _ _
        (Visit_vars_of_access e s a' s1 lv hb.1 hin hlv h1)
        (fun hin1 hlv1 => VisitList_vars_of_access es s1 b' s2 lv hb.2 hin1 hlv1 h2) hacc
theorem VisitOpt_vars_of_access : ∀ (o : Option Expr) (s : VectorizeForTransMutator)
    (o' : Option Expr) (s' : VectorizeForTransMutator) (lv : Var),
    HasBranchOrLoopOpt o = false → s.in_vectorize_ = true → s.loop_var_ = some lv →
    VisitOpt o s = .ok (o', s') →
    (∃ idx ∈ TensorAccessesOpt o, DependsOn lv.name idx = true) →
    s'.tensor2vectorized_vars_ ≠ []
  | none, _, _, _, _, _, _, _, _, hacc => by simp [TensorAccessesOpt] at hacc
  | some e, s, o', s', lv, hb, hin, hlv, h, hacc => by
      simp only [HasBranchOrLoopOpt] at hb
      simp only [VisitOpt, bind_eq_ok] at h
      obtain ⟨⟨v', s1⟩, h1, h3⟩ := h
      simp only [Except.ok.injEq, Prod.mk.injEq] at h3
      simp only [TensorAccessesOpt] at hacc
      rw [← h3.2]
      exact Visit_vars_of_access e s v' s1 lv hb hin hlv h1 hacc
end

theorem VectorizeForTrans_ok (e e' : Expr) (h : VectorizeForTrans e = .ok e') :
    ∃ s', Visit e init = .ok (e', s') := by
  unfold VectorizeForTrans at h
  cases hv : Visit e init with
  | error err => rw [hv] at h; simp [Except.map] at h
  | ok r =>
      rw [hv] at h
      simp only [Except.map, Except.ok.injEq] at h
      exact ⟨r.2, by rw [← h]⟩

theorem VectorizeForTrans_of_Visit (e e' : Expr) (s' : VectorizeForTransMutator)
    (h : Visit e init = .ok (e', s')) : VectorizeForTrans e = .ok e' := by
  simp [VectorizeForTrans, h, Except.map]

theorem VectorizeForTrans_of_Visit_error (e : Expr) (err : Err)
    (h : Visit e init = .error err) : VectorizeForTrans e = .error err := by
  simp [VectorizeForTrans, h, Except.map]

theorem init_PendingClean : init.PendingClean := by
  simp [PendingClean, init, HasVectorizedForList]

/-- C1 (counterexample): the vectorized loop whose body is a conditional is returned as it
is, still marked vectorized. -/
theorem C1_vectorized_loop_survives :
    VectorizeForTrans Examples.GuardedLoop = .ok Examples.GuardedLoop ∧
      HasVectorizedFor Examples.GuardedLoop = true :=
  ⟨rfl, rfl⟩

/-- C1 (amended): on a tree in which no vectorized loop contains a conditional or another
loop, and no vectorized loop sits inside the address of an access, every run of
`VectorizeForTrans` that completes returns a tree without a loop marked vectorized. -/
theorem C1_no_vectorized_loop_remains (e e' : Expr)
    (hw : VectorizedLoopsStraight e = true) (h : VectorizeForTrans e = .ok e') :
    HasVectorizedFor e' = false := by
  obtain ⟨s', hs'⟩ := VectorizeForTrans_ok e e' h
  exact (Visit_clean e init e' s' hw rfl init_PendingClean hs').1

/-- The loop with body `C[i] = A[i] + B[i]` meets the condition and is rewritten to a tree
without vectorized loop. -/
theorem C1_no_vectorized_loop_remains_witness :
    VectorizedLoopsStraight Examples.AddLoop = true ∧
      ∃ e', VectorizeForTrans Examples.AddLoop = .ok e' ∧ HasVectorizedFor e' = false :=
  ⟨rfl, _, rfl, C1_no_vectorized_loop_remains Examples.AddLoop _ rfl rfl⟩

/-- C3: a tree without a loop marked vectorized, all of whose stores target a tensor, is
accepted by `VectorizeForTrans` and returned unchanged. -/
theorem C3_noop_without_vectorized_loop (e : Expr) (hv : HasVectorizedFor e = false)
    (ht : StoresTargetTensors e = true) : VectorizeForTrans e = .ok e := by
  obtain ⟨s', hs', _⟩ := Visit_noop e init hv ht rfl
  exact VectorizeForTrans_of_Visit e e s' hs'

/-- The serial loop around a conditional around `C[i] = A[i] + B[i]` comes back unchanged. -/
theorem C3_noop_without_vectorized_loop_witness :
    VectorizeForTrans Examples.PlainLoop = .ok Examples.PlainLoop :=
  C3_noop_without_vectorized_loop Examples.PlainLoop rfl rfl

/-! ## Errors abort the traversal -/

theorem VisitList_append (xs ys : List Expr) (s : VectorizeForTransMutator) :
    VisitList (xs ++ ys) s =
      (VisitList xs s >>= fun r => VisitList ys r.2 >>= fun r' =>
        .ok (r.1 ++ r'.1, r'.2)) := by
  induction xs generalizing s with
  | nil =>
      simp only [List.nil_append, VisitList, ok_bind]
      cases VisitList ys s with
      | error err => rfl
      | ok r => rfl
  | cons x xs ih =>
      rw [List.cons_append, VisitList, VisitList]
      cases hx : Visit x s with
      | error err => rfl
      | ok r =>
          obtain ⟨x', s1⟩ := r
          simp only [ok_bind]
          rw [ih s1]
          cases VisitList xs s1 with
          | error err => rfl
          | ok r1 =>
              obtain ⟨xs', s2⟩ := r1
              simp only [ok_bind]
              cases VisitList ys s2 with
              | error err => rfl
              | ok r2 => rfl

theorem VisitList_error_at (before after : List Expr) (x : Expr)
    (s s1 : VectorizeForTransMutator) (before' : List Expr) (err : Err)
    (hb : VisitList before s = .ok (before', s1)) (hx : Visit x s1 = .error err) :
    VisitList (before ++ x :: after) s = .error err := by
  rw [VisitList_append, hb]
  simp [ok_bind, VisitList, hx, error_bind]

theorem Reaches_error {e n : Expr} {s sn : VectorizeForTransMutator} (h : Reaches e s n sn)
    (err : Err) (hn : Visit n sn = .error err) : Visit e s = .error err := by
  induction h with
  | here e s => exact hn
  | add_a _ ih => simp [Visit, ih hn, error_bind]
  | add_b h1 _ ih => simp [Visit, h1, ok_bind, ih hn, error_bind]
  | cast _ ih => simp [Visit, ih hn, error_bind]
  | let_symbol _ ih => simp [Visit, ih hn, error_bind]
  | let_body h1 _ ih => simp [Visit, h1, ok_bind, VisitOpt, ih hn, error_bind]
  | store_value h1 _ ih => simp [Visit, h1, ok_bind, ih hn, error_bind]
  | tensor_shape _ _ _ h1 _ ih =>
      simp [Visit, VisitList_error_at _ _ _ _ _ _ _ h1 (ih hn), error_bind]
  | for_min _ ih => simp [Visit, ih hn, error_bind]
  | for_extent h1 _ ih => simp [Visit, h1, ok_bind, ih hn, error_bind]
  | for_body h1 h2 _ ih => simp [Visit, h1, h2, ok_bind, ih hn, error_bind]
  | if_condition _ ih => simp [Visit, ih hn, error_bind]
  | if_true h1 _ ih => simp [Visit, h1, ok_bind, ih hn, error_bind]
  | if_false h1 h2 _ ih => simp [Visit, h1, h2, ok_bind, VisitOpt, ih hn, error_bind]
  | block _ _ _ h1 _ ih => simp [Visit, VisitList_error_at _ _ _ _ _ _ _ h1 (ih hn), error_bind]
  | get_addr _ ih => simp [Visit, ih hn, error_bind]

theorem ForEnter_CastsCoverVars (s : VectorizeForTransMutator) (lv : Var) (ft : ForType)
    (vi : VectorizeInfo) (h : s.CastsCoverVars) : (s.ForEnter lv ft vi).CastsCoverVars := by
  unfold ForEnter
  split
  · exact h
  · exact h

/-! ## Pending casts cover the mapping in every state of a traversal -/

theorem ForExit_covers (s s' : VectorizeForTransMutator) (lv : Var) (mn ext : Expr)
    (ft : ForType) (body e' : Expr) (vi : VectorizeInfo)
    (h : s.ForExit lv mn ext ft body vi = .ok (e', s')) : s'.CastsCoverVars := by
  have hnil : s'.tensor2vectorized_vars_ = [] := by
    by_cases hin : s.in_vectorize_ = true
    · obtain ⟨_, _, _, _, _, _, rfl⟩ := ForExit_inv s s' lv mn ext ft body e' vi hin h
      rfl
    · simp only [Bool.not_eq_true] at hin
      rw [ForExit_scalar s lv mn ext ft body vi hin] at h
      simp only [Except.ok.injEq, Prod.mk.injEq] at h
      rw [← h.2]
  intro hne
  exact absurd hnil hne

mutual
theorem Visit_covers : ∀ (e : Expr) (s : VectorizeForTransMutator) (e' : Expr)
    (s' : VectorizeForTransMutator), s.CastsCoverVars → Visit e s = .ok (e', s') →
    s'.CastsCoverVars
  | .IntImm _, s, e', s', hc, h => by
      simp only [Visit, Except.ok.injEq, Prod.mk.injEq] at h
      rw [← h.2]; exact hc
  | ._Var_ _, s, e', s', hc, h => by
      simp only [Visit, Except.ok.injEq, Prod.mk.injEq] at h
      rw [← h.2]; exact hc
  | .Add a b, s, e', s', hc, h => by
      simp only [Visit, bind_eq_ok] at h
      obtain ⟨⟨a', s1⟩, h1, ⟨b', s2⟩, h2, h3⟩ := h
      simp only [Except.ok.injEq, Prod.mk.injEq] at h3
      rw [← h3.2]
      exact Visit_covers b s1 b' s2 (Visit_covers a s a' s1 hc h1) h2
  | .Cast _ v, s, e', s', hc, h => by
      simp only [Visit, bind_eq_ok] at h
      obtain ⟨⟨v', s1⟩, h1, h3⟩ := h
      simp only [Except.ok.injEq, Prod.mk.injEq] at h3
      rw [← h3.2]
      exact Visit_covers v s v' s1 hc h1
  | .Let symbol body, s, e', s', hc, h => by
      simp only [Visit, bind_eq_ok] at h
      obtain ⟨⟨a', s1⟩, h1, ⟨b', s2⟩, h2, h3⟩ := h
      simp only [Except.ok.injEq, Prod.mk.injEq] at h3
      rw [← h3.2]
      exact VisitOpt_covers body s1 b' s2 (Visit_covers symbol s a' s1 hc h1) h2
  | .Load tensor indices, s, e', s', hc, h => by
      simp only [Visit] at h
      exact (VisitLoad_grows s s' tensor indices e' h).covers hc
  | .Store tensor value indices, s, e', s', hc, h => by
      simp only [Visit, bind_eq_ok] at h
      obtain ⟨⟨⟨t', idx'⟩, s1⟩, h1, ⟨v', s2⟩, h2, h3⟩ := h
      simp only [Except.ok.injEq, Prod.mk.injEq] at h3
      rw [← h3.2]
      exact Visit_covers value s1 v' s2
        ((VisitStoreTarget_grows s s1 tensor indices (t', idx') h1).covers hc) h2
  | ._Tensor_ _ _ shape _ _, s, e', s', hc, h => by
      simp only [Visit, bind_eq_ok] at h
      obtain ⟨⟨a', s1⟩, h1, h3⟩ := h
      simp only [Except.ok.injEq, Prod.mk.injEq] at h3
      rw [← h3.2]
      exact VisitList_covers shape s a' s1 hc h1
  | .For lv mn ext ft body vi, s, e', s', _, h => by
      simp only [Visit, bind_eq_ok] at h
      obtain ⟨⟨mn', s1⟩, _, ⟨ext', s2⟩, _, ⟨body', s3⟩, _, h4⟩ := h
      exact ForExit_covers s3 s' lv mn' ext' ft body' e' vi h4
  | .IfThenElse condition true_case false_case, s, e', s', hc, h => by
      simp only [Visit, bind_eq_ok] at h
      obtain ⟨⟨a', s1⟩, h1, ⟨b', s2⟩, h2, ⟨c', s3⟩, h3, h4⟩ := h
      simp only [Except.ok.injEq, Prod.mk.injEq] at h4
      rw [← h4.2]
      exact VisitOpt_covers false_case s2 c' s3
        (Visit_covers true_case s1 b' s2
          (Visit_covers condition { s with in_vectorize_ := false } a' s1 hc h1) h2) h3
  | .Block stmts, s, e', s', hc, h => by
      simp only [Visit, bind_eq_ok] at h
      obtain ⟨⟨v', s1⟩, h1, h3⟩ := h
      simp only [Except.ok.injEq, Prod.mk.injEq] at h3
      rw [← h3.2]
      exact VisitList_covers stmts s v' s1 hc h1
  | .GetAddr data, s, e', s', hc, h => by
      simp only [Visit, bind_eq_ok] at h
      obtain ⟨⟨v', s1⟩, h1, h3⟩ := h
      simp only [Except.ok.injEq, Prod.mk.injEq] at h3
      rw [← h3.2]
      exact Visit_covers data s v' s1 hc h1
theorem VisitList_covers : ∀ (es : List Expr) (s : VectorizeForTransMutator)
    (es' : List Expr) (s' : VectorizeForTransMutator), s.CastsCoverVars →
    VisitList es s = .ok (es', s') → s'.CastsCoverVars
  | [], s, es', s', hc, h => by
      simp only [VisitList, Except.ok.injEq, Prod.mk.injEq] at h
      rw [← h.2]; exact hc
  | e :: es, s, es', s', hc, h => by
      simp only [VisitList, bind_eq_ok] at h
      obtain ⟨⟨a', s1⟩, h1, ⟨b', s2⟩, h2, h3⟩ := h
      simp only [Except.ok.injEq, Prod.mk.injEq] at h3
      rw [← h3.2]
      exact VisitList_covers es s1 b' s2 (Visit_covers e s a' s1 hc h1) h2
theorem VisitOpt_covers : ∀ (o : Option Expr) (s : VectorizeForTransMutator)
    (o' : Option Expr) (s' : VectorizeForTransMutator), s.CastsCoverVars →
    VisitOpt o s = .ok (o', s') → s'.CastsCoverVars
  | none, s, o', s', hc, h => by
      simp only [VisitOpt, Except.ok.injEq, Prod.mk.injEq] at h
      rw [← h.2]; exact hc
  | some e, s, o', s', hc, h => by
      simp only [VisitOpt, bind_eq_ok] at h
      obtain ⟨⟨v', s1⟩, h1, h3⟩ := h
      simp only [Except.ok.injEq, Prod.mk.injEq] at h3
      rw [← h3.2]
      exact Visit_covers e s v' s1 hc h1
end

theorem Reaches_covers {e n : Expr} {s sn : VectorizeForTransMutator} (h : Reaches e s n sn)
    (hc : s.CastsCoverVars) : sn.CastsCoverVars := by
  induction h with
  | here e s => exact hc
  | add_a _ ih => exact ih hc
  | add_b h1 _ ih => exact ih (Visit_covers _ _ _ _ hc h1)
  | cast _ ih => exact ih hc
  | let_symbol _ ih => exact ih hc
  | let_body h1 _ ih => exact ih (Visit_covers _ _ _ _ hc h1)
  | store_value h1 _ ih => exact ih ((VisitStoreTarget_grows _ _ _ _ _ h1).covers hc)
  | tensor_shape _ _ _ h1 _ ih => exact ih (VisitList_covers _ _ _ _ hc h1)
  | for_min _ ih => exact ih (ForEnter_CastsCoverVars _ _ _ _ hc)
  | for_extent h1 _ ih =>
      exact ih (Visit_covers _ _ _ _ (ForEnter_CastsCoverVars _ _ _ _ hc) h1)
  | for_body h1 h2 _ ih =>
      exact ih (Visit_covers _ _ _ _
        (Visit_covers _ _ _ _ (ForEnter_CastsCoverVars _ _ _ _ hc) h1) h2)
  | if_condition _ ih => exact ih hc
  | if_true h1 _ ih =>
      have hstep := fun hc' => Visit_covers _ _ _ _ hc' h1
      exact ih (hstep hc)
  | if_false h1 h2 _ ih =>
      have hstep := fun hc' => Visit_covers _ _ _ _ hc' h1
      exact ih (Visit_covers _ _ _ _ (hstep hc) h2)
  | block _ _ _ h1 _ ih => exact ih (VisitList_covers _ _ _ _ hc h1)
  | get_addr _ ih => exact ih hc

theorem init_CastsCoverVars : init.CastsCoverVars := by
  simp [CastsCoverVars, init]

theorem Visit_Block_inv (stmts : List Expr) (s s' : VectorizeForTransMutator) (e' : Expr)
    (h : Visit (Block stmts) s = .ok (e', s')) :
    ∃ stmts', VisitList stmts s = .ok (stmts', s') ∧ e' = Block stmts' := by
  simp only [Visit, bind_eq_ok] at h
  obtain ⟨⟨stmts', s1⟩, h1, h2⟩ := h
  simp only [Except.ok.injEq, Prod.mk.injEq] at h2
  exact ⟨stmts', by rw [← h2.2]; exact h1, h2.1.symm⟩

theorem Visit_For (lv : Var) (mn ext : Expr) (ft : ForType) (body : Expr)
    (vi : VectorizeInfo) (s : VectorizeForTransMutator) :
    Visit (For lv mn ext ft body vi) s =
      (Visit mn (s.ForEnter lv ft vi) >>= fun r1 => Visit ext r1.2 >>= fun r2 =>
        Visit body r2.2 >>= fun r3 => r3.2.ForExit lv r1.1 r2.1 ft r3.1 vi) := by
  rw [Visit]

theorem Visit_IntImm (value : Int) (s : VectorizeForTransMutator) :
    Visit (IntImm value) s = .ok (IntImm value, s) := by
  rw [Visit]

/-- C2: let the traversal of a tree, started from the fresh rewriter, arrive at a loop marked
vectorized with factor `F > 1` that runs `F` times, whose body is a block without conditional
or loop, with at least one tensor access and all tensor accesses depending on the loop
variable. Then the loop is replaced by the block made of the pending cast-setup statements,
then the `F` statements that the unroller returns for the rewritten body, then the pending
store-back statements, in this order and nothing else; the pending lists are those that the
walk through the body leaves, and both are empty afterwards. -/
theorem C2_replacement_block (e : Expr) (s s' : VectorizeForTransMutator) (lv : Var)
    (m F : Int) (ft : ForType) (stmts : List Expr) (body' : Expr) (vi : VectorizeInfo)
    (hr : Reaches e init (For lv (IntImm m) (IntImm F) ft (Block stmts) vi) s)
    (hvec : ft.vectorized = true) (hfac : vi.factor = F) (hF : 1 < F)
    (hstraight : HasBranchOrLoop (Block stmts) = false)
    (hacc : TensorAccesses (Block stmts) ≠ [])
    (hdep : ∀ idx ∈ TensorAccesses (Block stmts), DependsOn lv.name idx = true)
    (hbody : Visit (Block stmts) (s.ForEnter lv ft vi) = .ok (body', s')) :
    ∃ unroll_body,
      UnrollLoop (For lv (IntImm m) (IntImm F) { ft with unrolled := true } body' vi) =
        Block unroll_body ∧
      (unroll_body.length : Int) = F ∧
      Visit (For lv (IntImm m) (IntImm F) ft (Block stmts) vi) s =
        .ok (Block (s'.update_cast_stmts_ ++ unroll_body ++ s'.update_store_stmts_),
          { s' with update_cast_stmts_ := [], update_store_stmts_ := [],
                    tensor2vectorized_vars_ := [], in_vectorize_ := false }) := by
  have hinv : s.CastsCoverVars := Reaches_covers hr init_CastsCoverVars
  obtain ⟨stmts', _, rfl⟩ := Visit_Block_inv stmts _ s' body' hbody
  have hin0 : (s.ForEnter lv ft vi).in_vectorize_ = true := by
    rw [ForEnter_of_vectorized s lv ft vi hvec]
  have hlv0 : (s.ForEnter lv ft vi).loop_var_ = some lv := by
    rw [ForEnter_of_vectorized s lv ft vi hvec]
  have hg := Visit_grows (Block stmts) _ (Block stmts') s' hstraight hbody
  have hin : s'.in_vectorize_ = true := hg.in_vectorize.trans hin0
  have hex : ∃ idx ∈ TensorAccesses (Block stmts), DependsOn lv.name idx = true := by
    cases hl : TensorAccesses (Block stmts) with
    | nil => exact absurd hl hacc
    | cons idx rest =>
        rw [hl] at hdep
        exact ⟨idx, List.mem_cons_self _ _, hdep idx (List.mem_cons_self _ _)⟩
  have hvars := Visit_vars_of_access (Block stmts) _ (Block stmts') s' lv hstraight hin0 hlv0
    hbody hex
  have hcasts : s'.update_cast_stmts_ ≠ [] :=
    hg.covers (ForEnter_CastsCoverVars s lv ft vi hinv) hvars
  have hempty : s'.update_cast_stmts_.isEmpty = false := by
    cases hc : s'.update_cast_stmts_ with
    | nil => exact absurd hc hcasts
    | cons x xs => rfl
  refine ⟨(List.range F.toNat).map
    (fun (k : Nat) => IrReplaceVarBroadcast (Block stmts') lv (IntImm (m + (k : Int)))),
    by simp [UnrollLoop], ?_, ?_⟩
  · simp only [List.length_map, List.length_range]
    omega
  · have hu : UnrollLoop (For lv (IntImm m) (IntImm F) { ft with unrolled := true }
        (Block stmts') vi) = Block ((List.range F.toNat).map
          (fun (k : Nat) => IrReplaceVarBroadcast (Block stmts') lv (IntImm (m + (k : Int))))) := by
      simp [UnrollLoop]
    have hF' : 1 < vi.factor := by rw [hfac]; exact hF
    rw [Visit_For, Visit_IntImm, ok_bind, Visit_IntImm, ok_bind, hbody, ok_bind,
      ForExit_vectorize s' lv (IntImm m) (IntImm F) ft stmts' _ vi hin hF' hu]
    simp [hempty]

/-- The loop with body `C[i] = A[i] + B[i]`, taken as the whole tree. -/
theorem C2_replacement_block_witness :
    ∃ body' s' unroll_body,
      Visit (Block [Examples.AddStmt]) Examples.InLoop = .ok (body', s') ∧
      UnrollLoop (For Examples.i (IntImm 0) (IntImm 4) { vectorized := true, unrolled := true }
        body' { level := 0, factor := 4 }) = Block unroll_body ∧
      (unroll_body.length : Int) = 4 ∧
      Visit Examples.AddLoop init =
        .ok (Block (s'.update_cast_stmts_ ++ unroll_body ++ s'.update_store_stmts_),
          { s' with update_cast_stmts_ := [], update_store_stmts_ := [],
                    tensor2vectorized_vars_ := [], in_vectorize_ := false }) := by
  have hacc : TensorAccesses (Block [Examples.AddStmt]) =
      [[_Var_ Examples.i], [_Var_ Examples.i], [_Var_ Examples.i]] := rfl
  obtain ⟨ub, h1, h2, h3⟩ := C2_replacement_block Examples.AddLoop init _ Examples.i 0 4
    { vectorized := true, unrolled := false } [Examples.AddStmt] _ { level := 0, factor := 4 }
    (Reaches.here _ _) rfl rfl (by decide) rfl (by rw [hacc]; simp)
    (by
      rw [hacc]
      intro idx hidx
      simp only [List.mem_cons, List.mem_singleton, List.not_mem_nil, or_false, or_self] at hidx
      subst hidx
      rfl)
    (rfl : Visit (Block [Examples.AddStmt]) Examples.InLoop = .ok _)
  exact ⟨_, _, ub, rfl, h1, h2, h3⟩

/-- C4 (the code at the failing input): in the vectorized loop with body
`D[i] = C[i]; C[i] = 1` the tensor `C` is read first and written afterwards. The walk through
the body maps both `D` and `C` to vector locals and redirects the store to `C` to the local
`vectorized_C_1`, but queues three cast-setup statements (two for `D`, one for `C`) and a
single store-back statement, the one of `D`; the block that replaces the loop has eight
statements, and its only store-back writes through `vectorized_D_0_ptr`: nothing writes
`vectorized_C_1` back to `C`. -/
theorem C4_written_tensor_without_store_back :
    (∃ first second s', Visit Examples.ReadThenWriteBody Examples.InLoop =
        .ok (Block [first, second], s') ∧
      s'.tensor2vectorized_vars_.map Prod.fst = ["D", "C"] ∧
      StoreTargetNames [first] = ["vectorized_D_0"] ∧
      StoreTargetNames [second] = ["vectorized_C_1"] ∧
      s'.update_cast_stmts_.length = 3 ∧
      s'.update_store_stmts_.length = 1 ∧
      StoreTargetNames s'.update_store_stmts_ = ["vectorized_D_0_ptr"]) ∧
    (∃ stmts, VectorizeForTrans Examples.ReadThenWriteLoop = .ok (Block stmts) ∧
      stmts.length = 8 ∧ StoreTargetNames stmts = ["vectorized_D_0_ptr"]) :=
  ⟨⟨_, _, _, rfl, rfl, rfl, rfl, rfl, rfl, rfl⟩, ⟨_, rfl, rfl, rfl⟩⟩

theorem lookup_append_of_some (m added : List (String × Var)) (k : String) (v : Var)
    (h : m.lookup k = some v) : (m ++ added).lookup k = some v := by
  rw [List.lookup_append, h]
  rfl

/-- C5: when `TensorVectorized` rewrites an access to the tensor named `name`, the mapping
holds one variable for `name` afterwards and the access refers to it. If `name` was not mapped
before, this call created the variable: the mapping grew by the one entry for `name` and the
counter by one. Every later call for a tensor of that name, made after any stretch of the walk
that stays inside the loop, returns the rewriter as it received it (no new variable, no new
mapping entry, nothing queued) and rewrites the access to the same variable. The names in the
mapping stay pairwise distinct. -/
theorem C5_one_variable_per_tensor_name (s s1 : VectorizeForTransMutator) (name : String)
    (ty : Type_) (sh dom : List Expr) (op : String) (idx : List Expr) (is_store : Bool)
    (r : Expr × List Expr)
    (h : s.TensorVectorized (_Tensor_ name ty sh dom op) idx is_store = .ok (r, s1)) :
    ∃ v lv, s1.tensor2vectorized_vars_.lookup name = some v ∧ s.loop_var_ = some lv ∧
      r = (s.VectorizedTensor v ty op, [_Var_ lv]) ∧
      (s.tensor2vectorized_vars_.lookup name = none →
        s1.tensor2vectorized_vars_ = s.tensor2vectorized_vars_ ++ [(name, v)] ∧
        s1.var_index_ = s.var_index_ + 1 ∧
        v.name = "vectorized_" ++ name ++ "_" ++ toString s.var_index_) ∧
      (s.tensor2vectorized_vars_.lookup name = some v → s1 = s) ∧
      ((s.tensor2vectorized_vars_.map Prod.fst).Nodup →
        (s1.tensor2vectorized_vars_.map Prod.fst).Nodup) ∧
      (∀ (s2 : VectorizeForTransMutator) (ty2 : Type_) (sh2 dom2 : List Expr) (op2 : String)
          (idx2 : List Expr) (is_store2 : Bool), Grows s1 s2 →
        s2.TensorVectorized (_Tensor_ name ty2 sh2 dom2 op2) idx2 is_store2 =
          .ok ((s2.VectorizedTensor v ty2 op2, [_Var_ lv]), s2)) := by
  have hg := TensorVectorized_grows s s1 _ idx is_store r h
  obtain ⟨lv, hlv, h1 | h2⟩ := TensorVectorized_inv s s1 name ty sh dom op idx is_store r h
  · obtain ⟨v, hv, hr, hs⟩ := h1
    subst hs
    refine ⟨v, lv, hv, hlv, hr, ?_, fun _ => rfl, hg.nodup, ?_⟩
    · intro hnone; rw [hnone] at hv; simp at hv
    · intro s2 ty2 sh2 dom2 op2 idx2 is_store2 hg2
      obtain ⟨added, ha, _⟩ := hg2.vars
      exact TensorVectorized_hit s2 name ty2 sh2 dom2 op2 idx2 is_store2 v lv
        (by rw [ha]; exact lookup_append_of_some _ _ _ _ hv) (hg2.loop_var.trans hlv)
  · obtain ⟨tn, hnone, _, hr, hs⟩ := h2
    have hl : s1.tensor2vectorized_vars_.lookup name = some (s.VectorizedVar name ty tn) := by
      rw [hs]
      simp only [List.lookup_append, hnone, List.lookup_cons, beq_self_eq_true]
      rfl
    refine ⟨s.VectorizedVar name ty tn, lv, hl, hlv, hr, ?_, ?_, hg.nodup, ?_⟩
    · intro _
      rw [hs]
      exact ⟨rfl, rfl, rfl⟩
    · intro hsome; rw [hnone] at hsome; simp at hsome
    · intro s2 ty2 sh2 dom2 op2 idx2 is_store2 hg2
      obtain ⟨added, ha, _⟩ := hg2.vars
      exact TensorVectorized_hit s2 name ty2 sh2 dom2 op2 idx2 is_store2 _ lv
        (by rw [ha]; exact lookup_append_of_some _ _ _ _ hl)
        (hg2.loop_var.trans (hg.loop_var.trans hlv))

/-- A first load of `A` in the loop creates `vectorized_A_0`; a later store to `A` with other
indices reuses it and leaves the rewriter as it was. -/
theorem C5_one_variable_per_tensor_name_witness :
    ∃ r s1 v, Examples.InLoop.TensorVectorized (Examples.Tensor4 "A") [_Var_ Examples.i] false =
        .ok (r, s1) ∧
      s1.tensor2vectorized_vars_ = [("A", v)] ∧ v.name = "vectorized_A_0" ∧
      s1.var_index_ = 1 ∧
      s1.TensorVectorized (Examples.Tensor4 "A") [IntImm 0, _Var_ Examples.i] true =
        .ok ((s1.VectorizedTensor v Examples.Float32 "A_op", [_Var_ Examples.i]), s1) := by
  obtain ⟨v, lv, _, hlv, _, hnew, _, _, hlater⟩ := C5_one_variable_per_tensor_name
    Examples.InLoop _ "A" Examples.Float32 [IntImm 4] [IntImm 4] "A_op" [_Var_ Examples.i] false
    _ (rfl : Examples.InLoop.TensorVectorized (Examples.Tensor4 "A") [_Var_ Examples.i] false =
      .ok _)
  obtain ⟨h1, h2, h3⟩ := hnew rfl
  have hlv' : lv = Examples.i := by
    have : some Examples.i = some lv := hlv
    exact (Option.some.inj this).symm
  subst hlv'
  exact ⟨_, _, v, rfl, h1, h3, h2,
    hlater _ Examples.Float32 [IntImm 4] [IntImm 4] "A_op" [IntImm 0, _Var_ Examples.i] true
      (Grows_refl _)⟩

theorem Visit_Store (t value : Expr) (idx : List Expr) (s : VectorizeForTransMutator) :
    Visit (Store t value idx) s =
      (s.VisitStoreTarget t idx >>= fun r => Visit value r.2 >>= fun v =>
        .ok (Store r.1.1 v.1 r.1.2, v.2)) := by
  rw [Visit]

theorem Visit_Load (t : Expr) (idx : List Expr) (s : VectorizeForTransMutator) :
    Visit (Load t idx) s = s.VisitLoad t idx := by
  rw [Visit]

/-- C9: when the traversal of a tree arrives at a store whose target is not a tensor node,
the walk fails with the invalid-argument error, whatever the rewriter state at that point
(in or out of vectorize mode) and whatever the tree (with or without a vectorized loop); so
does `VectorizeForTrans` when the walk started from the fresh rewriter. -/
theorem C9_store_without_tensor_is_fatal (e : Expr) (s sn : VectorizeForTransMutator)
    (tensor value : Expr) (indices : List Expr)
    (hr : Reaches e s (Store tensor value indices) sn) (ht : tensor.as_tensor = false) :
    Visit e s = .error Err.InvalidArgument ∧
      (s = init → VectorizeForTrans e = .error Err.InvalidArgument) := by
  have hstore : Visit (Store tensor value indices) sn = .error Err.InvalidArgument := by
    rw [Visit_Store, VisitStoreTarget_not_tensor sn tensor indices ht, error_bind]
  have hv := Reaches_error hr _ hstore
  exact ⟨hv, fun hs => VectorizeForTrans_of_Visit_error e _ (by rw [← hs]; exact hv)⟩

/-- A store to the variable `x` in a tree without vectorized loop, and the same store met in
vectorize mode. -/
theorem C9_store_without_tensor_is_fatal_witness :
    HasVectorizedFor Examples.BadStoreLoop = false ∧
      VectorizeForTrans Examples.BadStoreLoop = .error Err.InvalidArgument ∧
      Visit Examples.BadStore Examples.InLoop = .error Err.InvalidArgument :=
  ⟨rfl,
   (C9_store_without_tensor_is_fatal Examples.BadStoreLoop init init
      (_Var_ { name := "x", type := Examples.Float32 }) (IntImm 1) [_Var_ Examples.i]
      (Reaches.for_body rfl rfl
        (Reaches.block [Examples.SetStmt] _ [] rfl (Reaches.here _ _)))
      rfl).2 rfl,
   (C9_store_without_tensor_is_fatal Examples.BadStore Examples.InLoop Examples.InLoop
      (_Var_ { name := "x", type := Examples.Float32 }) (IntImm 1) [_Var_ Examples.i]
      (Reaches.here _ _) rfl).1⟩

theorem IsVectorScalarType_ElementOf (type : Type_) :
    IsVectorScalarType type.ElementOf = IsVectorScalarType type := rfl

theorem GetVectorTypeName_unsupported (s : VectorizeForTransMutator) (type : Type_)
    (h : IsVectorScalarType type = false) :
    s.GetVectorTypeName type = .error Err.NotImplemented := by
  simp only [IsVectorScalarType, Bool.or_eq_false_iff] at h
  obtain ⟨⟨⟨⟨⟨⟨h1, h2⟩, h3⟩, h4⟩, h5⟩, h6⟩, h7⟩ := h
  simp [GetVectorTypeName, h1, h2, h3, h4, h5, h6, h7]

/-- C10: `GetVectorTypeName` returns the CUDA vector-type prefix, then `char`, `short`, `int`,
`uint`, `float`, `float16` or `bfloat16` for the scalar types `int8`, `int16`, `int32`,
`uint32`, `float32`, `float16` and `bfloat16`, then the decimal text of the current factor.
It succeeds for these seven types only; for every other type it fails with the
not-implemented error, and so do `AppendCast` for a tensor of such a type and the visit of a
loop-dependent load or store of such a tensor that has no vector variable yet. -/
theorem C10_vector_type_name (s : VectorizeForTransMutator) (type : Type_) :
    (type.is_int 8 = true → s.GetVectorTypeName type =
      .ok (kcuda_builtin_vector_t ++ "char" ++ toString s.vectorize_size_)) ∧
    (type.is_int 16 = true → s.GetVectorTypeName type =
      .ok (kcuda_builtin_vector_t ++ "short" ++ toString s.vectorize_size_)) ∧
    (type.is_int 32 = true → s.GetVectorTypeName type =
      .ok (kcuda_builtin_vector_t ++ "int" ++ toString s.vectorize_size_)) ∧
    (type.is_uint 32 = true → s.GetVectorTypeName type =
      .ok (kcuda_builtin_vector_t ++ "uint" ++ toString s.vectorize_size_)) ∧
    (type.is_float 32 specific_type_t.None = true → s.GetVectorTypeName type =
      .ok (kcuda_builtin_vector_t ++ "float" ++ toString s.vectorize_size_)) ∧
    (type.is_float16 = true → s.GetVectorTypeName type =
      .ok (kcuda_builtin_vector_t ++ "float16" ++ toString s.vectorize_size_)) ∧
    (type.is_bfloat16 = true → s.GetVectorTypeName type =
      .ok (kcuda_builtin_vector_t ++ "bfloat16" ++ toString s.vectorize_size_)) ∧
    ((∃ name, s.GetVectorTypeName type = .ok name) ↔ IsVectorScalarType type = true) ∧
    (IsVectorScalarType type = false →
      s.GetVectorTypeName type = .error Err.NotImplemented ∧
      (∀ (name : String) (sh dom : List Expr) (op : String) (idx : List Expr)
          (is_store : Bool),
        s.AppendCast (_Tensor_ name type sh dom op) idx is_store =
          .error Err.NotImplemented) ∧
      (∀ (lv : Var) (name : String) (sh dom : List Expr) (op : String) (idx : List Expr)
          (value : Expr), s.in_vectorize_ = true → s.loop_var_ = some lv →
        DependsOn lv.name idx = true → s.tensor2vectorized_vars_.lookup name = none →
        Visit (Load (_Tensor_ name type sh dom op) idx) s = .error Err.NotImplemented ∧
        Visit (Store (_Tensor_ name type sh dom op) value idx) s =
          .error Err.NotImplemented)) := by
  refine ⟨?_, ?_, ?_, ?_, ?_, ?_, ?_, ?_, ?_⟩
  · intro h
    simp [GetVectorTypeName, h]
  · intro h
    obtain ⟨ty, bits, lanes, st, hdl, cst, cname⟩ := type
    simp [Type_.is_int] at h
    obtain ⟨rfl, rfl⟩ := h
    simp [GetVectorTypeName, Type_.is_int]
  · intro h
    obtain ⟨ty, bits, lanes, st, hdl, cst, cname⟩ := type
    simp [Type_.is_int] at h
    obtain ⟨rfl, rfl⟩ := h
    simp [GetVectorTypeName, Type_.is_int]
  · intro h
    obtain ⟨ty, bits, lanes, st, hdl, cst, cname⟩ := type
    simp [Type_.is_uint] at h
    obtain ⟨rfl, rfl⟩ := h
    simp [GetVectorTypeName, Type_.is_int, Type_.is_uint]
  · intro h
    obtain ⟨ty, bits, lanes, st, hdl, cst, cname⟩ := type
    simp [Type_.is_float] at h
    obtain ⟨rfl, rfl⟩ := h
    simp [GetVectorTypeName, Type_.is_int, Type_.is_uint, Type_.is_float]
  · intro h
    obtain ⟨ty, bits, lanes, st, hdl, cst, cname⟩ := type
    simp [Type_.is_float16, Type_.is_float] at h
    obtain ⟨⟨rfl, rfl⟩, rfl⟩ := h
    simp [GetVectorTypeName, Type_.is_int, Type_.is_uint, Type_.is_float, Type_.is_float16]
  · intro h
    obtain ⟨ty, bits, lanes, st, hdl, cst, cname⟩ := type
    simp [Type_.is_bfloat16, Type_.is_float] at h
    obtain ⟨⟨rfl, rfl⟩, rfl⟩ := h
    simp [GetVectorTypeName, Type_.is_int, Type_.is_uint, Type_.is_float, Type_.is_float16,
      Type_.is_bfloat16]
  · constructor
    · rintro ⟨name, hname⟩
      by_contra hn
      simp only [Bool.not_eq_true] at hn
      rw [GetVectorTypeName_unsupported s type hn] at hname
      simp at hname
    · intro h
      unfold GetVectorTypeName
      repeat' split
      all_goals first
        | exact ⟨_, rfl⟩
        | (exfalso
           simp only [IsVectorScalarType, Bool.or_eq_true] at h
           simp_all)
  · intro h
    have hg := GetVectorTypeName_unsupported s type h
    have hge : s.GetVectorTypeName type.ElementOf = .error Err.NotImplemented :=
      GetVectorTypeName_unsupported s type.ElementOf h
    refine ⟨hg, fun name sh dom op idx is_store =>
      AppendCast_error s name type sh dom op idx is_store _ hge, ?_⟩
    intro lv name sh dom op idx value hin hlv hd hnone
    have htv : ∀ is_store, s.TensorVectorized (_Tensor_ name type sh dom op) idx is_store =
        .error Err.NotImplemented := fun is_store =>
      TensorVectorized_miss_error s name type sh dom op idx is_store _ hnone hge
    constructor
    · rw [Visit_Load, VisitLoad_dependent s lv (_Tensor_ name type sh dom op) idx hin hlv rfl hd,
        htv, error_bind]
    · rw [Visit_Store,
        VisitStoreTarget_dependent s lv (_Tensor_ name type sh dom op) idx hin hlv rfl hd,
        htv, error_bind]

/-- The type `float32` with factor 4, and the type `float64`, which has no vector type. -/
theorem C10_vector_type_name_witness :
    Examples.InLoop.GetVectorTypeName Examples.Float32 =
        .ok (kcuda_builtin_vector_t ++ "float" ++ "4") ∧
      Examples.InLoop.GetVectorTypeName Examples.Float64 = .error Err.NotImplemented ∧
      Visit (Load (Examples.DoubleTensor4 "A") [_Var_ Examples.i]) Examples.InLoop =
        .error Err.NotImplemented :=
  ⟨(C10_vector_type_name Examples.InLoop Examples.Float32).2.2.2.2.1 rfl,
   ((C10_vector_type_name Examples.InLoop Examples.Float64).2.2.2.2.2.2.2.2 rfl).1,
   (((C10_vector_type_name Examples.InLoop Examples.Float64).2.2.2.2.2.2.2.2 rfl).2.2
      Examples.i "A" [IntImm 4] [IntImm 4] "A_op" [_Var_ Examples.i] (IntImm 0)
      rfl rfl rfl rfl).1⟩

/-- C11: for the loop over `i` in `[0,4)` marked vectorized with factor 4 and body
`C[i] = A[i] + B[i]`, `VectorizeForTrans` returns a block of exactly nine statements: the
pointer bind and the zero-initialisation for `C`, one read cast for `A` and one for `B`, the
four unrolled statements storing `vectorized_A_1[k] + vectorized_B_2[k]` into
`vectorized_C_0[k]` for `k = 0, 1, 2, 3` in this order, and the store-back of `vectorized_C_0`.
The walk through the body maps exactly three tensor names, each to its own vector variable. -/
theorem C11_add_loop_rewrite :
    VectorizeForTrans Examples.AddLoop = .ok (Block Examples.AddLoopStmts) ∧
      Examples.AddLoopStmts.length = 9 ∧
      ∃ body' s', Visit (Block [Examples.AddStmt]) Examples.InLoop = .ok (body', s') ∧
        s'.tensor2vectorized_vars_.map (fun p => (p.1, p.2.name)) =
          [("C", "vectorized_C_0"), ("A", "vectorized_A_1"), ("B", "vectorized_B_2")] :=
  ⟨rfl, rfl, _, _, rfl, rfl⟩

/-- C14 (the code at the failing input): a serial loop over `j` lies directly in the body of
the vectorized loop over `i`. When the walk leaves the serial loop, vectorize mode is still
on, so the factor check reads the vectorize info of the serial loop: with the default
factor -1 the pass fails with the invalid-argument error; with a stale factor 4 the serial
loop is unrolled and replaced by a block that starts with the casts queued for the outer
loop. -/
theorem C14_serial_loop_in_vectorized_loop :
    VectorizeForTrans Examples.NestedSerialLoop = .error Err.InvalidArgument ∧
      ∃ stmts, VectorizeForTrans Examples.NestedSerialLoopStaleFactor =
          .ok (Examples.VectorizedLoop 4 (Block [Block stmts])) ∧
        stmts.length = 5 ∧ StoreTargetNames stmts = ["vectorized_C_0_ptr"] :=
  ⟨rfl, _, rfl, rfl, rfl⟩

/-- C15 (the code at the failing input): the first loop has a conditional after its access,
so it is left with vectorize mode off and its four cast-setup statements and its store-back
stay pending after the loop node has been visited and when the walk returns. In the tree
with a second vectorized loop behind it, the block that replaces the second loop holds the
pending statements of both loops: twelve statements, with the store-backs of `C` and `D`. -/
theorem C15_pending_statements_leak :
    (Visit Examples.AddThenBranchLoop init).toOption.map
        (fun r => (HasVectorizedFor r.1, r.2.update_cast_stmts_.length,
          r.2.update_store_stmts_.length)) = some (true, 4, 1) ∧
      (VectorizeForTrans Examples.TwoLoops).toOption.map
        (fun e => ((Examples.SecondBlockStmts e).length,
          StoreTargetNames (Examples.SecondBlockStmts e))) =
        some (12, ["vectorized_C_0_ptr", "vectorized_D_3_ptr"]) := by
  constructor <;> decide!

/-- C16: when `TensorVectorized` rewrites an access to tensor `T` in a loop with factor `F`
and loop variable `v`, the new tensor reference carries the name of the variable that the
mapping holds for the name of `T`, the shape `[F]` and the operation of `T`, and the new index
list is `[v]`, whatever the original index list was. -/
theorem C16_rewritten_access_shape (s s' : VectorizeForTransMutator) (name : String)
    (ty : Type_) (sh dom : List Expr) (op : String) (idx : List Expr) (is_store : Bool)
    (r : Expr × List Expr) (F : Int) (v : Var) (hF : s.vectorize_size_ = F)
    (hv : s.loop_var_ = some v)
    (h : s.TensorVectorized (_Tensor_ name ty sh dom op) idx is_store = .ok (r, s')) :
    ∃ vectorized_var new_type,
      s'.tensor2vectorized_vars_.lookup name = some vectorized_var ∧
      r.1 = _Tensor_ vectorized_var.name new_type [IntImm F] [IntImm F] op ∧
      r.2 = [_Var_ v] := by
  obtain ⟨lv, hlv, h1 | h2⟩ := TensorVectorized_inv s s' name ty sh dom op idx is_store r h
  · obtain ⟨x, hx, hr, hs⟩ := h1
    have hlv' : lv = v := Option.some.inj (hlv.symm.trans hv)
    subst hlv' hs hF
    exact ⟨x, _, hx, by rw [hr]; rfl, by rw [hr]⟩
  · obtain ⟨tn, hnone, _, hr, hs⟩ := h2
    have hlv' : lv = v := Option.some.inj (hlv.symm.trans hv)
    subst hlv' hF
    refine ⟨s.VectorizedVar name ty tn, _, ?_, by rw [hr]; rfl, by rw [hr]⟩
    rw [hs]
    simp only [List.lookup_append, hnone, List.lookup_cons, beq_self_eq_true]
    rfl

/-- The load `A[0, i + 1]` in the loop over `i` with factor 4 becomes `vectorized_A_0[i]`
with shape `[4]`. -/
theorem C16_rewritten_access_shape_witness :
    ∃ r s' vectorized_var new_type,
      Examples.InLoop.TensorVectorized (Examples.Tensor4 "A")
        [IntImm 0, Add (_Var_ Examples.i) (IntImm 1)] false = .ok (r, s') ∧
      s'.tensor2vectorized_vars_.lookup "A" = some vectorized_var ∧
      r.1 = _Tensor_ vectorized_var.name new_type [IntImm 4] [IntImm 4] "A_op" ∧
      r.2 = [_Var_ Examples.i] := by
  obtain ⟨x, t, h1, h2, h3⟩ := C16_rewritten_access_shape Examples.InLoop _ "A"
    Examples.Float32 [IntImm 4] [IntImm 4] "A_op" [IntImm 0, Add (_Var_ Examples.i) (IntImm 1)]
    false _ 4 Examples.i rfl rfl
    (rfl : Examples.InLoop.TensorVectorized (Examples.Tensor4 "A")
      [IntImm 0, Add (_Var_ Examples.i) (IntImm 1)] false = .ok _)
  exact ⟨_, _, x, t, rfl, h1, h2, h3⟩

/-! ## Store-backs are queued together with casts -/

theorem TensorVectorized_paired (s s' : VectorizeForTransMutator) (t : Expr)
    (idx : List Expr) (is_store : Bool) (r : Expr × List Expr) (hp : s.StoresNeedCasts)
    (h : s.TensorVectorized t idx is_store = .ok (r, s')) : s'.StoresNeedCasts := by
  cases t with
  | _Tensor_ name ty sh dom op =>
      obtain ⟨lv, _, h1 | h2⟩ := TensorVectorized_inv s s' name ty sh dom op idx is_store r h
      · obtain ⟨v, _, _, rfl⟩ := h1
        exact hp
      · obtain ⟨tn, _, _, _, rfl⟩ := h2
        intro hc
        simp only [List.append_eq_nil] at hc
        exact absurd hc.2 (CastSetup_ne_nil _ _ _ _ _ _ _ _)
  | _ => simp [TensorVectorized] at h

theorem VisitLoad_paired (s s' : VectorizeForTransMutator) (t : Expr) (idx : List Expr)
    (e' : Expr) (hp : s.StoresNeedCasts) (h : s.VisitLoad t idx = .ok (e', s')) :
    s'.StoresNeedCasts := by
  rcases VisitLoad_inv s s' t idx e' h with ⟨_, rfl⟩ | ⟨_, _, r, h1, _⟩
  · exact hp
  · exact TensorVectorized_paired s s' t idx false r hp h1

theorem VisitStoreTarget_paired (s s' : VectorizeForTransMutator) (t : Expr)
    (idx : List Expr) (r : Expr × List Expr) (hp : s.StoresNeedCasts)
    (h : s.VisitStoreTarget t idx = .ok (r, s')) : s'.StoresNeedCasts := by
  rcases (VisitStoreTarget_inv s s' t idx r h).2 with ⟨_, rfl⟩ | ⟨_, h1⟩
  · exact hp
  · exact TensorVectorized_paired s s' t idx true r hp h1

theorem ForEnter_paired (s : VectorizeForTransMutator) (lv : Var) (ft : ForType)
    (vi : VectorizeInfo) (h : s.StoresNeedCasts) : (s.ForEnter lv ft vi).StoresNeedCasts := by
  unfold ForEnter
  split
  · exact h
  · exact h

theorem ForExit_paired (s s' : VectorizeForTransMutator) (lv : Var) (mn ext : Expr)
    (ft : ForType) (body e' : Expr) (vi : VectorizeInfo) (hp : s.StoresNeedCasts)
    (h : s.ForExit lv mn ext ft body vi = .ok (e', s')) : s'.StoresNeedCasts := by
  by_cases hin : s.in_vectorize_ = true
  · obtain ⟨_, _, _, _, _, _, rfl⟩ := ForExit_inv s s' lv mn ext ft body e' vi hin h
    intro _
    rfl
  · simp only [Bool.not_eq_true] at hin
    rw [ForExit_scalar s lv mn ext ft body vi hin] at h
    simp only [Except.ok.injEq, Prod.mk.injEq] at h
    rw [← h.2]
    exact hp

mutual
theorem Visit_paired : ∀ (e : Expr) (s : VectorizeForTransMutator) (e' : Expr)
    (s' : VectorizeForTransMutator), s.StoresNeedCasts → Visit e s = .ok (e', s') →
    s'.StoresNeedCasts
  | .IntImm _, s, e', s', hc, h => by
      simp only [Visit, Except.ok.injEq, Prod.mk.injEq] at h
      rw [← h.2]; exact hc
  | ._Var_ _, s, e', s', hc, h => by
      simp only [Visit, Except.ok.injEq, Prod.mk.injEq] at h
      rw [← h.2]; exact hc
  | .Add a b, s, e', s', hc, h => by
      simp only [Visit, bind_eq_ok] at h
      obtain ⟨⟨a', s1⟩, h1, ⟨b', s2⟩, h2, h3⟩ := h
      simp only [Except.ok.injEq, Prod.mk.injEq] at h3
      rw [← h3.2]
      exact Visit_paired b s1 b' s2 (Visit_paired a s a' s1 hc h1) h2
  | .Cast _ v, s, e', s', hc, h => by
      simp only [Visit, bind_eq_ok] at h
      obtain ⟨⟨v', s1⟩, h1, h3⟩ := h
      simp only [Except.ok.injEq, Prod.mk.injEq] at h3
      rw [← h3.2]
      exact Visit_paired v s v' s1 hc h1
  | .Let symbol body, s, e', s', hc, h => by
      simp only [Visit, bind_eq_ok] at h
      obtain ⟨⟨a', s1⟩, h1, ⟨b', s2⟩, h2, h3⟩ := h
      simp only [Except.ok.injEq, Prod.mk.injEq] at h3
      rw [← h3.2]
      exact VisitOpt_paired body s1 b' s2 (Visit_paired symbol s a' s1 hc h1) h2
  | .Load tensor indices, s, e', s', hc, h => by
      simp only [Visit] at h
      exact VisitLoad_paired s s' tensor indices e' hc h
  | .Store tensor value indices, s, e', s', hc, h => by
      simp only [Visit, bind_eq_ok] at h
      obtain ⟨⟨⟨t', idx'⟩, s1⟩, h1, ⟨v', s2⟩, h2, h3⟩ := h
      simp only [Except.ok.injEq, Prod.mk.injEq] at h3
      rw [← h3.2]
      exact Visit_paired value s1 v' s2
        (VisitStoreTarget_paired s s1 tensor indices (t', idx') hc h1) h2
  | ._Tensor_ _ _ shape _ _, s, e', s', hc, h => by
      simp only [Visit, bind_eq_ok] at h
      obtain ⟨⟨a', s1⟩, h1, h3⟩ := h
      simp only [Except.ok.injEq, Prod.mk.injEq] at h3
      rw [← h3.2]
      exact VisitList_paired shape s a' s1 hc h1
  | .For lv mn ext ft body vi, s, e', s', hc, h => by
      simp only [Visit, bind_eq_ok] at h
      obtain ⟨⟨mn', s1⟩, h1, ⟨ext', s2⟩, h2, ⟨body', s3⟩, h3, h4⟩ := h
      exact ForExit_paired s3 s' lv mn' ext' ft body' e' vi
        (Visit_paired body s2 body' s3
          (Visit_paired ext s1 ext' s2
            (Visit_paired mn _ mn' s1 (ForEnter_paired s lv ft vi hc) h1) h2) h3) h4
  | .IfThenElse condition true_case false_case, s, e', s', hc, h => by
      simp only [Visit, bind_eq_ok] at h
      obtain ⟨⟨a', s1⟩, h1, ⟨b', s2⟩, h2, ⟨c', s3⟩, h3, h4⟩ := h
      simp only [Except.ok.injEq, Prod.mk.injEq] at h4
      rw [← h4.2]
      exact VisitOpt_paired false_case s2 c' s3
        (Visit_paired true_case s1 b' s2
          (Visit_paired condition { s with in_vectorize_ := false } a' s1 hc h1) h2) h3
  | .Block stmts, s, e', s', hc, h => by
      simp only [Visit, bind_eq_ok] at h
      obtain ⟨⟨v', s1⟩, h1, h3⟩ := h
      simp only [Except.ok.injEq, Prod.mk.injEq] at h3
      rw [← h3.2]
      exact VisitList_paired stmts s v' s1 hc h1
  | .GetAddr data, s, e', s', hc, h => by
      simp only [Visit, bind_eq_ok] at h
      obtain ⟨⟨v', s1⟩, h1, h3⟩ := h
      simp only [Except.ok.injEq, Prod.mk.injEq] at h3
      rw [← h3.2]
      exact Visit_paired data s v' s1 hc h1
theorem VisitList_paired : ∀ (es : List Expr) (s : VectorizeForTransMutator)
    (es' : List Expr) (s' : VectorizeForTransMutator), s.StoresNeedCasts →
    VisitList es s = .ok (es', s') → s'.StoresNeedCasts
  | [], s, es', s', hc, h => by
      simp only [VisitList, Except.ok.injEq, Prod.mk.injEq] at h
      rw [← h.2]; exact hc
  | e :: es, s, es', s', hc, h => by
      simp only [VisitList, bind_eq_ok] at h
      obtain ⟨⟨a', s1⟩, h1, ⟨b', s2⟩, h2, h3⟩ := h
      simp only [Except.ok.injEq, Prod.mk.injEq] at h3
      rw [← h3.2]
      exact VisitList_paired es s1 b' s2 (Visit_paired e s a' s1 hc h1) h2
theorem VisitOpt_paired : ∀ (o : Option Expr) (s : VectorizeForTransMutator)
    (o' : Option Expr) (s' : VectorizeForTransMutator), s.StoresNeedCasts →
    VisitOpt o s = .ok (o', s') → s'.StoresNeedCasts
  | none, s, o', s', hc, h => by
      simp only [VisitOpt, Except.ok.injEq, Prod.mk.injEq] at h
      rw [← h.2]; exact hc
  | some e, s, o', s', hc, h => by
      simp only [VisitOpt, bind_eq_ok] at h
      obtain ⟨⟨v', s1⟩, h1, h3⟩ := h
      simp only [Except.ok.injEq, Prod.mk.injEq] at h3
      rw [← h3.2]
      exact Visit_paired e s v' s1 hc h1
end

theorem Reaches_paired {e n : Expr} {s sn : VectorizeForTransMutator} (h : Reaches e s n sn)
    (hc : s.StoresNeedCasts) : sn.StoresNeedCasts := by
  induction h with
  | here e s => exact hc
  | add_a _ ih => exact ih hc
  | add_b h1 _ ih => exact ih (Visit_paired _ _ _ _ hc h1)
  | cast _ ih => exact ih hc
  | let_symbol _ ih => exact ih hc
  | let_body h1 _ ih => exact ih (Visit_paired _ _ _ _ hc h1)
  | store_value h1 _ ih => exact ih (VisitStoreTarget_paired _ _ _ _ _ hc h1)
  | tensor_shape _ _ _ h1 _ ih => exact ih (VisitList_paired _ _ _ _ hc h1)
  | for_min _ ih => exact ih (ForEnter_paired _ _ _ _ hc)
  | for_extent h1 _ ih =>
      exact ih (Visit_paired _ _ _ _ (ForEnter_paired _ _ _ _ hc) h1)
  | for_body h1 h2 _ ih =>
      exact ih (Visit_paired _ _ _ _
        (Visit_paired _ _ _ _ (ForEnter_paired _ _ _ _ hc) h1) h2)
  | if_condition _ ih => exact ih hc
  | if_true h1 _ ih =>
      have hstep := fun hc' => Visit_paired _ _ _ _ hc' h1
      exact ih (hstep hc)
  | if_false h1 h2 _ ih =>
      have hstep := fun hc' => Visit_paired _ _ _ _ hc' h1
      exact ih (Visit_paired _ _ _ _ (hstep hc) h2)
  | block _ _ _ h1 _ ih => exact ih (VisitList_paired _ _ _ _ hc h1)
  | get_addr _ ih => exact ih hc

theorem init_StoresNeedCasts : init.StoresNeedCasts := by
  intro _
  rfl

/-! ## A walk that maps no tensor changes nothing -/

theorem Grows_vars_nil {s s' : VectorizeForTransMutator} (h : Grows s s')
    (hnil : s'.tensor2vectorized_vars_ = []) : s.tensor2vectorized_vars_ = [] := by
  by_contra hne
  exact Grows_vars_ne_nil h hne hnil

mutual
theorem Visit_same_of_vars_nil : ∀ (e : Expr) (s : VectorizeForTransMutator) (e' : Expr)
    (s' : VectorizeForTransMutator), HasBranchOrLoop e = false →
    Visit e s = .ok (e', s') → s'.tensor2vectorized_vars_ = [] → e' = e ∧ s' = s
  | .IntImm _, s, e', s', _, h, _ => by
      simp only [Visit, Except.ok.injEq, Prod.mk.injEq] at h
      exact ⟨h.1.symm, h.2.symm⟩
  | ._Var_ _, s, e', s', _, h, _ => by
      simp only [Visit, Except.ok.injEq, Prod.mk.injEq] at h
      exact ⟨h.1.symm, h.2.symm⟩
  | .Add a b, s, e', s', hb, h, hnil => by
      simp only [HasBranchOrLoop, Bool.or_eq_false_iff] at hb
      simp only [Visit, bind_eq_ok] at h
      obtain ⟨⟨a', s1⟩, h1, ⟨b', s2⟩, h2, h3⟩ := h
      simp only [Except.ok.injEq, Prod.mk.injEq] at h3
      obtain ⟨rfl, rfl⟩ := h3
      have hnil1 := Grows_vars_nil (Visit_grows b s1 b' s2 hb.2 h2) hnil
      obtain ⟨rfl, rfl⟩ := Visit_same_of_vars_nil a s a' s1 hb.1 h1 hnil1
      obtain ⟨rfl, rfl⟩ := Visit_same_of_vars_nil b _ b' s2 hb.2 h2 hnil
      exact ⟨rfl, rfl⟩
  | .Cast _ v, s, e', s', hb, h, hnil => by
      simp only [HasBranchOrLoop] at hb
      simp only [Visit, bind_eq_ok] at h
      obtain ⟨⟨v', s1⟩, h1, h3⟩ := h
      simp only [Except.ok.injEq, Prod.mk.injEq] at h3
      obtain ⟨rfl, rfl⟩ := h3
      obtain ⟨rfl, rfl⟩ := Visit_same_of_vars_nil v s v' s1 hb h1 hnil
      exact ⟨rfl, rfl⟩
  | .Let symbol body, s, e', s', hb, h, hnil => by
      simp only [HasBranchOrLoop, Bool.or_eq_false_iff] at hb
      simp only [Visit, bind_eq_ok] at h
      obtain ⟨⟨a', s1⟩, h1, ⟨b', s2⟩, h2, h3⟩ := h
      simp only [Except.ok.injEq, Prod.mk.injEq] at h3
      obtain ⟨rfl, rfl⟩ := h3
      have hnil1 := Grows_vars_nil (VisitOpt_grows body s1 b' s2 hb.2 h2) hnil
      obtain ⟨rfl, rfl⟩ := Visit_same_of_vars_nil symbol s a' s1 hb.1 h1 hnil1
      obtain ⟨rfl, rfl⟩ := VisitOpt_same_of_vars_nil body _ b' s2 hb.2 h2 hnil
      exact ⟨rfl, rfl⟩
  | .Load tensor indices, s, e', s', _, h, hnil => by
      simp only [Visit] at h
      rcases VisitLoad_inv s s' tensor indices e' h with ⟨h1, h2⟩ | ⟨_, _, r, h1, _⟩
      · exact ⟨h1, h2⟩
      · exact absurd hnil (TensorVectorized_vars_ne_nil s s' tensor indices false r h1)
  | .Store tensor value indices, s, e', s', hb, h, hnil => by
      simp only [HasBranchOrLoop, Bool.or_eq_false_iff] at hb
      simp only [Visit, bind_eq_ok] at h
      obtain ⟨⟨⟨t', idx'⟩, s1⟩, h1, ⟨v', s2⟩, h2, h3⟩ := h
      simp only [Except.ok.injEq, Prod.mk.injEq] at h3
      obtain ⟨rfl, rfl⟩ := h3
      have hnil1 := Grows_vars_nil (Visit_grows value s1 v' s2 hb.1.2 h2) hnil
      rcases (VisitStoreTarget_inv s s1 tensor indices (t', idx') h1).2 with
        ⟨hr, rfl⟩ | ⟨_, h4⟩
      · simp only [Prod.mk.injEq] at hr
        obtain ⟨rfl, rfl⟩ := hr
        obtain ⟨rfl, rfl⟩ := Visit_same_of_vars_nil value _ v' s2 hb.1.2 h2 hnil
        exact ⟨rfl, rfl⟩
      · exact absurd hnil1
          (TensorVectorized_vars_ne_nil s s1 tensor indices true (t', idx') h4)
  | ._Tensor_ _ _ shape _ _, s, e', s', hb, h, hnil => by
      simp only [HasBranchOrLoop, Bool.or_eq_false_iff] at hb
      simp only [Visit, bind_eq_ok] at h
      obtain ⟨⟨a', s1⟩, h1, h3⟩ := h
      simp only [Except.ok.injEq, Prod.mk.injEq] at h3
      obtain ⟨rfl, rfl⟩ := h3
      obtain ⟨rfl, rfl⟩ := VisitList_same_of_vars_nil shape s a' s1 hb.1 h1 hnil
      exact ⟨rfl, rfl⟩
  | .For _ _ _ _ _ _, _, _, _, hb, _, _ => by simp [HasBranchOrLoop] at hb
  | .IfThenElse _ _ _, _, _, _, hb, _, _ => by simp [HasBranchOrLoop] at hb
  | .Block stmts, s, e', s', hb, h, hnil => by
      simp only [HasBranchOrLoop] at hb
      simp only [Visit, bind_eq_ok] at h
      obtain ⟨⟨v', s1⟩, h1, h3⟩ := h
      simp only [Except.ok.injEq, Prod.mk.injEq] at h3
      obtain ⟨rfl, rfl⟩ := h3
      obtain ⟨rfl, rfl⟩ := VisitList_same_of_vars_nil stmts s v' s1 hb h1 hnil
      exact ⟨rfl, rfl⟩
  | .GetAddr data, s, e', s', hb, h, hnil => by
      simp only [HasBranchOrLoop] at hb
      simp only [Visit, bind_eq_ok] at h
      obtain ⟨⟨v', s1⟩, h1, h3⟩ := h
      simp only [Except.ok.injEq, Prod.mk.injEq] at h3
      obtain ⟨rfl, rfl⟩ := h3
      obtain ⟨rfl, rfl⟩ := Visit_same_of_vars_nil data s v' s1 hb h1 hnil
      exact ⟨rfl, rfl⟩
theorem VisitList_same_of_vars_nil : ∀ (es : List Expr) (s : VectorizeForTransMutator)
    (es' : List Expr) (s' : VectorizeForTransMutator), HasBranchOrLoopList es = false →
    VisitList es s = .ok (es', s') → s'.tensor2vectorized_vars_ = [] → es' = es ∧ s' = s
  | [], s, es', s', _, h, _ => by
      simp only [VisitList, Except.ok.injEq, Prod.mk.injEq] at h
      exact ⟨h.1.symm, h.2.symm⟩
  | e :: es, s, es', s', hb, h, hnil => by
      simp only [HasBranchOrLoopList, Bool.or_eq_false_iff] at hb
      simp only [VisitList, bind_eq_ok] at h
      obtain ⟨⟨a', s1⟩, h1, ⟨b', s2⟩, h2, h3⟩ := h
      simp only [Except.ok.injEq, Prod.mk.injEq] at h3
      obtain ⟨rfl, rfl⟩ := h3
      have hnil1 := Grows_vars_nil (VisitList_grows es s1 b' s2 hb.2 h2) hnil
      obtain ⟨rfl, rfl⟩ := Visit_same_of_vars_nil e s a' s1 hb.1 h1 hnil1
      obtain ⟨rfl, rfl⟩ := VisitList_same_of_vars_nil es _ b' s2 hb.2 h2 hnil
      exact ⟨rfl, rfl⟩
theorem VisitOpt_same_of_vars_nil : ∀ (o : Option Expr) (s : VectorizeForTransMutator)
    (o' : Option Expr) (s' : VectorizeForTransMutator), HasBranchOrLoopOpt o = false →
    VisitOpt o s = .ok (o', s') → s'.tensor2vectorized_vars_ = [] → o' = o ∧ s' = s
  | none, s, o', s', _, h, _ => by
      simp only [VisitOpt, Except.ok.injEq, Prod.mk.injEq] at h
      exact ⟨h.1.symm, h.2.symm⟩
  | some e, s, o', s', hb, h, hnil => by
      simp only [HasBranchOrLoopOpt] at hb
      simp only [VisitOpt, bind_eq_ok] at h
      obtain ⟨⟨v', s1⟩, h1, h3⟩ := h
      simp only [Except.ok.injEq, Prod.mk.injEq] at h3
      obtain ⟨rfl, rfl⟩ := h3
      obtain ⟨rfl, rfl⟩ := Visit_same_of_vars_nil e s v' s1 hb h1 hnil
      exact ⟨rfl, rfl⟩
end

/-- C19: let the traversal of a tree, started from the fresh rewriter, arrive at a loop marked
vectorized with factor greater than 1 over `E` iterations, whose body is a block of straight
line statements, and let no cast-setup statement be pending after the walk through the body.
Then that walk changed neither the body nor the rewriter, no store-back statement is pending
either, and the loop is replaced by the block made of the `n` original body statements
followed by the `E` statements that the unroller returns: `n + E` statements. -/
theorem C19_body_kept_without_casts (e : Expr) (s s' : VectorizeForTransMutator) (lv : Var)
    (m E : Int) (ft : ForType) (stmts : List Expr) (body' : Expr) (vi : VectorizeInfo)
    (hr : Reaches e init (For lv (IntImm m) (IntImm E) ft (Block stmts) vi) s)
    (hvec : ft.vectorized = true) (hF : 1 < vi.factor) (hE : 0 ≤ E)
    (hstraight : HasBranchOrLoop (Block stmts) = false)
    (hbody : Visit (Block stmts) (s.ForEnter lv ft vi) = .ok (body', s'))
    (hnone : s'.update_cast_stmts_ = []) :
    body' = Block stmts ∧ s' = s.ForEnter lv ft vi ∧ s'.update_store_stmts_ = [] ∧
    ∃ unroll_body,
      UnrollLoop (For lv (IntImm m) (IntImm E) { ft with unrolled := true } body' vi) =
        Block unroll_body ∧
      (unroll_body.length : Int) = E ∧
      Visit (For lv (IntImm m) (IntImm E) ft (Block stmts) vi) s =
        .ok (Block (stmts ++ unroll_body ++ s'.update_store_stmts_),
          { s' with update_cast_stmts_ := [], update_store_stmts_ := [],
                    tensor2vectorized_vars_ := [], in_vectorize_ := false }) ∧
      ((stmts ++ unroll_body ++ s'.update_store_stmts_).length : Int) = stmts.length + E := by
  have hin0 : (s.ForEnter lv ft vi).in_vectorize_ = true := by
    rw [ForEnter_of_vectorized s lv ft vi hvec]
  have hg := Visit_grows (Block stmts) _ body' s' hstraight hbody
  have hin : s'.in_vectorize_ = true := hg.in_vectorize.trans hin0
  have hcov : s'.CastsCoverVars :=
    hg.covers (ForEnter_CastsCoverVars s lv ft vi (Reaches_covers hr init_CastsCoverVars))
  have hpair : s'.StoresNeedCasts :=
    Visit_paired (Block stmts) _ body' s'
      (ForEnter_paired s lv ft vi (Reaches_paired hr init_StoresNeedCasts)) hbody
  have hvars : s'.tensor2vectorized_vars_ = [] := by
    by_contra hne
    exact hcov hne hnone
  have hstores : s'.update_store_stmts_ = [] := hpair hnone
  obtain ⟨hb', hs'⟩ := Visit_same_of_vars_nil (Block stmts) _ body' s' hstraight hbody hvars
  subst hb'
  refine ⟨rfl, hs', hstores, (List.range E.toNat).map
    (fun (k : Nat) => IrReplaceVarBroadcast (Block stmts) lv (IntImm (m + (k : Int)))),
    by simp [UnrollLoop], ?_, ?_, ?_⟩
  · simp only [List.length_map, List.length_range]
    omega
  · have hu : UnrollLoop (For lv (IntImm m) (IntImm E) { ft with unrolled := true }
        (Block stmts) vi) = Block ((List.range E.toNat).map
          (fun (k : Nat) => IrReplaceVarBroadcast (Block stmts) lv (IntImm (m + (k : Int))))) := by
      simp [UnrollLoop]
    rw [Visit_For, Visit_IntImm, ok_bind, Visit_IntImm, ok_bind, hbody, ok_bind,
      ForExit_vectorize s' lv (IntImm m) (IntImm E) ft stmts _ vi hin hF hu]
    simp [hnone]
  · simp only [hstores, List.append_nil, List.length_append, List.length_map,
      List.length_range, Nat.cast_add]
    omega

/-- The loop over `i` in `[0,4)` with factor 4 whose body `C[j] = 1` does not depend on `i`:
the block that replaces it has the body statement and four unrolled copies. -/
theorem C19_body_kept_without_casts_witness :
    ∃ unroll_body,
      (unroll_body.length : Int) = 4 ∧
      Visit (Examples.VectorizedLoop 4
          (Block [Store (Examples.Tensor4 "C") (IntImm 1) [_Var_ Examples.j]])) init =
        .ok (Block ([Store (Examples.Tensor4 "C") (IntImm 1) [_Var_ Examples.j]] ++
            unroll_body ++ []),
          { Examples.InLoop with in_vectorize_ := false }) := by
  obtain ⟨_, _, _, ub, _, h2, h3, _⟩ := C19_body_kept_without_casts
    (Examples.VectorizedLoop 4
      (Block [Store (Examples.Tensor4 "C") (IntImm 1) [_Var_ Examples.j]]))
    init Examples.InLoop Examples.i 0 4 { vectorized := true, unrolled := false }
    [Store (Examples.Tensor4 "C") (IntImm 1) [_Var_ Examples.j]]
    (Block [Store (Examples.Tensor4 "C") (IntImm 1) [_Var_ Examples.j]])
    { level := 0, factor := 4 } (Reaches.here _ _) rfl (by decide) (by decide) rfl rfl rfl
  exact ⟨ub, h2, h3⟩

/-! ## Running the pass on its own output -/

theorem VisitedStoresTargetTensorsList_append (xs ys : List Expr) :
    VisitedStoresTargetTensorsList (xs ++ ys) =
      (VisitedStoresTargetTensorsList xs && VisitedStoresTargetTensorsList ys) := by
  induction xs with
  | nil => simp [VisitedStoresTargetTensorsList]
  | cons x xs ih => simp [VisitedStoresTargetTensorsList, ih, Bool.and_assoc]

theorem as_tensor_IrReplaceVarBroadcast (t : Expr) (var : Var) (to_ : Expr)
    (h : t.as_tensor = true) : (IrReplaceVarBroadcast t var to_).as_tensor = true := by
  cases t <;> simp [as_tensor] at h ⊢
  simp [IrReplaceVarBroadcast]

mutual
theorem IrReplaceVarBroadcast_stores : ∀ (e : Expr) (var : Var) (to_ : Expr),
    VisitedStoresTargetTensors e = true → VisitedStoresTargetTensors to_ = true →
    VisitedStoresTargetTensors (IrReplaceVarBroadcast e var to_) = true
  | .IntImm _, _, _, _, _ => by simp [IrReplaceVarBroadcast, VisitedStoresTargetTensors]
  | ._Var_ v, var, to_, _, ht => by
      simp only [IrReplaceVarBroadcast]
      split
      · exact ht
      · simp [VisitedStoresTargetTensors]
  | .Add a b, var, to_, h, ht => by
      simp only [VisitedStoresTargetTensors, Bool.and_eq_true] at h
      simp [IrReplaceVarBroadcast, VisitedStoresTargetTensors,
        IrReplaceVarBroadcast_stores a var to_ h.1 ht,
        IrReplaceVarBroadcast_stores b var to_ h.2 ht]
  | .Cast _ v, var, to_, h, ht => by
      simp only [VisitedStoresTargetTensors] at h
      simp [IrReplaceVarBroadcast, VisitedStoresTargetTensors,
        IrReplaceVarBroadcast_stores v var to_ h ht]
  | .Let symbol body, var, to_, h, ht => by
      simp only [VisitedStoresTargetTensors, Bool.and_eq_true] at h
      simp [IrReplaceVarBroadcast, VisitedStoresTargetTensors,
        IrReplaceVarBroadcast_stores symbol var to_ h.1 ht,
        IrReplaceVarBroadcastOpt_stores body var to_ h.2 ht]
  | .Load _ _, _, _, _, _ => by simp [IrReplaceVarBroadcast, VisitedStoresTargetTensors]
  | .Store tensor value indices, var, to_, h, ht => by
      simp only [VisitedStoresTargetTensors, Bool.and_eq_true] at h
      simp [IrReplaceVarBroadcast, VisitedStoresTargetTensors,
        as_tensor_IrReplaceVarBroadcast tensor var to_ h.1,
        IrReplaceVarBroadcast_stores value var to_ h.2 ht]
  | ._Tensor_ _ _ shape _ _, var, to_, h, ht => by
      simp only [VisitedStoresTargetTensors] at h
      simp [IrReplaceVarBroadcast, VisitedStoresTargetTensors,
        IrReplaceVarBroadcastList_stores shape var to_ h ht]
  | .For _ min extent _ body _, var, to_, h, ht => by
      simp only [VisitedStoresTargetTensors, Bool.and_eq_true] at h
      simp [IrReplaceVarBroadcast, VisitedStoresTargetTensors,
        IrReplaceVarBroadcast_stores min var to_ h.1.1 ht,
        IrReplaceVarBroadcast_stores extent var to_ h.1.2 ht,
        IrReplaceVarBroadcast_stores body var to_ h.2 ht]
  | .IfThenElse condition true_case false_case, var, to_, h, ht => by
      simp only [VisitedStoresTargetTensors, Bool.and_eq_true] at h
      simp [IrReplaceVarBroadcast, VisitedStoresTargetTensors,
        IrReplaceVarBroadcast_stores condition var to_ h.1.1 ht,
        IrReplaceVarBroadcast_stores true_case var to_ h.1.2 ht,
        IrReplaceVarBroadcastOpt_stores false_case var to_ h.2 ht]
  | .Block stmts, var, to_, h, ht => by
      simp only [VisitedStoresTargetTensors] at h
      simp [IrReplaceVarBroadcast, VisitedStoresTargetTensors,
        IrReplaceVarBroadcastList_stores stmts var to_ h ht]
  | .GetAddr data, var, to_, h, ht => by
      simp only [VisitedStoresTargetTensors] at h
      simp [IrReplaceVarBroadcast, VisitedStoresTargetTensors,
        IrReplaceVarBroadcast_stores data var to_ h ht]
theorem IrReplaceVarBroadcastList_stores : ∀ (es : List Expr) (var : Var) (to_ : Expr),
    VisitedStoresTargetTensorsList es = true → VisitedStoresTargetTensors to_ = true →
    VisitedStoresTargetTensorsList (IrReplaceVarBroadcastList es var to_) = true
  | [], _, _, _, _ => by simp [IrReplaceVarBroadcastList, VisitedStoresTargetTensorsList]
  | e :: es, var, to_, h, ht => by
      simp only [VisitedStoresTargetTensorsList, Bool.and_eq_true] at h
      simp [IrReplaceVarBroadcastList, VisitedStoresTargetTensorsList,
        IrReplaceVarBroadcast_stores e var to_ h.1 ht,
        IrReplaceVarBroadcastList_stores es var to_ h.2 ht]
theorem IrReplaceVarBroadcastOpt_stores : ∀ (o : Option Expr) (var : Var) (to_ : Expr),
    VisitedStoresTargetTensorsOpt o = true → VisitedStoresTargetTensors to_ = true →
    VisitedStoresTargetTensorsOpt (IrReplaceVarBroadcastOpt o var to_) = true
  | none, _, _, _, _ => by simp [IrReplaceVarBroadcastOpt, VisitedStoresTargetTensorsOpt]
  | some e, var, to_, h, ht => by
      simp only [VisitedStoresTargetTensorsOpt] at h
      simp [IrReplaceVarBroadcastOpt, VisitedStoresTargetTensorsOpt,
        IrReplaceVarBroadcast_stores e var to_ h ht]
end

theorem VisitedStoresTargetTensorsList_map (f : Nat → Expr)
    (h : ∀ i, VisitedStoresTargetTensors (f i) = true) (l : List Nat) :
    VisitedStoresTargetTensorsList (l.map f) = true := by
  induction l with
  | nil => simp [VisitedStoresTargetTensorsList]
  | cons x xs ih => simp [VisitedStoresTargetTensorsList, h x, ih]

theorem UnrollLoop_stores (lv : Var) (mn ext : Expr) (ft : ForType) (body : Expr)
    (vi : VectorizeInfo) (unroll_body : List Expr)
    (h : UnrollLoop (For lv mn ext ft body vi) = Block unroll_body)
    (hb : VisitedStoresTargetTensors body = true) :
    VisitedStoresTargetTensorsList unroll_body = true := by
  obtain ⟨m, n, _, _, _, rfl⟩ := UnrollLoop_inv lv mn ext ft body vi unroll_body h
  exact VisitedStoresTargetTensorsList_map _
    (fun i => IrReplaceVarBroadcast_stores body lv _ hb
      (by simp [VisitedStoresTargetTensors])) _

theorem TensorVectorized_stores (s s' : VectorizeForTransMutator) (t : Expr)
    (idx : List Expr) (is_store : Bool) (r : Expr × List Expr) (hs : s.PendingStoresOk)
    (h : s.TensorVectorized t idx is_store = .ok (r, s')) :
    s'.PendingStoresOk ∧ r.1.as_tensor = true := by
  cases t with
  | _Tensor_ name ty sh dom op =>
      obtain ⟨lv, _, h1 | h2⟩ := TensorVectorized_inv s s' name ty sh dom op idx is_store r h
      · obtain ⟨v, _, rfl, rfl⟩ := h1
        exact ⟨hs, rfl⟩
      · obtain ⟨tn, _, _, rfl, rfl⟩ := h2
        refine ⟨⟨?_, ?_⟩, rfl⟩
        · simp only [VisitedStoresTargetTensorsList_append, hs.1, Bool.true_and]
          cases is_store <;>
            simp [CastSetup, CastExpr, VisitedStoresTargetTensorsList,
              VisitedStoresTargetTensors, VisitedStoresTargetTensorsOpt,
              IrReplaceVarBroadcast]
        · simp only [VisitedStoresTargetTensorsList_append, hs.2, Bool.true_and]
          cases is_store <;>
            simp [StoreBack, VisitedStoresTargetTensorsList, VisitedStoresTargetTensors,
              as_tensor]
  | _ => simp [TensorVectorized] at h

theorem ForExit_stores (s s' : VectorizeForTransMutator) (lv : Var) (mn ext : Expr)
    (ft : ForType) (body e' : Expr) (vi : VectorizeInfo) (hs : s.PendingStoresOk)
    (hmn : VisitedStoresTargetTensors mn = true)
    (hext : VisitedStoresTargetTensors ext = true)
    (hbody : VisitedStoresTargetTensors body = true)
    (h : s.ForExit lv mn ext ft body vi = .ok (e', s')) :
    VisitedStoresTargetTensors e' = true ∧ s'.PendingStoresOk := by
  by_cases hin : s.in_vectorize_ = true
  · obtain ⟨_, stmts, ub, rfl, hu, rfl, rfl⟩ := ForExit_inv s s' lv mn ext ft body e' vi hin h
    have hub := UnrollLoop_stores lv mn ext _ (Block stmts) vi ub hu hbody
    simp only [VisitedStoresTargetTensors] at hbody
    refine ⟨?_, ⟨rfl, rfl⟩⟩
    simp only [VisitedStoresTargetTensors, VisitedStoresTargetTensorsList_append, hub, hs.2,
      Bool.and_true]
    split
    · exact hbody
    · exact hs.1
  · simp only [Bool.not_eq_true] at hin
    rw [ForExit_scalar s lv mn ext ft body vi hin] at h
    simp only [Except.ok.injEq, Prod.mk.injEq] at h
    rw [← h.1, ← h.2]
    exact ⟨by simp [VisitedStoresTargetTensors, hmn, hext, hbody], hs⟩

theorem ForEnter_stores (s : VectorizeForTransMutator) (lv : Var) (ft : ForType)
    (vi : VectorizeInfo) (h : s.PendingStoresOk) : (s.ForEnter lv ft vi).PendingStoresOk := by
  unfold ForEnter
  split
  · exact h
  · exact h

mutual
theorem Visit_stores : ∀ (e : Expr) (s : VectorizeForTransMutator) (e' : Expr)
    (s' : VectorizeForTransMutator), s.PendingStoresOk → Visit e s = .ok (e', s') →
    VisitedStoresTargetTensors e' = true ∧ s'.PendingStoresOk
  | .IntImm _, s, e', s', hs, h => by
      simp only [Visit, Except.ok.injEq, Prod.mk.injEq] at h
      rw [← h.1, ← h.2]; exact ⟨by simp [VisitedStoresTargetTensors], hs⟩
  | ._Var_ _, s, e', s', hs, h => by
      simp only [Visit, Except.ok.injEq, Prod.mk.injEq] at h
      rw [← h.1, ← h.2]; exact ⟨by simp [VisitedStoresTargetTensors], hs⟩
  | .Add a b, s, e', s', hs, h => by
      simp only [Visit, bind_eq_ok] at h
      obtain ⟨⟨a', s1⟩, h1, ⟨b', s2⟩, h2, h3⟩ := h
      simp only [Except.ok.injEq, Prod.mk.injEq] at h3
      obtain ⟨ha, hs1⟩ := Visit_stores a s a' s1 hs h1
      obtain ⟨hb, hs2⟩ := Visit_stores b s1 b' s2 hs1 h2
      rw [← h3.1, ← h3.2]; exact ⟨by simp [VisitedStoresTargetTensors, ha, hb], hs2⟩
  | .Cast _ v, s, e', s', hs, h => by
      simp only [Visit, bind_eq_ok] at h
      obtain ⟨⟨v', s1⟩, h1, h3⟩ := h
      simp only [Except.ok.injEq, Prod.mk.injEq] at h3
      obtain ⟨ha, hs1⟩ := Visit_stores v s v' s1 hs h1
      rw [← h3.1, ← h3.2]; exact ⟨by simp [VisitedStoresTargetTensors, ha], hs1⟩
  | .Let symbol body, s, e', s', hs, h => by
      simp only [Visit, bind_eq_ok] at h
      obtain ⟨⟨a', s1⟩, h1, ⟨b', s2⟩, h2, h3⟩ := h
      simp only [Except.ok.injEq, Prod.mk.injEq] at h3
      obtain ⟨ha, hs1⟩ := Visit_stores symbol s a' s1 hs h1
      obtain ⟨hb, hs2⟩ := VisitOpt_stores body s1 b' s2 hs1 h2
      rw [← h3.1, ← h3.2]; exact ⟨by simp [VisitedStoresTargetTensors, ha, hb], hs2⟩
  | .Load tensor indices, s, e', s', hs, h => by
      simp only [Visit] at h
      rcases VisitLoad_inv s s' tensor indices e' h with ⟨rfl, rfl⟩ | ⟨_, _, r, h1, rfl⟩
      · exact ⟨by simp [VisitedStoresTargetTensors], hs⟩
      · exact ⟨by simp [VisitedStoresTargetTensors],
          (TensorVectorized_stores s s' tensor indices false r hs h1).1⟩
  | .Store tensor value indices, s, e', s', hs, h => by
      simp only [Visit, bind_eq_ok] at h
      obtain ⟨⟨⟨t', idx'⟩, s1⟩, h1, ⟨v', s2⟩, h2, h3⟩ := h
      simp only [Except.ok.injEq, Prod.mk.injEq] at h3
      have hT : s1.PendingStoresOk ∧ t'.as_tensor = true := by
        obtain ⟨hten, hcase⟩ := VisitStoreTarget_inv s s1 tensor indices (t', idx') h1
        rcases hcase with ⟨hr, rfl⟩ | ⟨_, h4⟩
        · simp only [Prod.mk.injEq] at hr
          rw [hr.1]; exact ⟨hs, hten⟩
        · exact TensorVectorized_stores s s1 tensor indices true (t', idx') hs h4
      obtain ⟨hv, hs2⟩ := Visit_stores value s1 v' s2 hT.1 h2
      rw [← h3.1, ← h3.2]; exact ⟨by simp [VisitedStoresTargetTensors, hT.2, hv], hs2⟩
  | ._Tensor_ _ _ shape _ _, s, e', s', hs, h => by
      simp only [Visit, bind_eq_ok] at h
      obtain ⟨⟨a', s1⟩, h1, h3⟩ := h
      simp only [Except.ok.injEq, Prod.mk.injEq] at h3
      obtain ⟨ha, hs1⟩ := VisitList_stores shape s a' s1 hs h1
      rw [← h3.1, ← h3.2]; exact ⟨by simp [VisitedStoresTargetTensors, ha], hs1⟩
  | .For lv mn ext ft body vi, s, e', s', hs, h => by
      simp only [Visit, bind_eq_ok] at h
      obtain ⟨⟨mn', s1⟩, h1, ⟨ext', s2⟩, h2, ⟨body', s3⟩, h3, h4⟩ := h
      obtain ⟨ha, hs1⟩ := Visit_stores mn _ mn' s1 (ForEnter_stores s lv ft vi hs) h1
      obtain ⟨hb, hs2⟩ := Visit_stores ext s1 ext' s2 hs1 h2
      obtain ⟨hc, hs3⟩ := Visit_stores body s2 body' s3 hs2 h3
      exact ForExit_stores s3 s' lv mn' ext' ft body' e' vi hs3 ha hb hc h4
  | .IfThenElse condition true_case false_case, s, e', s', hs, h => by
      simp only [Visit, bind_eq_ok] at h
      obtain ⟨⟨a', s1⟩, h1, ⟨b', s2⟩, h2, ⟨c', s3⟩, h3, h4⟩ := h
      simp only [Except.ok.injEq, Prod.mk.injEq] at h4
      obtain ⟨ha, hs1⟩ := Visit_stores condition { s with in_vectorize_ := false } a' s1 hs h1
      obtain ⟨hb, hs2⟩ := Visit_stores true_case s1 b' s2 hs1 h2
      obtain ⟨hc, hs3⟩ := VisitOpt_stores false_case s2 c' s3 hs2 h3
      rw [← h4.1, ← h4.2]; exact ⟨by simp [VisitedStoresTargetTensors, ha, hb, hc], hs3⟩
  | .Block stmts, s, e', s', hs, h => by
      simp only [Visit, bind_eq_ok] at h
      obtain ⟨⟨v', s1⟩, h1, h3⟩ := h
      simp only [Except.ok.injEq, Prod.mk.injEq] at h3
      obtain ⟨ha, hs1⟩ := VisitList_stores stmts s v' s1 hs h1
      rw [← h3.1, ← h3.2]; exact ⟨by simp [VisitedStoresTargetTensors, ha], hs1⟩
  | .GetAddr data, s, e', s', hs, h => by
      simp only [Visit, bind_eq_ok] at h
      obtain ⟨⟨v', s1⟩, h1, h3⟩ := h
      simp only [Except.ok.injEq, Prod.mk.injEq] at h3
      obtain ⟨ha, hs1⟩ := Visit_stores data s v' s1 hs h1
      rw [← h3.1, ← h3.2]; exact ⟨by simp [VisitedStoresTargetTensors, ha], hs1⟩
theorem VisitList_stores : ∀ (es : List Expr) (s : VectorizeForTransMutator)
    (es' : List Expr) (s' : VectorizeForTransMutator), s.PendingStoresOk →
    VisitList es s = .ok (es', s') →
    VisitedStoresTargetTensorsList es' = true ∧ s'.PendingStoresOk
  | [], s, es', s', hs, h => by
      simp only [VisitList, Except.ok.injEq, Prod.mk.injEq] at h
      rw [← h.1, ← h.2]; exact ⟨by simp [VisitedStoresTargetTensorsList], hs⟩
  | e :: es, s, es', s', hs, h => by
      simp only [VisitList, bind_eq_ok] at h
      obtain ⟨⟨a', s1⟩, h1, ⟨b', s2⟩, h2, h3⟩ := h
      simp only [Except.ok.injEq, Prod.mk.injEq] at h3
      obtain ⟨ha, hs1⟩ := Visit_stores e s a' s1 hs h1
      obtain ⟨hb, hs2⟩ := VisitList_stores es s1 b' s2 hs1 h2
      rw [← h3.1, ← h3.2]; exact ⟨by simp [VisitedStoresTargetTensorsList, ha, hb], hs2⟩
theorem VisitOpt_stores : ∀ (o : Option Expr) (s : VectorizeForTransMutator)
    (o' : Option Expr) (s' : VectorizeForTransMutator), s.PendingStoresOk →
    VisitOpt o s = .ok (o', s') →
    VisitedStoresTargetTensorsOpt o' = true ∧ s'.PendingStoresOk
  | none, s, o', s', hs, h => by
      simp only [VisitOpt, Except.ok.injEq, Prod.mk.injEq] at h
      rw [← h.1, ← h.2]; exact ⟨by simp [VisitedStoresTargetTensorsOpt], hs⟩
  | some e, s, o', s', hs, h => by
      simp only [VisitOpt, bind_eq_ok] at h
      obtain ⟨⟨v', s1⟩, h1, h3⟩ := h
      simp only [Except.ok.injEq, Prod.mk.injEq] at h3
      obtain ⟨ha, hs1⟩ := Visit_stores e s v' s1 hs h1
      rw [← h3.1, ← h3.2]; exact ⟨by simp [VisitedStoresTargetTensorsOpt, ha], hs1⟩
end

mutual
theorem Visit_scalar_noop : ∀ (e : Expr) (s : VectorizeForTransMutator),
    HasVectorizedFor e = false → VisitedStoresTargetTensors e = true →
    s.in_vectorize_ = false → ∃ s', Visit e s = .ok (e, s') ∧ s'.in_vectorize_ = false
  | .IntImm _, s, _, _, hs => ⟨s, by simp [Visit], hs⟩
  | ._Var_ _, s, _, _, hs => ⟨s, by simp [Visit], hs⟩
  | .Add a b, s, hv, ht, hs => by
      simp only [HasVectorizedFor, Bool.or_eq_false_iff] at hv
      simp only [VisitedStoresTargetTensors, Bool.and_eq_true] at ht
      obtain ⟨s1, h1, hs1⟩ := Visit_scalar_noop a s hv.1 ht.1 hs
      obtain ⟨s2, h2, hs2⟩ := Visit_scalar_noop b s1 hv.2 ht.2 hs1
      exact ⟨s2, by simp [Visit, h1, h2, ok_bind], hs2⟩
  | .Cast _ v, s, hv, ht, hs => by
      simp only [HasVectorizedFor] at hv
      simp only [VisitedStoresTargetTensors] at ht
      obtain ⟨s1, h1, hs1⟩ := Visit_scalar_noop v s hv ht hs
      exact ⟨s1, by simp [Visit, h1, ok_bind], hs1⟩
  | .Let symbol body, s, hv, ht, hs => by
      simp only [HasVectorizedFor, Bool.or_eq_false_iff] at hv
      simp only [VisitedStoresTargetTensors, Bool.and_eq_true] at ht
      obtain ⟨s1, h1, hs1⟩ := Visit_scalar_noop symbol s hv.1 ht.1 hs
      obtain ⟨s2, h2, hs2⟩ := VisitOpt_scalar_noop body s1 hv.2 ht.2 hs1
      exact ⟨s2, by simp [Visit, h1, h2, ok_bind], hs2⟩
  | .Load tensor indices, s, _, _, hs => ⟨s, by simp [Visit, VisitLoad, hs], hs⟩
  | .Store tensor value indices, s, hv, ht, hs => by
      simp only [HasVectorizedFor, Bool.or_eq_false_iff] at hv
      simp only [VisitedStoresTargetTensors, Bool.and_eq_true] at ht
      obtain ⟨s1, h1, hs1⟩ := Visit_scalar_noop value s hv.1.2 ht.2 hs
      exact ⟨s1, by simp [Visit, VisitStoreTarget, ht.1, hs, h1, ok_bind], hs1⟩
  | ._Tensor_ _ _ shape domain _, s, hv, ht, hs => by
      simp only [HasVectorizedFor, Bool.or_eq_false_iff] at hv
      simp only [VisitedStoresTargetTensors] at ht
      obtain ⟨s1, h1, hs1⟩ := VisitList_scalar_noop shape s hv.1 ht hs
      exact ⟨s1, by simp [Visit, h1, ok_bind], hs1⟩
  | .For loop_var min extent for_type body vectorize_info, s, hv, ht, hs => by
      simp only [HasVectorizedFor, Bool.or_eq_false_iff] at hv
      simp only [VisitedStoresTargetTensors, Bool.and_eq_true] at ht
      obtain ⟨s1, h1, hs1⟩ := Visit_scalar_noop min s hv.1.1.2 ht.1.1 hs
      obtain ⟨s2, h2, hs2⟩ := Visit_scalar_noop extent s1 hv.1.2 ht.1.2 hs1
      obtain ⟨s3, h3, hs3⟩ := Visit_scalar_noop body s2 hv.2 ht.2 hs2
      exact ⟨{ s3 with tensor2vectorized_vars_ := [], in_vectorize_ := false },
        by simp [Visit, ForEnter, ForExit, hv.1.1.1, h1, h2, h3, hs3, ok_bind], rfl⟩
  | .IfThenElse condition true_case false_case, s, hv, ht, hs => by
      simp only [HasVectorizedFor, Bool.or_eq_false_iff] at hv
      simp only [VisitedStoresTargetTensors, Bool.and_eq_true] at ht
      have hs0 : ({ s with in_vectorize_ := false } : VectorizeForTransMutator) = s := by
        cases s; simp only [mk.injEq, true_and] at hs ⊢; simp [hs]
      obtain ⟨s1, h1, hs1⟩ := Visit_scalar_noop condition s hv.1.1 ht.1.1 hs
      obtain ⟨s2, h2, hs2⟩ := Visit_scalar_noop true_case s1 hv.1.2 ht.1.2 hs1
      obtain ⟨s3, h3, hs3⟩ := VisitOpt_scalar_noop false_case s2 hv.2 ht.2 hs2
      exact ⟨s3, by simp [Visit, hs0, h1, h2, h3, ok_bind], hs3⟩
  | .Block stmts, s, hv, ht, hs => by
      simp only [HasVectorizedFor] at hv
      simp only [VisitedStoresTargetTensors] at ht
      obtain ⟨s1, h1, hs1⟩ := VisitList_scalar_noop stmts s hv ht hs
      exact ⟨s1, by simp [Visit, h1, ok_bind], hs1⟩
  | .GetAddr data, s, hv, ht, hs => by
      simp only [HasVectorizedFor] at hv
      simp only [VisitedStoresTargetTensors] at ht
      obtain ⟨s1, h1, hs1⟩ := Visit_scalar_noop data s hv ht hs
      exact ⟨s1, by simp [Visit, h1, ok_bind], hs1⟩
theorem VisitList_scalar_noop : ∀ (es : List Expr) (s : VectorizeForTransMutator),
    HasVectorizedForList es = false → VisitedStoresTargetTensorsList es = true →
    s.in_vectorize_ = false →
    ∃ s', VisitList es s = .ok (es, s') ∧ s'.in_vectorize_ = false
  | [], s, _, _, hs => ⟨s, by simp [VisitList], hs⟩
  | e :: es, s, hv, ht, hs => by
      simp only [HasVectorizedForList, Bool.or_eq_false_iff] at hv
      simp only [VisitedStoresTargetTensorsList, Bool.and_eq_true] at ht
      obtain ⟨s1, h1, hs1⟩ := Visit_scalar_noop e s hv.1 ht.1 hs
      obtain ⟨s2, h2, hs2⟩ := VisitList_scalar_noop es s1 hv.2 ht.2 hs1
      exact ⟨s2, by simp [VisitList, h1, h2, ok_bind], hs2⟩
theorem VisitOpt_scalar_noop : ∀ (o : Option Expr) (s : VectorizeForTransMutator),
    HasVectorizedForOpt o = false → VisitedStoresTargetTensorsOpt o = true →
    s.in_vectorize_ = false →
    ∃ s', VisitOpt o s = .ok (o, s') ∧ s'.in_vectorize_ = false
  | none, s, _, _, hs => ⟨s, by simp [VisitOpt], hs⟩
  | some e, s, hv, ht, hs => by
      simp only [HasVectorizedForOpt] at hv
      simp only [VisitedStoresTargetTensorsOpt] at ht
      obtain ⟨s1, h1, hs1⟩ := Visit_scalar_noop e s hv ht hs
      exact ⟨s1, by simp [VisitOpt, h1, ok_bind], hs1⟩
end

theorem digitChar_isDigit (k : Nat) (h : k < 10) : (Nat.digitChar k).isDigit = true := by
  interval_cases k <;> decide

theorem toDigitsCore_digits : ∀ (fuel n : Nat) (ds : List Char), n < fuel →
    ∃ pre, Nat.toDigitsCore 10 fuel n ds = pre ++ ds ∧ pre ≠ [] ∧
      (∀ c ∈ pre, c.isDigit = true) ∧
      pre.foldl (fun a c => 10 * a + (c.toNat - 48)) 0 = n := by
  intro fuel
  induction fuel with
  | zero => intro n ds h; omega
  | succ fuel ih =>
      intro n ds h
      simp only [Nat.toDigitsCore]
      split
      · rename_i h0
        refine ⟨[Nat.digitChar (n % 10)], rfl, by simp, ?_, ?_⟩
        · intro c hc
          simp only [List.mem_singleton] at hc
          rw [hc]; exact digitChar_isDigit _ (Nat.mod_lt _ (by decide))
        · have hn : n < 10 := by omega
          simp only [List.foldl]
          interval_cases n <;> decide
      · rename_i h0
        obtain ⟨pre, h1, _, h3, h4⟩ := ih (n / 10) (Nat.digitChar (n % 10) :: ds) (by omega)
        refine ⟨pre ++ [Nat.digitChar (n % 10)], by simp [h1], by simp, ?_, ?_⟩
        · intro c hc
          simp only [List.mem_append, List.mem_singleton] at hc
          rcases hc with hc | hc
          · exact h3 c hc
          · rw [hc]; exact digitChar_isDigit _ (Nat.mod_lt _ (by decide))
        · rw [List.foldl_append, h4]
          simp only [List.foldl]
          have hk : (Nat.digitChar (n % 10)).toNat - 48 = n % 10 := by
            have hlt : n % 10 < 10 := Nat.mod_lt _ (by decide)
            generalize n % 10 = k at hlt
            interval_cases k <;> decide
          rw [hk]; omega

theorem toString_data_digits (n : Nat) :
    (toString n).data ≠ [] ∧ (∀ c ∈ (toString n).data, c.isDigit = true) ∧
      (toString n).data.foldl (fun a c => 10 * a + (c.toNat - 48)) 0 = n := by
  obtain ⟨pre, h1, h2, h3, h4⟩ := toDigitsCore_digits (n + 1) n [] (Nat.lt_succ_self n)
  have hd : (toString n).data = pre := by
    show (Nat.toDigits 10 n) = pre
    simpa [Nat.toDigits] using h1
  rw [hd]
  exact ⟨h2, h3, h4⟩

theorem toString_nat_injective (m n : Nat) (h : toString m = toString n) : m = n := by
  have hm := (toString_data_digits m).2.2
  have hn := (toString_data_digits n).2.2
  rw [h] at hm
  exact hm.symm.trans hn

theorem append_separator_inj (u : Char) : ∀ (l1 l2 d1 d2 : List Char), u ∉ d1 → u ∉ d2 →
    l1 ++ u :: d1 = l2 ++ u :: d2 → l1 = l2 ∧ d1 = d2
  | [], [], d1, d2, _, _, h => by simpa using h
  | [], x :: l2, d1, d2, h1, _, h => by
      simp only [List.nil_append, List.cons_append, List.cons.injEq] at h
      exact absurd (by rw [h.2]; simp) h1
  | x :: l1, [], d1, d2, _, h2, h => by
      simp only [List.nil_append, List.cons_append, List.cons.injEq] at h
      exact absurd (by rw [← h.2]; simp) h2
  | x :: l1, y :: l2, d1, d2, h1, h2, h => by
      simp only [List.cons_append, List.cons.injEq] at h
      obtain ⟨rfl, hd⟩ := append_separator_inj u l1 l2 d1 d2 h1 h2 h.2
      exact ⟨by rw [h.1], hd⟩

theorem underscore_not_mem_digits (n : Nat) : '_' ∉ (toString n).data := by
  intro h
  have := (toString_data_digits n).2.1 _ h
  revert this
  decide

/-- The name `vectorized_<tensor>_<counter>` determines the counter and the tensor name. -/
theorem vectorized_name_inj (t1 t2 : String) (c1 c2 : Nat)
    (h : "vectorized_" ++ t1 ++ "_" ++ toString c1 = "vectorized_" ++ t2 ++ "_" ++ toString c2) :
    t1 = t2 ∧ c1 = c2 := by
  have hd := congrArg String.data h
  simp only [String.data_append] at hd
  rw [List.append_assoc, List.append_assoc, List.append_assoc, List.append_assoc,
    List.append_cancel_left_eq] at hd
  obtain ⟨ht, hc⟩ := append_separator_inj '_' t1.data t2.data _ _
    (underscore_not_mem_digits c1) (underscore_not_mem_digits c2) hd
  exact ⟨String.ext ht, toString_nat_injective c1 c2 (String.ext hc)⟩

/-- A name that ends in `_ptr` is not of the form `vectorized_<tensor>_<counter>`. -/
theorem ptr_name_ne_vectorized_name (x t2 : String) (c2 : Nat) :
    x ++ "_ptr" ≠ "vectorized_" ++ t2 ++ "_" ++ toString c2 := by
  intro h
  have hd := congrArg String.data h
  simp only [String.data_append] at hd
  rw [List.append_assoc] at hd
  obtain ⟨_, hc⟩ := append_separator_inj '_' x.data _ ['p', 't', 'r'] _
    (by decide) (underscore_not_mem_digits c2) hd
  have := (toString_data_digits c2).2.1 'p' (by rw [← hc]; simp)
  revert this
  decide

theorem TensorVectorized_counter (s s' : VectorizeForTransMutator) (t : Expr)
    (idx : List Expr) (is_store : Bool) (r : Expr × List Expr)
    (h : s.TensorVectorized t idx is_store = .ok (r, s')) :
    s.var_index_ ≤ s'.var_index_ := by
  cases t with
  | _Tensor_ name ty sh dom op =>
      obtain ⟨lv, _, h1 | h2⟩ := TensorVectorized_inv s s' name ty sh dom op idx is_store r h
      · obtain ⟨v, _, _, rfl⟩ := h1
        exact Nat.le_refl _
      · obtain ⟨tn, _, _, _, rfl⟩ := h2
        exact Nat.le_succ _
  | _ => simp [TensorVectorized] at h

theorem VisitLoad_counter (s s' : VectorizeForTransMutator) (tensor : Expr)
    (indices : List Expr) (e' : Expr) (h : s.VisitLoad tensor indices = .ok (e', s')) :
    s.var_index_ ≤ s'.var_index_ := by
  rcases VisitLoad_inv s s' tensor indices e' h with ⟨_, rfl⟩ | ⟨_, _, r, h1, _⟩
  · exact Nat.le_refl _
  · exact TensorVectorized_counter s s' tensor indices false r h1

theorem VisitStoreTarget_counter (s s' : VectorizeForTransMutator) (tensor : Expr)
    (indices : List Expr) (r : Expr × List Expr)
    (h : s.VisitStoreTarget tensor indices = .ok (r, s')) :
    s.var_index_ ≤ s'.var_index_ := by
  obtain ⟨_, hcase⟩ := VisitStoreTarget_inv s s' tensor indices r h
  rcases hcase with ⟨_, rfl⟩ | ⟨_, h4⟩
  · exact Nat.le_refl _
  · exact TensorVectorized_counter s s' tensor indices true r h4

theorem ForEnter_counter (s : VectorizeForTransMutator) (lv : Var) (ft : ForType)
    (vi : VectorizeInfo) : (s.ForEnter lv ft vi).var_index_ = s.var_index_ := by
  unfold ForEnter
  split <;> rfl

theorem ForExit_counter (s s' : VectorizeForTransMutator) (lv : Var) (mn ext : Expr)
    (ft : ForType) (body e' : Expr) (vi : VectorizeInfo)
    (h : s.ForExit lv mn ext ft body vi = .ok (e', s')) : s'.var_index_ = s.var_index_ := by
  by_cases hin : s.in_vectorize_ = true
  · obtain ⟨_, _, _, _, _, _, rfl⟩ := ForExit_inv s s' lv mn ext ft body e' vi hin h
    rfl
  · simp only [Bool.not_eq_true] at hin
    rw [ForExit_scalar s lv mn ext ft body vi hin] at h
    simp only [Except.ok.injEq, Prod.mk.injEq] at h
    rw [← h.2]

mutual
theorem Visit_counter : ∀ (e : Expr) (s : VectorizeForTransMutator) (e' : Expr)
    (s' : VectorizeForTransMutator), Visit e s = .ok (e', s') →
    s.var_index_ ≤ s'.var_index_
  | .IntImm _, s, e', s', h => by
      simp only [Visit, Except.ok.injEq, Prod.mk.injEq] at h
      rw [← h.2]
  | ._Var_ _, s, e', s', h => by
      simp only [Visit, Except.ok.injEq, Prod.mk.injEq] at h
      rw [← h.2]
  | .Add a b, s, e', s', h => by
      simp only [Visit, bind_eq_ok] at h
      obtain ⟨⟨a', s1⟩, h1, ⟨b', s2⟩, h2, h3⟩ := h
      simp only [Except.ok.injEq, Prod.mk.injEq] at h3
      rw [← h3.2]
      exact Nat.le_trans (Visit_counter a s a' s1 h1) (Visit_counter b s1 b' s2 h2)
  | .Cast _ v, s, e', s', h => by
      simp only [Visit, bind_eq_ok] at h
      obtain ⟨⟨v', s1⟩, h1, h3⟩ := h
      simp only [Except.ok.injEq, Prod.mk.injEq] at h3
      rw [← h3.2]
      exact Visit_counter v s v' s1 h1
  | .Let symbol body, s, e', s', h => by
      simp only [Visit, bind_eq_ok] at h
      obtain ⟨⟨a', s1⟩, h1, ⟨b', s2⟩, h2, h3⟩ := h
      simp only [Except.ok.injEq, Prod.mk.injEq] at h3
      rw [← h3.2]
      exact Nat.le_trans (Visit_counter symbol s a' s1 h1) (VisitOpt_counter body s1 b' s2 h2)
  | .Load tensor indices, s, e', s', h => by
      simp only [Visit] at h
      exact VisitLoad_counter s s' tensor indices e' h
  | .Store tensor value indices, s, e', s', h => by
      simp only [Visit, bind_eq_ok] at h
      obtain ⟨⟨r, s1⟩, h1, ⟨v', s2⟩, h2, h3⟩ := h
      simp only [Except.ok.injEq, Prod.mk.injEq] at h3
      rw [← h3.2]
      exact Nat.le_trans (VisitStoreTarget_counter s s1 tensor indices r h1)
        (Visit_counter value s1 v' s2 h2)
  | ._Tensor_ _ _ shape _ _, s, e', s', h => by
      simp only [Visit, bind_eq_ok] at h
      obtain ⟨⟨a', s1⟩, h1, h3⟩ := h
      simp only [Except.ok.injEq, Prod.mk.injEq] at h3
      rw [← h3.2]
      exact VisitList_counter shape s a' s1 h1
  | .For lv mn ext ft body vi, s, e', s', h => by
      simp only [Visit, bind_eq_ok] at h
      obtain ⟨⟨mn', s1⟩, h1, ⟨ext', s2⟩, h2, ⟨body', s3⟩, h3, h4⟩ := h
      have ha := Visit_counter mn _ mn' s1 h1
      have hb := Visit_counter ext s1 ext' s2 h2
      have hc := Visit_counter body s2 body' s3 h3
      rw [ForEnter_counter] at ha
      rw [ForExit_counter s3 s' lv mn' ext' ft body' e' vi h4]
      exact Nat.le_trans ha (Nat.le_trans hb hc)
  | .IfThenElse condition true_case false_case, s, e', s', h => by
      simp only [Visit, bind_eq_ok] at h
      obtain ⟨⟨a', s1⟩, h1, ⟨b', s2⟩, h2, ⟨c', s3⟩, h3, h4⟩ := h
      simp only [Except.ok.injEq, Prod.mk.injEq] at h4
      have ha := Visit_counter condition { s with in_vectorize_ := false } a' s1 h1
      have hb := Visit_counter true_case s1 b' s2 h2
      have hc := VisitOpt_counter false_case s2 c' s3 h3
      rw [← h4.2]
      exact Nat.le_trans ha (Nat.le_trans hb hc)
  | .Block stmts, s, e', s', h => by
      simp only [Visit, bind_eq_ok] at h
      obtain ⟨⟨v', s1⟩, h1, h3⟩ := h
      simp only [Except.ok.injEq, Prod.mk.injEq] at h3
      rw [← h3.2]
      exact VisitList_counter stmts s v' s1 h1
  | .GetAddr data, s, e', s', h => by
      simp only [Visit, bind_eq_ok] at h
      obtain ⟨⟨v', s1⟩, h1, h3⟩ := h
      simp only [Except.ok.injEq, Prod.mk.injEq] at h3
      rw [← h3.2]
      exact Visit_counter data s v' s1 h1
theorem VisitList_counter : ∀ (es : List Expr) (s : VectorizeForTransMutator)
    (es' : List Expr) (s' : VectorizeForTransMutator), VisitList es s = .ok (es', s') →
    s.var_index_ ≤ s'.var_index_
  | [], s, es', s', h => by
      simp only [VisitList, Except.ok.injEq, Prod.mk.injEq] at h
      rw [← h.2]
  | e :: es, s, es', s', h => by
      simp only [VisitList, bind_eq_ok] at h
      obtain ⟨⟨a', s1⟩, h1, ⟨b', s2⟩, h2, h3⟩ := h
      simp only [Except.ok.injEq, Prod.mk.injEq] at h3
      rw [← h3.2]
      exact Nat.le_trans (Visit_counter e s a' s1 h1) (VisitList_counter es s1 b' s2 h2)
theorem VisitOpt_counter : ∀ (o : Option Expr) (s : VectorizeForTransMutator)
    (o' : Option Expr) (s' : VectorizeForTransMutator), VisitOpt o s = .ok (o', s') →
    s.var_index_ ≤ s'.var_index_
  | none, s, o', s', h => by
      simp only [VisitOpt, Except.ok.injEq, Prod.mk.injEq] at h
      rw [← h.2]
  | some e, s, o', s', h => by
      simp only [VisitOpt, bind_eq_ok] at h
      obtain ⟨⟨v', s1⟩, h1, h3⟩ := h
      simp only [Except.ok.injEq, Prod.mk.injEq] at h3
      rw [← h3.2]
      exact Visit_counter e s v' s1 h1
end

theorem Reaches_counter {e n : Expr} {s sn : VectorizeForTransMutator}
    (h : Reaches e s n sn) : s.var_index_ ≤ sn.var_index_ := by
  induction h with
  | here e s => exact Nat.le_refl _
  | add_a _ ih => exact ih
  | add_b h1 _ ih => exact Nat.le_trans (Visit_counter _ _ _ _ h1) ih
  | cast _ ih => exact ih
  | let_symbol _ ih => exact ih
  | let_body h1 _ ih => exact Nat.le_trans (Visit_counter _ _ _ _ h1) ih
  | store_value h1 _ ih => exact Nat.le_trans (VisitStoreTarget_counter _ _ _ _ _ h1) ih
  | tensor_shape _ _ _ h1 _ ih => exact Nat.le_trans (VisitList_counter _ _ _ _ h1) ih
  | for_min _ ih => rw [ForEnter_counter] at ih; exact ih
  | for_extent h1 _ ih =>
      have := Visit_counter _ _ _ _ h1
      rw [ForEnter_counter] at this
      exact Nat.le_trans this ih
  | for_body h1 h2 _ ih =>
      have h1' := Visit_counter _ _ _ _ h1
      rw [ForEnter_counter] at h1'
      exact Nat.le_trans h1' (Nat.le_trans (Visit_counter _ _ _ _ h2) ih)
  | if_condition _ ih => exact ih
  | if_true h1 _ ih =>
      have h1' := Visit_counter _ _ _ _ h1
      exact Nat.le_trans h1' ih
  | if_false h1 h2 _ ih =>
      have h1' := Visit_counter _ _ _ _ h1
      exact Nat.le_trans h1' (Nat.le_trans (Visit_counter _ _ _ _ h2) ih)
  | block _ _ _ h1 _ ih => exact Nat.le_trans (VisitList_counter _ _ _ _ h1) ih
  | get_addr _ ih => exact ih

/-- C17: names synthesized during one invocation are pairwise distinct. (1) A successful
call of `AppendCast` in a state with counter `c` on the tensor named `t` maps `t` to the
variable named `vectorized_<t>_<c>`, names the pointer of the write path
`vectorized_<t>_<c>_ptr`, and leaves the counter at `c + 1`. (2) No walk of a tree decreases
the counter, and (3) neither does the part of a traversal before a node is reached, so calls
of one invocation are made with strictly increasing counters. (4) Two vector-variable
names, and (5) two pointer names, made with different counters differ, whatever the tensor
names are; (6) a pointer name never equals a vector-variable name. -/
theorem C17_synthesized_names_distinct :
    (∀ (s s' : VectorizeForTransMutator) (name : String) (ty : Type_) (sh dom : List Expr)
        (op : String) (idx : List Expr) (is_store : Bool),
        s.AppendCast (_Tensor_ name ty sh dom op) idx is_store = .ok s' →
        ∃ lv tn, s'.var_index_ = s.var_index_ + 1 ∧
          s'.tensor2vectorized_vars_ =
            map_emplace s.tensor2vectorized_vars_ name (s.VectorizedVar name ty tn) ∧
          s'.update_cast_stmts_ = s.update_cast_stmts_ ++
            s.CastSetup (_Tensor_ name ty sh dom op) name ty idx is_store lv tn ∧
          (s.VectorizedVar name ty tn).name =
            "vectorized_" ++ name ++ "_" ++ toString s.var_index_ ∧
          (s.VectorizedPtr name ty tn).name =
            "vectorized_" ++ name ++ "_" ++ toString s.var_index_ ++ "_ptr") ∧
    (∀ (e e' : Expr) (s s' : VectorizeForTransMutator),
        Visit e s = .ok (e', s') → s.var_index_ ≤ s'.var_index_) ∧
    (∀ (e n : Expr) (s sn : VectorizeForTransMutator),
        Reaches e s n sn → s.var_index_ ≤ sn.var_index_) ∧
    (∀ (s1 s2 : VectorizeForTransMutator) (t1 t2 : String) (ty1 ty2 : Type_)
        (tn1 tn2 : String), s1.var_index_ ≠ s2.var_index_ →
        (s1.VectorizedVar t1 ty1 tn1).name ≠ (s2.VectorizedVar t2 ty2 tn2).name) ∧
    (∀ (s1 s2 : VectorizeForTransMutator) (t1 t2 : String) (ty1 ty2 : Type_)
        (tn1 tn2 : String), s1.var_index_ ≠ s2.var_index_ →
        (s1.VectorizedPtr t1 ty1 tn1).name ≠ (s2.VectorizedPtr t2 ty2 tn2).name) ∧
    (∀ (s1 s2 : VectorizeForTransMutator) (t1 t2 : String) (ty1 ty2 : Type_)
        (tn1 tn2 : String),
        (s1.VectorizedPtr t1 ty1 tn1).name ≠ (s2.VectorizedVar t2 ty2 tn2).name) := by
  refine ⟨?_, ?_, ?_, ?_, ?_, ?_⟩
  · intro s s' name ty sh dom op idx is_store h
    obtain ⟨lv, tn, hlv, htn⟩ := AppendCast_inv s s' name ty sh dom op idx is_store h
    rw [AppendCast_eq s name ty sh dom op idx is_store lv tn hlv htn] at h
    simp only [Except.ok.injEq] at h
    exact ⟨lv, tn, by rw [← h], by rw [← h], by rw [← h], rfl, rfl⟩
  · intro e e' s s' h
    exact Visit_counter e s e' s' h
  · intro e n s sn h
    exact Reaches_counter h
  · intro s1 s2 t1 t2 ty1 ty2 tn1 tn2 hne heq
    exact hne (vectorized_name_inj t1 t2 _ _ heq).2
  · intro s1 s2 t1 t2 ty1 ty2 tn1 tn2 hne heq
    simp only [VectorizedPtr] at heq
    have hd := congrArg String.data heq
    simp only [String.data_append, List.append_cancel_right_eq] at hd
    have heq' : "vectorized_" ++ t1 ++ "_" ++ toString s1.var_index_ =
        "vectorized_" ++ t2 ++ "_" ++ toString s2.var_index_ :=
      String.ext (by simpa [String.data_append] using hd)
    exact hne (vectorized_name_inj t1 t2 _ _ heq').2
  · intro s1 s2 t1 t2 ty1 ty2 tn1 tn2 heq
    exact ptr_name_ne_vectorized_name _ t2 s2.var_index_ heq

/-- Tensor names with underscores and digits: `A_1` at counter 2 and `A` at counter 12 get
the names `vectorized_A_1_2` and `vectorized_A_12`, and a walk of the loop with body
`C[i] = A[i] + B[i]` from the fresh rewriter ends with counter 3. -/
theorem C17_synthesized_names_distinct_witness :
    ({ init with var_index_ := 2 }.VectorizedVar "A_1" Examples.Float32 "float4").name ≠
        ({ init with var_index_ := 12 }.VectorizedVar "A" Examples.Float32 "float4").name ∧
      (Visit Examples.AddLoop init).toOption.map (fun r => r.2.var_index_) = some 3 ∧
      init.var_index_ ≤ 3 :=
  ⟨C17_synthesized_names_distinct.2.2.2.1 { init with var_index_ := 2 }
      { init with var_index_ := 12 } "A_1" "A" Examples.Float32 Examples.Float32
      "float4" "float4" (by decide),
    by decide!,
    C17_synthesized_names_distinct.2.1 Examples.AddLoop (Block Examples.AddLoopStmts) init
      { init with vectorize_size_ := 4, loop_var_ := some Examples.i, var_index_ := 3 } rfl⟩

/-! ## The address of a cast does not mention the loop variable -/

mutual
theorem IrReplaceVarBroadcast_removes : ∀ (e : Expr) (var : Var) (to_ : Expr),
    var.name ∉ CollectIndexSymbols to_ →
    var.name ∉ CollectIndexSymbols (IrReplaceVarBroadcast e var to_)
  | .IntImm _, _, _, _ => by simp [IrReplaceVarBroadcast, CollectIndexSymbols]
  | ._Var_ v, var, to_, ht => by
      simp only [IrReplaceVarBroadcast]
      split
      · exact ht
      · rename_i hne
        simp only [CollectIndexSymbols, List.mem_singleton]
        exact fun h => hne h.symm
  | .Add a b, var, to_, ht => by
      simp only [IrReplaceVarBroadcast, CollectIndexSymbols, List.mem_append, not_or]
      exact ⟨IrReplaceVarBroadcast_removes a var to_ ht,
        IrReplaceVarBroadcast_removes b var to_ ht⟩
  | .Cast _ v, var, to_, ht => by
      simp only [IrReplaceVarBroadcast, CollectIndexSymbols]
      exact IrReplaceVarBroadcast_removes v var to_ ht
  | .Let symbol body, var, to_, ht => by
      simp only [IrReplaceVarBroadcast, CollectIndexSymbols, List.mem_append, not_or]
      exact ⟨IrReplaceVarBroadcast_removes symbol var to_ ht,
        IrReplaceVarBroadcastOpt_removes body var to_ ht⟩
  | .Load _ indices, var, to_, ht => by
      simp only [IrReplaceVarBroadcast, CollectIndexSymbols]
      exact IrReplaceVarBroadcastList_removes indices var to_ ht
  | .Store tensor value indices, var, to_, ht => by
      simp only [IrReplaceVarBroadcast, CollectIndexSymbols, List.mem_append, not_or]
      exact ⟨⟨IrReplaceVarBroadcast_removes value var to_ ht,
        IrReplaceVarBroadcast_removes tensor var to_ ht⟩,
        IrReplaceVarBroadcastList_removes indices var to_ ht⟩
  | ._Tensor_ _ _ shape _ _, var, to_, ht => by
      simp only [IrReplaceVarBroadcast, CollectIndexSymbols]
      exact IrReplaceVarBroadcastList_removes shape var to_ ht
  | .For _ min extent _ body _, var, to_, ht => by
      simp only [IrReplaceVarBroadcast, CollectIndexSymbols, List.mem_append, not_or]
      exact ⟨⟨IrReplaceVarBroadcast_removes min var to_ ht,
        IrReplaceVarBroadcast_removes extent var to_ ht⟩,
        IrReplaceVarBroadcast_removes body var to_ ht⟩
  | .IfThenElse condition true_case false_case, var, to_, ht => by
      simp only [IrReplaceVarBroadcast, CollectIndexSymbols, List.mem_append, not_or]
      exact ⟨⟨IrReplaceVarBroadcast_removes condition var to_ ht,
        IrReplaceVarBroadcast_removes true_case var to_ ht⟩,
        IrReplaceVarBroadcastOpt_removes false_case var to_ ht⟩
  | .Block stmts, var, to_, ht => by
      simp only [IrReplaceVarBroadcast, CollectIndexSymbols]
      exact IrReplaceVarBroadcastList_removes stmts var to_ ht
  | .GetAddr data, var, to_, ht => by
      simp only [IrReplaceVarBroadcast, CollectIndexSymbols]
      exact IrReplaceVarBroadcast_removes data var to_ ht
theorem IrReplaceVarBroadcastList_removes : ∀ (es : List Expr) (var : Var) (to_ : Expr),
    var.name ∉ CollectIndexSymbols to_ →
    var.name ∉ CollectIndexSymbolsList (IrReplaceVarBroadcastList es var to_)
  | [], _, _, _ => by simp [IrReplaceVarBroadcastList, CollectIndexSymbolsList]
  | e :: es, var, to_, ht => by
      simp only [IrReplaceVarBroadcastList, CollectIndexSymbolsList, List.mem_append, not_or]
      exact ⟨IrReplaceVarBroadcast_removes e var to_ ht,
        IrReplaceVarBroadcastList_removes es var to_ ht⟩
theorem IrReplaceVarBroadcastOpt_removes : ∀ (o : Option Expr) (var : Var) (to_ : Expr),
    var.name ∉ CollectIndexSymbols to_ →
    var.name ∉ CollectIndexSymbolsOpt (IrReplaceVarBroadcastOpt o var to_)
  | none, _, _, _ => by simp [IrReplaceVarBroadcastOpt, CollectIndexSymbolsOpt]
  | some e, var, to_, ht => by
      simp only [IrReplaceVarBroadcastOpt, CollectIndexSymbolsOpt]
      exact IrReplaceVarBroadcast_removes e var to_ ht
end

/-- C18: when `AppendCast` succeeds for the tensor `T` with indices `idx` in a rewriter whose
loop variable is `v`, the statements it queues are, on the read path, one binding of the
vector variable to the load through the cast and, on the write path, the binding of the
pointer variable to the cast followed by the zero-initialisation of the vector variable;
the cast is applied to the address of the load of `T` at `idx` with every variable node
named like `v` replaced by the constant 0. As `CollectIndexSymbols` counts them, the name of
`v` is not among the variables of that address, and a variable of a queued statement that
has the name of `v` can only be one of the variables the statement binds. -/
theorem C18_cast_address_without_loop_var (s s' : VectorizeForTransMutator) (name : String)
    (ty : Type_) (sh dom : List Expr) (op : String) (idx : List Expr) (is_store : Bool)
    (v : Var) (hv : s.loop_var_ = some v)
    (h : s.AppendCast (_Tensor_ name ty sh dom op) idx is_store = .ok s') :
    ∃ tn address queued, s.GetVectorTypeName ty.ElementOf = .ok tn ∧
      address = Load (_Tensor_ name ty sh dom op) (IrReplaceVarBroadcastList idx v (IntImm 0)) ∧
      s'.update_cast_stmts_ = s.update_cast_stmts_ ++ queued ∧
      queued =
        (if is_store then
          [Let (_Var_ (s.VectorizedPtr name ty tn))
              (some (Cast (s.VectorTypePtr ty.ElementOf tn) (GetAddr address))),
            Let (_Var_ (s.VectorizedVar name ty tn)) (some (IntImm 0))]
        else
          [Let (_Var_ (s.VectorizedVar name ty tn))
            (some (Load (Cast (s.VectorTypePtr ty.ElementOf tn) (GetAddr address))
              [IntImm 0]))]) ∧
      v.name ∉ CollectIndexSymbols (GetAddr address) ∧
      (v.name ∈ CollectIndexSymbolsList queued →
        v.name = (s.VectorizedVar name ty tn).name ∨
          v.name = (s.VectorizedPtr name ty tn).name) := by
  obtain ⟨lv, tn, hlv, htn⟩ := AppendCast_inv s s' name ty sh dom op idx is_store h
  obtain rfl : lv = v := Option.some.inj (hlv.symm.trans hv)
  rw [AppendCast_eq s name ty sh dom op idx is_store lv tn hlv htn] at h
  simp only [Except.ok.injEq] at h
  have hfree : lv.name ∉ CollectIndexSymbolsList (IrReplaceVarBroadcastList idx lv (IntImm 0)) :=
    IrReplaceVarBroadcastList_removes idx lv (IntImm 0) (by simp [CollectIndexSymbols])
  refine ⟨tn, _, _, htn, rfl, by rw [← h], ?_, ?_, ?_⟩
  · cases is_store <;> simp [CastSetup, CastExpr, IrReplaceVarBroadcast]
  · simpa [CollectIndexSymbols] using hfree
  · intro hm
    cases is_store
    · simp only [CastSetup, CastExpr, IrReplaceVarBroadcast, Bool.false_eq_true, if_false,
        CollectIndexSymbolsList, CollectIndexSymbols, CollectIndexSymbolsOpt,
        List.append_nil, List.mem_singleton] at hm
      exact Or.inl hm
    · simp only [CastSetup, CastExpr, IrReplaceVarBroadcast, if_true,
        CollectIndexSymbolsList, CollectIndexSymbols, CollectIndexSymbolsOpt,
        List.append_nil, List.mem_append, List.mem_singleton] at hm
      rcases hm with (h1 | h1) | h1
      · exact Or.inr h1
      · exact absurd h1 hfree
      · exact Or.inl h1

/-- The load `A[j, i + 1]` in the loop over `i` with factor 4: the address is `A[j, 0 + 1]`,
which mentions `j` only. -/
theorem C18_cast_address_without_loop_var_witness :
    ∃ tn address queued, Examples.InLoop.GetVectorTypeName Examples.Float32.ElementOf = .ok tn ∧
      address = Load (Examples.Tensor4 "A")
        (IrReplaceVarBroadcastList [_Var_ Examples.j, Add (_Var_ Examples.i) (IntImm 1)]
          Examples.i (IntImm 0)) ∧
      ({ Examples.InLoop with
          var_index_ := 1,
          tensor2vectorized_vars_ :=
            [("A", Examples.InLoop.VectorizedVar "A" Examples.Float32 "CudaVectorType::float4")],
          update_cast_stmts_ :=
            [Let (_Var_ { name := "vectorized_A_0", type := Examples.VectorFloat4 })
              (some (Load (Cast Examples.VectorFloat4Ptr (GetAddr (Load (Examples.Tensor4 "A")
                [_Var_ Examples.j, Add (IntImm 0) (IntImm 1)]))) [IntImm 0]))] } :
        VectorizeForTransMutator).update_cast_stmts_ =
          Examples.InLoop.update_cast_stmts_ ++ queued ∧
      queued =
        (if false then
          [Let (_Var_ (Examples.InLoop.VectorizedPtr "A" Examples.Float32 tn))
              (some (Cast (Examples.InLoop.VectorTypePtr Examples.Float32.ElementOf tn)
                (GetAddr address))),
            Let (_Var_ (Examples.InLoop.VectorizedVar "A" Examples.Float32 tn))
              (some (IntImm 0))]
        else
          [Let (_Var_ (Examples.InLoop.VectorizedVar "A" Examples.Float32 tn))
            (some (Load (Cast (Examples.InLoop.VectorTypePtr Examples.Float32.ElementOf tn)
              (GetAddr address)) [IntImm 0]))]) ∧
      Examples.i.name ∉ CollectIndexSymbols (GetAddr address) ∧
      (Examples.i.name ∈ CollectIndexSymbolsList queued →
        Examples.i.name = (Examples.InLoop.VectorizedVar "A" Examples.Float32 tn).name ∨
          Examples.i.name = (Examples.InLoop.VectorizedPtr "A" Examples.Float32 tn).name) :=
  C18_cast_address_without_loop_var Examples.InLoop _ "A" Examples.Float32 [IntImm 4]
    [IntImm 4] "A_op" [_Var_ Examples.j, Add (_Var_ Examples.i) (IntImm 1)] false Examples.i
    rfl rfl

/-! ## The rewritten loop computes what the scalar loop computes -/

/-- C12: for all contents of the four-element tensors `A`, `B` and `C`, the block that
`VectorizeForTrans` returns for the loop `C[i] = A[i] + B[i]` runs to completion and so does
the loop itself, and both leave the same memory: `A` and `B` as they were and
`C[k] = A[k] + B[k]` for `k = 0, 1, 2, 3`. -/
theorem C12_add_loop_same_memory (a0 a1 a2 a3 b0 b1 b2 b3 c0 c1 c2 c3 : Int) :
    ∃ block, VectorizeForTrans Examples.AddLoop = .ok block ∧
      (Exec block (Examples.Memory a0 a1 a2 a3 b0 b1 b2 b3 c0 c1 c2 c3)).map
          (fun m => m.memory) =
        some [("A", [a0, a1, a2, a3]), ("B", [b0, b1, b2, b3]),
          ("C", [a0 + b0, a1 + b1, a2 + b2, a3 + b3])] ∧
      (Exec Examples.AddLoop (Examples.Memory a0 a1 a2 a3 b0 b1 b2 b3 c0 c1 c2 c3)).map
          (fun m => m.memory) =
        some [("A", [a0, a1, a2, a3]), ("B", [b0, b1, b2, b3]),
          ("C", [a0 + b0, a1 + b1, a2 + b2, a3 + b3])] :=
  ⟨Block Examples.AddLoopStmts, rfl, rfl, rfl⟩

/-! ## Mapped variables carry synthesized names -/

theorem vectorized_name_ne (name : String) (c : Nat) :
    "vectorized_" ++ name ++ "_" ++ toString c ≠ name := by
  intro h
  have hl := congrArg String.length h
  simp only [String.length_append] at hl
  have h11 : ("vectorized_" : String).length = 11 := by decide
  omega

theorem mem_of_lookup_some {α : Type} (l : List (String × α)) (k : String) (v : α)
    (h : l.lookup k = some v) : (k, v) ∈ l := by
  induction l with
  | nil => simp at h
  | cons p rest ih =>
      obtain ⟨k1, v1⟩ := p
      by_cases hk : k = k1
      · subst hk
        simp only [List.lookup, beq_self_eq_true, Option.some.injEq] at h
        subst h
        exact List.mem_cons_self _ _
      · have hb : (k == k1) = false := by simpa using hk
        simp only [List.lookup, hb] at h
        exact List.mem_cons_of_mem _ (ih h)

theorem SynthesizedNames_lookup (s : VectorizeForTransMutator) (name : String) (v : Var)
    (hs : s.SynthesizedNames) (h : s.tensor2vectorized_vars_.lookup name = some v) :
    v.name ≠ name := by
  obtain ⟨c, hc⟩ := hs (name, v) (mem_of_lookup_some _ _ _ h)
  rw [hc]
  exact vectorized_name_ne name c

theorem init_SynthesizedNames : init.SynthesizedNames := by
  intro p hp
  simp [init] at hp

theorem TensorVectorized_names (s s' : VectorizeForTransMutator) (t : Expr)
    (idx : List Expr) (is_store : Bool) (r : Expr × List Expr) (hp : s.SynthesizedNames)
    (h : s.TensorVectorized t idx is_store = .ok (r, s')) : s'.SynthesizedNames := by
  cases t with
  | _Tensor_ name ty sh dom op =>
      obtain ⟨lv, _, h1 | h2⟩ := TensorVectorized_inv s s' name ty sh dom op idx is_store r h
      · obtain ⟨v, _, _, rfl⟩ := h1
        exact hp
      · obtain ⟨tn, _, _, _, rfl⟩ := h2
        intro p hm
        simp only [List.mem_append, List.mem_singleton] at hm
        rcases hm with hm | rfl
        · exact hp p hm
        · exact ⟨s.var_index_, rfl⟩
  | _ => simp [TensorVectorized] at h

theorem VisitLoad_names (s s' : VectorizeForTransMutator) (t : Expr) (idx : List Expr)
    (e' : Expr) (hp : s.SynthesizedNames) (h : s.VisitLoad t idx = .ok (e', s')) :
    s'.SynthesizedNames := by
  rcases VisitLoad_inv s s' t idx e' h with ⟨_, rfl⟩ | ⟨_, _, r, h1, _⟩
  · exact hp
  · exact TensorVectorized_names s s' t idx false r hp h1

theorem VisitStoreTarget_names (s s' : VectorizeForTransMutator) (t : Expr)
    (idx : List Expr) (r : Expr × List Expr) (hp : s.SynthesizedNames)
    (h : s.VisitStoreTarget t idx = .ok (r, s')) : s'.SynthesizedNames := by
  rcases (VisitStoreTarget_inv s s' t idx r h).2 with ⟨_, rfl⟩ | ⟨_, h1⟩
  · exact hp
  · exact TensorVectorized_names s s' t idx true r hp h1

theorem ForEnter_names (s : VectorizeForTransMutator) (lv : Var) (ft : ForType)
    (vi : VectorizeInfo) (h : s.SynthesizedNames) : (s.ForEnter lv ft vi).SynthesizedNames := by
  unfold ForEnter
  split
  · exact h
  · exact h

theorem ForExit_names (s s' : VectorizeForTransMutator) (lv : Var) (mn ext : Expr)
    (ft : ForType) (body e' : Expr) (vi : VectorizeInfo)
    (h : s.ForExit lv mn ext ft body vi = .ok (e', s')) : s'.SynthesizedNames := by
  have hnil : s'.tensor2vectorized_vars_ = [] := by
    by_cases hin : s.in_vectorize_ = true
    · obtain ⟨_, _, _, _, _, _, rfl⟩ := ForExit_inv s s' lv mn ext ft body e' vi hin h
      rfl
    · simp only [Bool.not_eq_true] at hin
      rw [ForExit_scalar s lv mn ext ft body vi hin] at h
      simp only [Except.ok.injEq, Prod.mk.injEq] at h
      rw [← h.2]
  intro p hp
  rw [hnil] at hp
  simp at hp

mutual
theorem Visit_names : ∀ (e : Expr) (s : VectorizeForTransMutator) (e' : Expr)
    (s' : VectorizeForTransMutator), s.SynthesizedNames → Visit e s = .ok (e', s') →
    s'.SynthesizedNames
  | .IntImm _, s, e', s', hc, h => by
      simp only [Visit, Except.ok.injEq, Prod.mk.injEq] at h
      rw [← h.2]; exact hc
  | ._Var_ _, s, e', s', hc, h => by
      simp only [Visit, Except.ok.injEq, Prod.mk.injEq] at h
      rw [← h.2]; exact hc
  | .Add a b, s, e', s', hc, h => by
      simp only [Visit, bind_eq_ok] at h
      obtain ⟨⟨a', s1⟩, h1, ⟨b', s2⟩, h2, h3⟩ := h
      simp only [Except.ok.injEq, Prod.mk.injEq] at h3
      rw [← h3.2]
      exact Visit_names b s1 b' s2 (Visit_names a s a' s1 hc h1) h2
  | .Cast _ v, s, e', s', hc, h => by
      simp only [Visit, bind_eq_ok] at h
      obtain ⟨⟨v', s1⟩, h1, h3⟩ := h
      simp only [Except.ok.injEq, Prod.mk.injEq] at h3
      rw [← h3.2]
      exact Visit_names v s v' s1 hc h1
  | .Let symbol body, s, e', s', hc, h => by
      simp only [Visit, bind_eq_ok] at h
      obtain ⟨⟨a', s1⟩, h1, ⟨b', s2⟩, h2, h3⟩ := h
      simp only [Except.ok.injEq, Prod.mk.injEq] at h3
      rw [← h3.2]
      exact VisitOpt_names body s1 b' s2 (Visit_names symbol s a' s1 hc h1) h2
  | .Load tensor indices, s, e', s', hc, h => by
      simp only [Visit] at h
      exact VisitLoad_names s s' tensor indices e' hc h
  | .Store tensor value indices, s, e', s', hc, h => by
      simp only [Visit, bind_eq_ok] at h
      obtain ⟨⟨⟨t', idx'⟩, s1⟩, h1, ⟨v', s2⟩, h2, h3⟩ := h
      simp only [Except.ok.injEq, Prod.mk.injEq] at h3
      rw [← h3.2]
      exact Visit_names value s1 v' s2
        (VisitStoreTarget_names s s1 tensor indices (t', idx') hc h1) h2
  | ._Tensor_ _ _ shape _ _, s, e', s', hc, h => by
      simp only [Visit, bind_eq_ok] at h
      obtain ⟨⟨a', s1⟩, h1, h3⟩ := h
      simp only [Except.ok.injEq, Prod.mk.injEq] at h3
      rw [← h3.2]
      exact VisitList_names shape s a' s1 hc h1
  | .For lv mn ext ft body vi, s, e', s', hc, h => by
      simp only [Visit, bind_eq_ok] at h
      obtain ⟨⟨mn', s1⟩, h1, ⟨ext', s2⟩, h2, ⟨body', s3⟩, h3, h4⟩ := h
      exact ForExit_names s3 s' lv mn' ext' ft body' e' vi h4
  | .IfThenElse condition true_case false_case, s, e', s', hc, h => by
      simp only [Visit, bind_eq_ok] at h
      obtain ⟨⟨a', s1⟩, h1, ⟨b', s2⟩, h2, ⟨c', s3⟩, h3, h4⟩ := h
      simp only [Except.ok.injEq, Prod.mk.injEq] at h4
      rw [← h4.2]
      exact VisitOpt_names false_case s2 c' s3
        (Visit_names true_case s1 b' s2
          (Visit_names condition { s with in_vectorize_ := false } a' s1 hc h1) h2) h3
  | .Block stmts, s, e', s', hc, h => by
      simp only [Visit, bind_eq_ok] at h
      obtain ⟨⟨v', s1⟩, h1, h3⟩ := h
      simp only [Except.ok.injEq, Prod.mk.injEq] at h3
      rw [← h3.2]
      exact VisitList_names stmts s v' s1 hc h1
  | .GetAddr data, s, e', s', hc, h => by
      simp only [Visit, bind_eq_ok] at h
      obtain ⟨⟨v', s1⟩, h1, h3⟩ := h
      simp only [Except.ok.injEq, Prod.mk.injEq] at h3
      rw [← h3.2]
      exact Visit_names data s v' s1 hc h1
theorem VisitList_names : ∀ (es : List Expr) (s : VectorizeForTransMutator)
    (es' : List Expr) (s' : VectorizeForTransMutator), s.SynthesizedNames →
    VisitList es s = .ok (es', s') → s'.SynthesizedNames
  | [], s, es', s', hc, h => by
      simp only [VisitList, Except.ok.injEq, Prod.mk.injEq] at h
      rw [← h.2]; exact hc
  | e :: es, s, es', s', hc, h => by
      simp only [VisitList, bind_eq_ok] at h
      obtain ⟨⟨a', s1⟩, h1, ⟨b', s2⟩, h2, h3⟩ := h
      simp only [Except.ok.injEq, Prod.mk.injEq] at h3
      rw [← h3.2]
      exact VisitList_names es s1 b' s2 (Visit_names e s a' s1 hc h1) h2
theorem VisitOpt_names : ∀ (o : Option Expr) (s : VectorizeForTransMutator)
    (o' : Option Expr) (s' : VectorizeForTransMutator), s.SynthesizedNames →
    VisitOpt o s = .ok (o', s') → s'.SynthesizedNames
  | none, s, o', s', hc, h => by
      simp only [VisitOpt, Except.ok.injEq, Prod.mk.injEq] at h
      rw [← h.2]; exact hc
  | some e, s, o', s', hc, h => by
      simp only [VisitOpt, bind_eq_ok] at h
      obtain ⟨⟨v', s1⟩, h1, h3⟩ := h
      simp only [Except.ok.injEq, Prod.mk.injEq] at h3
      rw [← h3.2]
      exact Visit_names e s v' s1 hc h1
end

theorem Reaches_names {e n : Expr} {s sn : VectorizeForTransMutator} (h : Reaches e s n sn)
    (hc : s.SynthesizedNames) : sn.SynthesizedNames := by
  induction h with
  | here e s => exact hc
  | add_a _ ih => exact ih hc
  | add_b h1 _ ih => exact ih (Visit_names _ _ _ _ hc h1)
  | cast _ ih => exact ih hc
  | let_symbol _ ih => exact ih hc
  | let_body h1 _ ih => exact ih (Visit_names _ _ _ _ hc h1)
  | store_value h1 _ ih => exact ih (VisitStoreTarget_names _ _ _ _ _ hc h1)
  | tensor_shape _ _ _ h1 _ ih => exact ih (VisitList_names _ _ _ _ hc h1)
  | for_min _ ih => exact ih (ForEnter_names _ _ _ _ hc)
  | for_extent h1 _ ih =>
      exact ih (Visit_names _ _ _ _ (ForEnter_names _ _ _ _ hc) h1)
  | for_body h1 h2 _ ih =>
      exact ih (Visit_names _ _ _ _
        (Visit_names _ _ _ _ (ForEnter_names _ _ _ _ hc) h1) h2)
  | if_condition _ ih => exact ih hc
  | if_true h1 _ ih =>
      have hstep := fun hc' => Visit_names _ _ _ _ hc' h1
      exact ih (hstep hc)
  | if_false h1 h2 _ ih =>
      have hstep := fun hc' => Visit_names _ _ _ _ hc' h1
      exact ih (Visit_names _ _ _ _ (hstep hc) h2)
  | block _ _ _ h1 _ ih => exact ih (VisitList_names _ _ _ _ hc h1)
  | get_addr _ ih => exact ih hc

/-! ## An access is rewritten exactly when it depends on the loop variable -/

theorem TensorVectorized_rewrites (s s' : VectorizeForTransMutator) (name : String)
    (ty : Type_) (sh dom : List Expr) (op : String) (idx : List Expr) (is_store : Bool)
    (lv : Var) (r : Expr × List Expr) (hlv : s.loop_var_ = some lv)
    (h : s.TensorVectorized (_Tensor_ name ty sh dom op) idx is_store = .ok (r, s')) :
    ∃ v, s'.tensor2vectorized_vars_.lookup name = some v ∧
      r = (s.VectorizedTensor v ty op, [_Var_ lv]) ∧
      (s.SynthesizedNames → v.name ≠ name) ∧
      (s.tensor2vectorized_vars_.lookup name = some v → s' = s) ∧
      (s.tensor2vectorized_vars_.lookup name = none →
        ∃ tn, s.GetVectorTypeName ty.ElementOf = .ok tn ∧ v = s.VectorizedVar name ty tn ∧
          s'.var_index_ = s.var_index_ + 1 ∧
          s'.update_cast_stmts_ = s.update_cast_stmts_ ++
            s.CastSetup (_Tensor_ name ty sh dom op) name ty idx is_store lv tn ∧
          s.CastSetup (_Tensor_ name ty sh dom op) name ty idx is_store lv tn ≠ [] ∧
          s'.update_store_stmts_ =
            s.update_store_stmts_ ++ s.StoreBack name ty op is_store tn) := by
  obtain ⟨lv', hlv', h1 | h2⟩ := TensorVectorized_inv s s' name ty sh dom op idx is_store r h
  · obtain rfl : lv' = lv := Option.some.inj (hlv'.symm.trans hlv)
    obtain ⟨v, hv, hr, hs'⟩ := h1
    refine ⟨v, by rw [hs']; exact hv, hr,
      fun hs => SynthesizedNames_lookup s name v hs hv, fun _ => hs', ?_⟩
    intro hnone
    rw [hnone] at hv
    simp at hv
  · obtain rfl : lv' = lv := Option.some.inj (hlv'.symm.trans hlv)
    obtain ⟨tn, hnone, htn, rfl, rfl⟩ := h2
    have hl : (s.tensor2vectorized_vars_ ++ [(name, s.VectorizedVar name ty tn)]).lookup name =
        some (s.VectorizedVar name ty tn) := by
      have he := map_emplace_of_none s.tensor2vectorized_vars_ name
        (s.VectorizedVar name ty tn) hnone
      rw [← he]
      exact lookup_emplace_of_none s.tensor2vectorized_vars_ name _ hnone
    refine ⟨s.VectorizedVar name ty tn, hl, rfl, fun _ => vectorized_name_ne name _, ?_, ?_⟩
    · intro hsome
      rw [hnone] at hsome
      simp at hsome
    · intro _
      exact ⟨tn, htn, rfl, rfl, rfl, CastSetup_ne_nil _ _ _ _ _ _ _ _, rfl⟩

/-- C6: in vectorize mode with loop variable `lv`, a load or store of a tensor `T` is
rewritten exactly when the name of `lv` is among the symbols collected from one of its index
expressions. (1) and (2) say what depending on `lv` means; an empty index list does not.
(3) An access that does not depend on `lv` is left as it was: the load is returned unchanged
with the rewriter unchanged, and the store keeps its tensor reference and index list, the only
changes being those of the walk through the stored value. (4) An access that depends on `lv`
goes through `TensorVectorized`, and whenever its visit succeeds the access comes back with
its tensor reference replaced by the tensor of the variable mapped to the name of `T` and
its index list replaced by `[lv]`; when the name of `T` was not mapped yet, the variable is
the newly synthesized one, the counter has advanced and cast-setup statements have been
queued, and when the mapped variables carry synthesized names the access differs from the
original one. The visit of the load succeeds when the name is mapped already or the element
type has a vector type name. (5) The mapped variables carry synthesized names in every state
in which a traversal started from the fresh rewriter arrives at a node. -/
theorem C6_rewritten_iff_depends_on_loop_var (s : VectorizeForTransMutator) (lv : Var)
    (name : String) (ty : Type_) (sh dom : List Expr) (op : String) (value : Expr)
    (idx : List Expr) (hin : s.in_vectorize_ = true) (hlv : s.loop_var_ = some lv) :
    (DependsOn lv.name idx = true ↔ ∃ index ∈ idx, lv.name ∈ CollectIndexSymbols index) ∧
    DependsOn lv.name [] = false ∧
    (DependsOn lv.name idx = false →
      Visit (Load (_Tensor_ name ty sh dom op) idx) s =
        .ok (Load (_Tensor_ name ty sh dom op) idx, s) ∧
      Visit (Store (_Tensor_ name ty sh dom op) value idx) s =
        (Visit value s >>= fun v => .ok (Store (_Tensor_ name ty sh dom op) v.1 idx, v.2))) ∧
    (DependsOn lv.name idx = true →
      Visit (Load (_Tensor_ name ty sh dom op) idx) s =
        (s.TensorVectorized (_Tensor_ name ty sh dom op) idx false >>=
          fun r => .ok (Load r.1.1 r.1.2, r.2)) ∧
      Visit (Store (_Tensor_ name ty sh dom op) value idx) s =
        (s.TensorVectorized (_Tensor_ name ty sh dom op) idx true >>= fun r =>
          Visit value r.2 >>= fun v => .ok (Store r.1.1 v.1 r.1.2, v.2)) ∧
      (∀ e' s', Visit (Load (_Tensor_ name ty sh dom op) idx) s = .ok (e', s') →
        ∃ v, s'.tensor2vectorized_vars_.lookup name = some v ∧
          e' = Load (s.VectorizedTensor v ty op) [_Var_ lv] ∧
          (s.SynthesizedNames → e' ≠ Load (_Tensor_ name ty sh dom op) idx) ∧
          (s.tensor2vectorized_vars_.lookup name = none →
            ∃ tn, v = s.VectorizedVar name ty tn ∧ s'.var_index_ = s.var_index_ + 1 ∧
              s'.update_cast_stmts_ = s.update_cast_stmts_ ++
                s.CastSetup (_Tensor_ name ty sh dom op) name ty idx false lv tn ∧
              s.CastSetup (_Tensor_ name ty sh dom op) name ty idx false lv tn ≠ [])) ∧
      (∀ e' s', Visit (Store (_Tensor_ name ty sh dom op) value idx) s = .ok (e', s') →
        ∃ v s1 value', s1.tensor2vectorized_vars_.lookup name = some v ∧
          Visit value s1 = .ok (value', s') ∧
          e' = Store (s.VectorizedTensor v ty op) value' [_Var_ lv] ∧
          (s.SynthesizedNames → e' ≠ Store (_Tensor_ name ty sh dom op) value idx) ∧
          (s.tensor2vectorized_vars_.lookup name = none →
            ∃ tn, v = s.VectorizedVar name ty tn ∧ s1.var_index_ = s.var_index_ + 1 ∧
              s1.update_cast_stmts_ = s.update_cast_stmts_ ++
                s.CastSetup (_Tensor_ name ty sh dom op) name ty idx true lv tn ∧
              s.CastSetup (_Tensor_ name ty sh dom op) name ty idx true lv tn ≠ [] ∧
              s1.update_store_stmts_ =
                s.update_store_stmts_ ++ s.StoreBack name ty op true tn)) ∧
      ((s.tensor2vectorized_vars_.lookup name ≠ none ∨
          ∃ tn, s.GetVectorTypeName ty.ElementOf = .ok tn) →
        ∃ e' s', Visit (Load (_Tensor_ name ty sh dom op) idx) s = .ok (e', s'))) ∧
    (∀ (e n : Expr) (sn : VectorizeForTransMutator),
      Reaches e init n sn → sn.SynthesizedNames) := by
  have ht : (_Tensor_ name ty sh dom op).as_tensor = true := rfl
  refine ⟨DependsOn_iff lv.name idx, rfl, fun hd => ⟨?_, ?_⟩,
    fun hd => ⟨?_, ?_, ?_, ?_, ?_⟩, fun e n sn hr => Reaches_names hr init_SynthesizedNames⟩
  · rw [Visit_Load, VisitLoad_independent s lv _ idx hlv hd]
  · rw [Visit_Store, VisitStoreTarget_independent s lv _ idx hlv ht hd, ok_bind]
  · rw [Visit_Load, VisitLoad_dependent s lv _ idx hin hlv ht hd]
  · rw [Visit_Store, VisitStoreTarget_dependent s lv _ idx hin hlv ht hd]
  · intro e' s' h
    rw [Visit_Load, VisitLoad_dependent s lv _ idx hin hlv ht hd, bind_eq_ok] at h
    obtain ⟨⟨r, s1⟩, h1, h2⟩ := h
    simp only [Except.ok.injEq, Prod.mk.injEq] at h2
    obtain ⟨rfl, rfl⟩ := h2
    obtain ⟨v, hv, rfl, hne, _, hnew⟩ :=
      TensorVectorized_rewrites s s1 name ty sh dom op idx false lv r hlv h1
    refine ⟨v, hv, rfl, ?_, ?_⟩
    · intro hs heq
      simp only [VectorizedTensor, Load.injEq, _Tensor_.injEq] at heq
      exact hne hs heq.1.1
    · intro hnone
      obtain ⟨tn, _, h3, h4, h5, h6, _⟩ := hnew hnone
      exact ⟨tn, h3, h4, h5, h6⟩
  · intro e' s' h
    rw [Visit_Store, VisitStoreTarget_dependent s lv _ idx hin hlv ht hd, bind_eq_ok] at h
    obtain ⟨⟨r, s1⟩, h1, h2⟩ := h
    rw [bind_eq_ok] at h2
    obtain ⟨⟨value', s2⟩, h3, h4⟩ := h2
    simp only [Except.ok.injEq, Prod.mk.injEq] at h4
    obtain ⟨rfl, rfl⟩ := h4
    obtain ⟨v, hv, rfl, hne, _, hnew⟩ :=
      TensorVectorized_rewrites s s1 name ty sh dom op idx true lv r hlv h1
    refine ⟨v, s1, value', hv, h3, rfl, ?_, ?_⟩
    · intro hs heq
      simp only [VectorizedTensor, Store.injEq, _Tensor_.injEq] at heq
      exact hne hs heq.1.1
    · intro hnone
      obtain ⟨tn, _, h5, h6, h7, h8, h9⟩ := hnew hnone
      exact ⟨tn, h5, h6, h7, h8, h9⟩
  · intro hok
    rw [Visit_Load, VisitLoad_dependent s lv _ idx hin hlv ht hd]
    cases hl : s.tensor2vectorized_vars_.lookup name with
    | some v =>
        rw [TensorVectorized_hit s name ty sh dom op idx false v lv hl hlv, ok_bind]
        exact ⟨_, _, rfl⟩
    | none =>
        rcases hok with hok | ⟨tn, htn⟩
        · exact absurd hl hok
        · rw [TensorVectorized_miss s name ty sh dom op idx false lv tn hl hlv htn, ok_bind]
          exact ⟨_, _, rfl⟩

/-- In the loop over `i`, the loads `A[j]` and `A[]` stay as they are, and the load `A[i]`
comes back as a load of the vector local mapped to `A`, at the index `i`, which differs from
the original load. -/
theorem C6_rewritten_iff_depends_on_loop_var_witness :
    Visit (Load (Examples.Tensor4 "A") [_Var_ Examples.j]) Examples.InLoop =
        .ok (Load (Examples.Tensor4 "A") [_Var_ Examples.j], Examples.InLoop) ∧
      Visit (Load (Examples.Tensor4 "A") []) Examples.InLoop =
        .ok (Load (Examples.Tensor4 "A") [], Examples.InLoop) ∧
      (Visit (Load (Examples.Tensor4 "A") [_Var_ Examples.i]) Examples.InLoop).toOption.map
          (fun r => (r.2.var_index_, r.2.update_cast_stmts_.length,
            r.2.tensor2vectorized_vars_.map (fun p => (p.1, p.2.name)))) =
        some (1, 1, [("A", "vectorized_A_0")]) ∧
      ∃ e' s' v, Visit (Load (Examples.Tensor4 "A") [_Var_ Examples.i]) Examples.InLoop =
          .ok (e', s') ∧
        s'.tensor2vectorized_vars_.lookup "A" = some v ∧
        e' = Load (Examples.InLoop.VectorizedTensor v Examples.Float32 "A_op")
          [_Var_ Examples.i] ∧
        e' ≠ Load (Examples.Tensor4 "A") [_Var_ Examples.i] := by
  have hj := C6_rewritten_iff_depends_on_loop_var Examples.InLoop Examples.i "A"
    Examples.Float32 [IntImm 4] [IntImm 4] "A_op" (IntImm 0) [_Var_ Examples.j] rfl rfl
  have h0 := C6_rewritten_iff_depends_on_loop_var Examples.InLoop Examples.i "A"
    Examples.Float32 [IntImm 4] [IntImm 4] "A_op" (IntImm 0) [] rfl rfl
  have hi := C6_rewritten_iff_depends_on_loop_var Examples.InLoop Examples.i "A"
    Examples.Float32 [IntImm 4] [IntImm 4] "A_op" (IntImm 0) [_Var_ Examples.i] rfl rfl
  refine ⟨(hj.2.2.1 rfl).1, (h0.2.2.1 rfl).1, by decide!, ?_⟩
  obtain ⟨_, _, hload, _, hsucc⟩ := hi.2.2.2.1 rfl
  obtain ⟨e', s', hv⟩ := hsucc (Or.inr ⟨"CudaVectorType::float4", rfl⟩)
  obtain ⟨v, hlook, he, hne, _⟩ := hload e' s' hv
  exact ⟨e', s', v, hv, hlook, he, hne (fun p hp => absurd hp (List.not_mem_nil p))⟩

end cinn

namespace tensorrt

/-! ## The source of the output size in the `nearest_interp_v2` converter -/

theorem IS_TRT_VERSION_GE_of_le (TRT_VERSION version : Nat) (h : version ≤ TRT_VERSION) :
    IS_TRT_VERSION_GE TRT_VERSION version = true := by
  simp [IS_TRT_VERSION_GE, h]

theorem AddResizeLayer_fields {F : Type} (TRT_VERSION : Nat) (input : ITensor)
    (align_corners : Bool) :
    (AddResizeLayer TRT_VERSION input align_corners : ResizeLayer F).scales = none ∧
      (AddResizeLayer TRT_VERSION input align_corners : ResizeLayer F).input1 = none := by
  unfold AddResizeLayer
  cases IS_TRT_VERSION_GE TRT_VERSION 8600 <;> cases align_corners <;> exact ⟨rfl, rfl⟩

/-- C20 (counterexample): compiled against TensorRT 8.0, the converter ignores a
`SizeTensor` input with two entries: on the NCHW op with that input and the scale attribute
`[2, 3]` it sets the scales `[1, 1, 2, 3]` and gives the layer no second input. -/
theorem C20_size_tensor_ignored_before_8200 :
    ∃ layer, NearestInterpolateV2OpConverter 8000 Examples.SizeTensorOp
        Examples.Dims1x4x3x16 = .ok layer ∧
      (Examples.SizeTensorOp.Input "SizeTensor").length = 2 ∧
      layer.scales = some [1, 1, 2, 3] ∧ layer.input1 = none :=
  ⟨_, rfl, rfl, rfl, rfl⟩

/-- C20 (amended): compiled against TensorRT 8.2 or later, the converter takes the output
size with the priority `SizeTensor` input, then `out_h` and `out_w`, then the scale
attribute. A layout other than NCHW and NHWC raises an invalid-argument error. For NCHW and
NHWC the converter succeeds; when the `SizeTensor` input has at least two entries the layer
gets, as its second input, the concatenation of the leading entries of the input shape with
the two size tensors, and no scales are set; otherwise no second input is given and the
scales are `[1, 1, scale_h, scale_w]` for NCHW and `[1, scale_h, scale_w, 1]` for NHWC, where
`(scale_h, scale_w)` is `(out_h / H, out_w / W)` of the input when both `out_h` and `out_w`
are positive, else the first two entries of the scale attribute when it has two, else
`(1, 1)`. -/
theorem C20_output_size_priority {F : Type} [One F] [Div F] [IntCast F] (TRT_VERSION : Nat)
    (op_desc : OpDesc F) (in_dim : Nat → Int) (hver : 8200 ≤ TRT_VERSION) :
    (op_desc.data_layout ≠ DataLayout.kNCHW → op_desc.data_layout ≠ DataLayout.kNHWC →
      NearestInterpolateV2OpConverter TRT_VERSION op_desc in_dim =
        .error cinn.Err.InvalidArgument) ∧
    (op_desc.data_layout = DataLayout.kNCHW ∨ op_desc.data_layout = DataLayout.kNHWC →
      ∃ layer, NearestInterpolateV2OpConverter TRT_VERSION op_desc in_dim = .ok layer ∧
        (∀ n0 n1 rest, op_desc.Input "SizeTensor" = n0 :: n1 :: rest →
          layer.scales = none ∧
          layer.input1 = some (ITensor.Concat
            (if op_desc.data_layout = DataLayout.kNCHW then
              [ITensor.GetEleTensorOfShape
                  (ITensor.Shape (ITensor.GetITensor ((op_desc.Input "X").headD ""))) 0,
                ITensor.GetEleTensorOfShape
                  (ITensor.Shape (ITensor.GetITensor ((op_desc.Input "X").headD ""))) 1,
                ITensor.Concat [ITensor.GetITensor n0, ITensor.GetITensor n1]]
            else
              [ITensor.GetEleTensorOfShape
                  (ITensor.Shape (ITensor.GetITensor ((op_desc.Input "X").headD ""))) 0,
                ITensor.Concat [ITensor.GetITensor n0, ITensor.GetITensor n1],
                ITensor.GetEleTensorOfShape
                  (ITensor.Shape (ITensor.GetITensor ((op_desc.Input "X").headD ""))) 3]))) ∧
        ((op_desc.Input "SizeTensor").length < 2 →
          layer.input1 = none ∧
          ∃ scale_h scale_w,
            layer.scales = some
              (if op_desc.data_layout = DataLayout.kNCHW then [1, 1, scale_h, scale_w]
                else [1, scale_h, scale_w, 1]) ∧
            (0 < op_desc.out_h ∧ 0 < op_desc.out_w →
              scale_h = ((op_desc.out_h : Int) : F) /
                  ((in_dim (if op_desc.data_layout = DataLayout.kNCHW then 2 else 1) : Int) : F) ∧
              scale_w = ((op_desc.out_w : Int) : F) /
                  ((in_dim (if op_desc.data_layout = DataLayout.kNCHW then 3 else 2) : Int) : F)) ∧
            (¬ (0 < op_desc.out_h ∧ 0 < op_desc.out_w) →
              (∀ s0 s1 rest, op_desc.scale = s0 :: s1 :: rest → scale_h = s0 ∧ scale_w = s1) ∧
              (op_desc.scale.length < 2 → scale_h = 1 ∧ scale_w = 1)))) := by
  have h82 := IS_TRT_VERSION_GE_of_le TRT_VERSION 8200 hver
  constructor
  · intro h1 h2
    simp [NearestInterpolateV2OpConverter, h1, h2, bind, Except.bind]
  · intro hl
    obtain ⟨hb1, hb2⟩ := AddResizeLayer_fields (F := F) TRT_VERSION
      (ITensor.GetITensor ((op_desc.Input "X").headD "")) op_desc.align_corners
    simp only [NearestInterpolateV2OpConverter, h82]
    generalize AddResizeLayer (F := F) TRT_VERSION
      (ITensor.GetITensor ((op_desc.Input "X").headD "")) op_desc.align_corners = base
      at hb1 hb2
    have hI : op_desc.Input "SizeTensor" = (op_desc.inputs.lookup "SizeTensor").getD [] := rfl
    rcases hl with hl | hl <;>
    rcases hlook : op_desc.inputs.lookup "SizeTensor" with _ | _ | ⟨n0, _ | ⟨n1, nrest⟩⟩ <;>
    simp only [hl, hI, hlook, Option.getD, Option.isSome, reduceIte, Bool.false_eq_true,
      bind, Except.bind, pure, Except.pure, List.nil_append, List.cons_append] <;>
    refine ⟨_, rfl, ?_, ?_⟩
    all_goals first
      | (intro m0 m1 rest hm
         simp only [List.cons.injEq, reduceCtorEq, and_false, false_and] at hm
         try (obtain ⟨rfl, rfl, _⟩ := hm; exact ⟨hb1, rfl⟩))
      | (intro hlen
         simp only [List.length_cons, List.length_nil] at hlen
         first
           | omega
           | (refine ⟨hb2, _, _, rfl, ?_, ?_⟩
              · intro hout
                simp only [gt_iff_lt, hout, and_self, if_true]
                all_goals exact ⟨rfl, rfl⟩
              · intro hout
                simp only [gt_iff_lt, hout, if_false]
                constructor
                · intro s0 s1 srest hs
                  simp only [hs]
                  all_goals exact ⟨trivial, trivial⟩
                · intro hs
                  rcases hsc : op_desc.scale with _ | ⟨s0, _ | ⟨s1, srest⟩⟩
                  · exact ⟨rfl, rfl⟩
                  · exact ⟨rfl, rfl⟩
                  · rw [hsc] at hs
                    simp only [List.length_cons] at hs
                    omega))

/-- Compiled against TensorRT 8.6, the NHWC op with `out_h = 8` and `out_w = 6` on an input
of dimensions `[1, 4, 3, 16]` gets the scales `[1, 8 / 4, 6 / 3, 1]` and no second input. -/
theorem C20_output_size_priority_witness :
    8200 ≤ 8600 ∧
      ∃ layer, NearestInterpolateV2OpConverter 8600 Examples.OutSizeOp
          Examples.Dims1x4x3x16 = .ok layer ∧
        layer.input1 = none ∧
        layer.scales = some [1, ((8 : Int) : ℚ) / ((4 : Int) : ℚ),
          ((6 : Int) : ℚ) / ((3 : Int) : ℚ), 1] := by
  refine ⟨by decide, ?_⟩
  obtain ⟨layer, h, _, h2⟩ :=
    (C20_output_size_priority 8600 Examples.OutSizeOp Examples.Dims1x4x3x16
      (by decide)).2 (Or.inr rfl)
  obtain ⟨hi, scale_h, scale_w, hs, hpos, _⟩ := h2 (by decide)
  obtain ⟨rfl, rfl⟩ := hpos ⟨by decide, by decide⟩
  exact ⟨layer, h, hi, hs⟩

end tensorrt
